import Mathlib

/-!
# Just-in-time fMP4 segmenter: sample ranges, segment counts and manifests

A shallow embedding of the arithmetic core of `jit-streamer/services/segmenter.go`
and `jit-streamer/services/manifest.go`, followed by theorems about it.

Machine integers are natural numbers reduced modulo `2^32` (`uint32`) or `2^64`
(`uint64`) at every operation that can wrap in Go; Go's `int` is the 64-bit
two's complement integer of the amd64/arm64 targets.
-/

set_option maxRecDepth 100000

namespace JitStreamer

/-! ## Machine integers -/

/-- Number of values of Go's `uint32`. -/
def u32 : Nat := 2 ^ 32

/-- Number of values of Go's `uint64`. -/
def u64 : Nat := 2 ^ 64

/-- Go's conversion `int(x)` of a `uint64` value on a 64-bit target: the two's
complement reading of the same 64 bits. -/
def toInt (x : Nat) : Int :=
  if x % u64 < 2 ^ 63 then ((x % u64 : Nat) : Int) else ((x % u64 : Nat) : Int) - 2 ^ 64

/-- Go's conversion `uint64(i)` of an `int` value: reduction modulo `2^64`. -/
def ofInt (i : Int) : Nat := (i % (2 ^ 64 : Int)).toNat

/-! ## Data model -/

/-- One run of the decoding-time-to-sample table: `SampleCount[i]` consecutive
samples that all last `SampleTimeDelta[i]` ticks.  The box of the MP4 library keeps
the two columns in two slices of equal length; an entry is one index of both. -/
structure SttsEntry where
  SampleCount : Nat
  SampleTimeDelta : Nat
deriving DecidableEq, Repr

/-- The `stts` box of a track. -/
structure SttsBox where
  Entries : List SttsEntry
deriving DecidableEq, Repr

/-- The sample table of a track, as far as the segmenter reads it here. -/
structure StblBox where
  Stts : Option SttsBox
deriving DecidableEq, Repr

/-- A track; `Stbl` stands for `trak.Mdia.Minf.Stbl`. -/
structure TrakBox where
  Stbl : Option StblBox
deriving DecidableEq, Repr

/-- The fields of `VideoFile` that the segment arithmetic reads. -/
structure VideoFile where
  Timescale : Nat
  Duration : Nat
  VideoTrack : Option TrakBox
deriving DecidableEq, Repr

/-- The errors of `GenerateMediaSegment` and `getSampleRange`, one constructor per
`fmt.Errorf` message. -/
inductive SegError where
  | noVideoTrack
  | noStblBox
  | noSttsBox
  | noSamplesInSegment (segmentIndex : Int)
deriving DecidableEq, Repr

/-! ## `getSampleRange` -/

/-- The local variables of `getSampleRange` that live across loop iterations;
`startSample = 0` means "not found yet". -/
structure ScanState where
  sampleNum : Nat
  currentTime : Nat
  startSample : Nat
deriving DecidableEq, Repr

/-- Body of the inner loop of `getSampleRange` for one sample of duration `delta`.
`Sum.inl` is the early `return startSample, endSample, nil`; `Sum.inr` is the state
after `sampleNum++`. -/
def scanSample (startTime endTime delta : Nat) (st : ScanState) : (Nat × Nat) ⊕ ScanState :=
  let startSample :=
    if st.startSample = 0 ∧ st.currentTime ≥ startTime then st.sampleNum else st.startSample
  let currentTime := (st.currentTime + delta) % u64
  if currentTime ≥ endTime then Sum.inl (startSample, (st.sampleNum + 1) % u32)
  else Sum.inr ⟨(st.sampleNum + 1) % u32, currentTime, startSample⟩

/-- The inner loop `for j := uint32(0); j < count; j++` of `getSampleRange`; the
first argument is the number of iterations left. -/
def scanEntry (startTime endTime delta : Nat) : Nat → ScanState → (Nat × Nat) ⊕ ScanState
  | 0, st => Sum.inr st
  | j + 1, st =>
    match scanSample startTime endTime delta st with
    | Sum.inl r => Sum.inl r
    | Sum.inr st1 => scanEntry startTime endTime delta j st1

/-- The outer loop `for i, count := range stts.SampleCount` of `getSampleRange`. -/
def scanEntries (startTime endTime : Nat) : List SttsEntry → ScanState → (Nat × Nat) ⊕ ScanState
  | [], st => Sum.inr st
  | e :: es, st =>
    match scanEntry startTime endTime e.SampleTimeDelta e.SampleCount st with
    | Sum.inl r => Sum.inl r
    | Sum.inr st1 => scanEntries startTime endTime es st1

/-- The function `Segmenter.getSampleRange`: the pair `(startSample, endSample)`, or
the error for a missing `stts` box. -/
def getSampleRange (stbl : StblBox) (startTime endTime : Nat) : Except SegError (Nat × Nat) :=
  match stbl.Stts with
  | none => Except.error SegError.noSttsBox
  | some stts =>
    match scanEntries startTime endTime stts.Entries ⟨1, 0, if startTime = 0 then 1 else 0⟩ with
    | Sum.inl r => Except.ok r
    | Sum.inr st => Except.ok (if st.startSample = 0 then 1 else st.startSample, st.sampleNum)

/-! ## `GetSegmentCount` and the head of `GenerateMediaSegment` -/

/-- The function `Segmenter.GetSegmentCount`.  `none` is the run-time panic of the
integer division when `segmentDurTS` is zero. -/
def GetSegmentCount (segmentDuration : Nat) (vf : VideoFile) : Option Int :=
  if vf.Timescale = 0 then some 0
  else
    let segmentDurTS := (segmentDuration * vf.Timescale) % u64
    if segmentDurTS = 0 then none
    else some (toInt ((((vf.Duration + segmentDurTS) % u64 + u64 - 1) % u64) / segmentDurTS))

/-- What `GenerateMediaSegment` hands to `createTraf`: the sample range and the base
decode time of the fragment. -/
structure SegmentPlan where
  startSample : Nat
  endSample : Nat
  startTime : Nat
deriving DecidableEq, Repr

/-- The time window of segment `segmentIndex` as `GenerateMediaSegment` computes it:
`startTime` and the `endTime` clamped to the track duration, all in `uint64`. -/
def segmentWindow (segmentDuration : Nat) (vf : VideoFile) (segmentIndex : Int) : Nat × Nat :=
  let segmentDurTS := (segmentDuration * vf.Timescale) % u64
  let startTime := (ofInt segmentIndex * segmentDurTS) % u64
  let endTime := (startTime + segmentDurTS) % u64
  (startTime, if endTime > vf.Duration then vf.Duration else endTime)

/-- The head of `Segmenter.GenerateMediaSegment`, up to and including the
"no samples in segment" check: the window of the segment, its sample range, and
the arguments with which `createTraf` is then called. -/
def GenerateMediaSegmentRange (segmentDuration : Nat) (vf : VideoFile) (segmentIndex : Int) :
    Except SegError SegmentPlan :=
  match vf.VideoTrack with
  | none => Except.error SegError.noVideoTrack
  | some trak =>
    match trak.Stbl with
    | none => Except.error SegError.noStblBox
    | some stbl =>
      match getSampleRange stbl (segmentWindow segmentDuration vf segmentIndex).1
          (segmentWindow segmentDuration vf segmentIndex).2 with
      | Except.error err => Except.error err
      | Except.ok (startSample, endSample) =>
        if startSample ≥ endSample then Except.error (SegError.noSamplesInSegment segmentIndex)
        else Except.ok ⟨startSample, endSample, (segmentWindow segmentDuration vf segmentIndex).1⟩

/-- Number of samples `createTraf` emits for segment `segmentIndex`: the iterations of
`for sampleNum := startSample; sampleNum < endSample; sampleNum++`, none when the
head of `GenerateMediaSegment` fails. -/
def emittedSamples (segmentDuration : Nat) (vf : VideoFile) (segmentIndex : Nat) : Nat :=
  match GenerateMediaSegmentRange segmentDuration vf (segmentIndex : Int) with
  | Except.ok plan => plan.endSample - plan.startSample
  | Except.error _ => 0

/-! ## Reading the `stts` table sample by sample -/

/-- The durations of the samples of a track in decoding order: every run of the
table written out (`expandSampleDurations` without its length cap). -/
def deltasOf : List SttsEntry → List Nat
  | [] => []
  | e :: es => List.replicate e.SampleCount e.SampleTimeDelta ++ deltasOf es

/-- The durations of all samples described by an `stts` box. -/
def sampleDeltas (stts : SttsBox) : List Nat := deltasOf stts.Entries

/-- Total number of samples described by an `stts` box. -/
def totalSamples (stts : SttsBox) : Nat := (stts.Entries.map SttsEntry.SampleCount).sum

/-- Decode time of the 1-indexed sample `n`: the sum of the durations of the
samples `1 .. n-1`. -/
def decodeTime (stts : SttsBox) (n : Nat) : Nat := ((sampleDeltas stts).take (n - 1)).sum

/-- Length of the longest run of leading samples whose decode time is below `t`,
when the first sample of `deltas` is decoded at `cur`. -/
def countBelow (t : Nat) : Nat → List Nat → Nat
  | _, [] => 0
  | cur, d :: ds => if cur < t then countBelow t (cur + d) ds + 1 else 0

/-- The two loops of `getSampleRange` run over the written-out sample durations. -/
def scanFlat (startTime endTime : Nat) : List Nat → ScanState → (Nat × Nat) ⊕ ScanState
  | [], st => Sum.inr st
  | d :: ds, st =>
    match scanSample startTime endTime d st with
    | Sum.inl r => Sum.inl r
    | Sum.inr st1 => scanFlat startTime endTime ds st1

/-- The tail of `getSampleRange` after the loops: either the early return, or
`endSample = sampleNum` with the default `startSample = 1`. -/
def scanFinish : (Nat × Nat) ⊕ ScanState → Nat × Nat
  | Sum.inl r => r
  | Sum.inr st => (if st.startSample = 0 then 1 else st.startSample, st.sampleNum)


/-- The value of `startSample` after the first statement of the loop body. -/
def pickStart (startTime : Nat) (st : ScanState) : Nat :=
  if st.startSample = 0 ∧ startTime ≤ st.currentTime then st.sampleNum else st.startSample

/-! ## Binary64 arithmetic -/

/-- A non-negative finite `float64` value `m * 2 ^ e`.  Only values in the normal
range occur in the computations below (quotients and products of a `uint64` and a
`uint32`), so neither infinities nor subnormal numbers are represented. -/
structure F64 where
  m : Nat
  e : Int
deriving DecidableEq, Repr

/-- Bit length by repeated halving; the first argument bounds the number of steps. -/
def bitLenAux : Nat → Nat → Nat
  | 0, _ => 0
  | fuel + 1, n => if n = 0 then 0 else bitLenAux fuel (n / 2) + 1

/-- Number of binary digits of `n`. -/
def bitLen (n : Nat) : Nat := bitLenAux n n

/-- The `float64` nearest to the rational `n / d`, ties to even (the rounding mode of
IEEE 754 that Go uses): a 53-bit significand and the exponent of its last bit. -/
def roundRat (n d : Nat) : F64 :=
  if n = 0 ∨ d = 0 then ⟨0, 0⟩
  else
    let e0 : Int := (bitLen n : Int) - (bitLen d : Int) - 53
    let e : Int := if n * 2 ^ (-e0).toNat / (d * 2 ^ e0.toNat) < 2 ^ 53 then e0 else e0 + 1
    let num := n * 2 ^ (-e).toNat
    let den := d * 2 ^ e.toNat
    let f := num / den
    let r := num % den
    ⟨if 2 * r < den then f else if den < 2 * r then f + 1 else if f % 2 = 0 then f else f + 1, e⟩

/-- Go's conversion `float64(n)` of an unsigned integer. -/
def F64.ofNat (n : Nat) : F64 := roundRat n 1

/-- Go's `float64` division (of non-negative values, divisor not zero). -/
def F64.div (a b : F64) : F64 :=
  roundRat (a.m * 2 ^ a.e.toNat * 2 ^ (-b.e).toNat) (b.m * 2 ^ b.e.toNat * 2 ^ (-a.e).toNat)

/-- Go's `float64` multiplication (of non-negative values). -/
def F64.mul (a b : F64) : F64 :=
  roundRat (a.m * b.m * 2 ^ (a.e + b.e).toNat) (2 ^ (-(a.e + b.e)).toNat)

/-- Go's conversion `uint64(f)` of a `float64`: truncation toward zero. -/
def F64.toUint64 (a : F64) : Nat := (a.m * 2 ^ a.e.toNat / 2 ^ (-a.e).toNat) % u64

/-- The function `Segmenter.GetDurationSec`. -/
def GetDurationSec (vf : VideoFile) : F64 :=
  if vf.Timescale = 0 then ⟨0, 0⟩
  else F64.div (F64.ofNat vf.Duration) (F64.ofNat vf.Timescale)

/-! ## The DASH segment timeline -/

/-- One iteration of the timeline loop of `GenerateDASHMPD`: the loop counter, the
value of `currentTime` on entry, and the `dur` that is written. -/
structure TimelineStep where
  i : Nat
  currentTime : Nat
  dur : Nat
deriving DecidableEq, Repr

/-- The loop `for i := 0; i < segmentCount; i++` of `GenerateDASHMPD`; the first
argument is the number of iterations left. -/
def timelineLoop (segmentDurTS totalDurTS : Nat) : Nat → Nat → Nat → List TimelineStep
  | 0, _, _ => []
  | n + 1, i, currentTime =>
    let dur :=
      if (currentTime + segmentDurTS) % u64 > totalDurTS then
        (totalDurTS + u64 - currentTime) % u64
      else segmentDurTS
    ⟨i, currentTime, dur⟩ :: timelineLoop segmentDurTS totalDurTS n (i + 1) ((currentTime + dur) % u64)

/-- An `<S>` element of the segment timeline: the attribute `t` is present only
when the element is written by the `i == 0` branch. -/
structure SElement where
  t : Option Nat
  d : Nat
deriving DecidableEq, Repr

/-- The element written for one iteration: `<S t="0" d="%d"/>` if `i == 0`, else
`<S d="%d"/>`. -/
def TimelineStep.toSElement (st : TimelineStep) : SElement :=
  ⟨if st.i = 0 then some 0 else none, st.dur⟩

/-- The timeline loop of `GenerateDASHMPD` for a given `totalDurTS`. -/
def timelineOfTicks (segmentDuration : Int) (timescale totalDurTS : Nat) (segmentCount : Int) :
    List TimelineStep :=
  timelineLoop ((ofInt segmentDuration * timescale) % u64) totalDurTS segmentCount.toNat 0 0

/-- The segment timeline of `ManifestService.GenerateDASHMPD`, with
`totalDurTS := uint64(durationSec * float64(params.Timescale))`. -/
def GenerateDASHMPDTimeline (segmentDuration : Int) (durationSec : F64) (segmentCount : Int)
    (timescale : Nat) : List TimelineStep :=
  timelineOfTicks segmentDuration timescale
    (F64.toUint64 (F64.mul durationSec (F64.ofNat timescale))) segmentCount

/-- The timeline that the handler `GetDASHManifest` gets for a video: both services
are built from the same configured segment duration, `durationSec` and
`segmentCount` come from the segmenter.  `none` is the panic of `GetSegmentCount`. -/
def GetDASHManifestTimeline (segmentDuration : Int) (vf : VideoFile) :
    Option (List TimelineStep) :=
  match GetSegmentCount (ofInt segmentDuration) vf with
  | none => none
  | some segmentCount =>
    some (GenerateDASHMPDTimeline segmentDuration (GetDurationSec vf) segmentCount vf.Timescale)

/-! ## The verb `%.6f` -/

/-- The number printed by the verb `%.6f`: the nearest multiple of `10^-6`, ties to
even. -/
def fmt6 (x : ℚ) : ℚ :=
  let y := x * 1000000
  let f := ⌊y⌋
  let r := y - f
  ((if r < 1 / 2 then f else if 1 / 2 < r then f + 1 else if f % 2 = 0 then f else f + 1 : Int) : ℚ)
    / 1000000

/-! ## The parsed box tree

The boxes are those of the MP4 library.  A box that the segmenter only queries
through a method of the library (`stsz`, `stsc`, `ctts`) is represented by that
method; a pointer that may be `nil` is an `Option`. -/

/-- A byte. -/
abbrev Byte := Fin 256

/-- The decoder configuration of an AVC sample entry (`avcC`). -/
structure AvcCBox where
  SPSnalus : List (List Byte)
  AVCProfileIndication : Byte
  ProfileCompatibility : Byte
  AVCLevelIndication : Byte
deriving DecidableEq, Repr

/-- A visual sample entry (`avc1`, `hvc1`, ...) with its optional `avcC` child. -/
structure VisualSampleEntryBox where
  AvcC : Option AvcCBox
deriving DecidableEq, Repr

/-- The sample description box: `AvcX` is the AVC sample entry, `HvcX` the HEVC one. -/
structure StsdBox where
  AvcX : Option VisualSampleEntryBox
  HvcX : Option VisualSampleEntryBox
deriving DecidableEq, Repr

/-- The sample size box, through `StszBox.GetSampleSize(nr int) uint32`. -/
structure StszBox where
  GetSampleSize : Int → Nat

/-- The sample-to-chunk box, through
`StscBox.ChunkNrFromSampleNr(nr int) (chunkNr, firstSampleInChunk int, err error)`. -/
structure StscBox where
  ChunkNrFromSampleNr : Int → Except String (Int × Int)

/-- The composition offset box, through
`CttsBox.GetCompositionTimeOffset(nr uint32) int32`. -/
structure CttsBox where
  GetCompositionTimeOffset : Nat → Int

/-- The sync sample box. -/
structure StssBox where
  SampleNumber : List Nat
deriving DecidableEq, Repr

/-- The 32-bit chunk offset box. -/
structure StcoBox where
  ChunkOffset : List Nat
deriving DecidableEq, Repr

/-- The 64-bit chunk offset box. -/
structure Co64Box where
  ChunkOffset : List Nat
deriving DecidableEq, Repr

/-- The sample table box with every child the segmenter reads. -/
structure Stbl where
  Stsd : Option StsdBox
  Stts : Option SttsBox
  Stsz : Option StszBox
  Stss : Option StssBox
  Ctts : Option CttsBox
  Stsc : Option StscBox
  Stco : Option StcoBox
  Co64 : Option Co64Box

/-- The part of a sample table that `getSampleRange` reads. -/
def Stbl.toStblBox (stbl : Stbl) : StblBox := ⟨stbl.Stts⟩

/-- The media information box. -/
structure Minf where
  Stbl : Option Stbl

/-- The handler box. -/
structure HdlrBox where
  HandlerType : String
deriving DecidableEq, Repr

/-- The media header box. -/
structure MdhdBox where
  Timescale : Nat
  Duration : Nat
deriving DecidableEq, Repr

/-- The track header box; width and height are 16.16 fixed-point numbers. -/
structure TkhdBox where
  Width : Nat
  Height : Nat
deriving DecidableEq, Repr

/-- The media box. -/
structure Mdia where
  Hdlr : Option HdlrBox
  Mdhd : Option MdhdBox
  Minf : Option Minf

/-- The track box. -/
structure Trak where
  Tkhd : Option TkhdBox
  Mdia : Option Mdia

/-- The sample description of a track, when every box on the way to it exists. -/
def Trak.stsd (trak : Trak) : Option StsdBox :=
  match trak.Mdia with
  | none => none
  | some mdia =>
    match mdia.Minf with
    | none => none
    | some minf =>
      match minf.Stbl with
      | none => none
      | some stbl => stbl.Stsd

/-! ## `extractVideoCodec` -/

/-- One lowercase hexadecimal digit. -/
def hexDigit (n : Nat) : Char := Char.ofNat (if n < 10 then 48 + n else 87 + n)

/-- The text that `%02x` prints for a byte. -/
def fmtHex2 (b : Byte) : String := String.mk [hexDigit (b.val / 16), hexDigit (b.val % 16)]

/-- The text of `fmt.Sprintf("avc1.%02x%02x%02x", a, b, c)`. -/
def avc1String (a b c : Byte) : String := "avc1." ++ fmtHex2 a ++ fmtHex2 b ++ fmtHex2 c

/-- The function `extractVideoCodec`. -/
def extractVideoCodec (trak : Trak) : String :=
  match trak.Mdia with
  | none => "avc1.640028"
  | some mdia =>
    match mdia.Minf with
    | none => "avc1.640028"
    | some minf =>
      match minf.Stbl with
      | none => "avc1.640028"
      | some stbl =>
        match stbl.Stsd with
        | none => "avc1.640028"
        | some stsd =>
          match stsd.AvcX with
          | some avcX =>
            match avcX.AvcC with
            | some avcC =>
              match avcC.SPSnalus with
              | sps :: _ =>
                if sps.length ≥ 4 then avc1String (sps.getD 1 0) (sps.getD 2 0) (sps.getD 3 0)
                else avc1String avcC.AVCProfileIndication avcC.ProfileCompatibility
                  avcC.AVCLevelIndication
              | [] =>
                avc1String avcC.AVCProfileIndication avcC.ProfileCompatibility
                  avcC.AVCLevelIndication
            | none => "avc1.640028"
          | none =>
            match stsd.HvcX with
            | some _ => "hvc1.1.6.L93.B0"
            | none => "avc1.640028"

/-! ## The segment index of a request

Go strings are modelled by Lean strings; the functions of the packages `strings` and
`strconv` that the handlers call are written out on their characters. -/

/-- Go's `strings.HasPrefix`. -/
def stringsHasPrefix (s p : String) : Bool := p.data.isPrefixOf s.data

/-- Go's `strings.HasSuffix`. -/
def stringsHasSuffix (s p : String) : Bool := p.data.isSuffixOf s.data

/-- Go's `strings.TrimPrefix`. -/
def stringsTrimPrefix (s p : String) : String :=
  if stringsHasPrefix s p then ⟨s.data.drop p.data.length⟩ else s

/-- Go's `strings.TrimSuffix`. -/
def stringsTrimSuffix (s p : String) : String :=
  if stringsHasSuffix s p then ⟨s.data.take (s.data.length - p.data.length)⟩ else s

/-- The digit loop of `strconv.Atoi`: the value of a run of ASCII digits read after
`acc`, `none` if a character is not a digit. -/
def digitsValue : List Char → Nat → Option Nat
  | [], acc => some acc
  | c :: cs, acc =>
    if 48 ≤ c.toNat ∧ c.toNat ≤ 57 then digitsValue cs (acc * 10 + (c.toNat - 48)) else none

/-- Go's `strconv.Atoi` on a 64-bit target: an optional sign followed by at least one
decimal digit, with a value in the range of `int`; `none` is a returned error. -/
def Atoi (s : String) : Option Int :=
  match s.data with
  | [] => none
  | c :: cs =>
    if c = '-' then
      if cs = [] then none
      else
        match digitsValue cs 0 with
        | some v => if v ≤ 2 ^ 63 then some (-(v : Int)) else none
        | none => none
    else if c = '+' then
      if cs = [] then none
      else
        match digitsValue cs 0 with
        | some v => if v < 2 ^ 63 then some (v : Int) else none
        | none => none
    else
      match digitsValue (c :: cs) 0 with
      | some v => if v < 2 ^ 63 then some (v : Int) else none
      | none => none

/-- The `segmentNum` that `GetHLSSegment` and `GetDASHSegment` compute from the path
parameter `segment`. -/
def segmentNumOf (segment : String) : Int :=
  if stringsHasPrefix segment "segment_" && stringsHasSuffix segment ".m4s" then
    match Atoi (stringsTrimSuffix (stringsTrimPrefix segment "segment_") ".m4s") with
    | some n => n
    | none => 0
  else 0

/-- The index that `GetHLSSegment` passes to `GenerateMediaSegment`. -/
def GetHLSSegmentIndex (segment : String) : Int := segmentNumOf segment

/-- The index that `GetDASHSegment` passes to `GenerateMediaSegment`; `none` when it
serves the init segment instead. -/
def GetDASHSegmentIndex (segment : String) : Option Int :=
  if segment = "init.mp4" then none else some (segmentNumOf segment)

/-- The ASCII digit of `d`. -/
def digitChar (d : Nat) : Char := Char.ofNat (48 + d)

/-- The text of a list of decimal digits, most significant first. -/
def digitsString (ds : List Nat) : String := ⟨ds.map digitChar⟩

/-- The number written by a list of decimal digits, most significant first. -/
def decimalValue (ds : List Nat) : Nat := Nat.ofDigits 10 ds.reverse

/-! ## The video cache -/

/-- The movie box. -/
structure Moov where
  Traks : List Trak

/-- A parsed MP4 file (`mp4.File`). -/
structure Mp4File where
  Moov : Option Moov

/-- The type `VideoFile` with all its fields; the open file is given by its bytes. -/
structure Source where
  Path : String
  File : List Byte
  MP4 : Mp4File
  Timescale : Nat
  Duration : Nat
  VideoTrack : Option Trak
  AudioTrack : Option Trak
  VideoCodec : String
  Width : Nat
  Height : Nat

/-- What `OpenVideo` asks of the outside world: `os.Open` and `mp4.DecodeFile`, each
with `none` for a returned error. -/
structure FileSystem where
  osOpen : String → Option (List Byte)
  decodeFile : List Byte → Option Mp4File

/-- The errors of `OpenVideo`, one constructor per `fmt.Errorf` message. -/
inductive OpenError where
  | failedToOpen
  | failedToParse
  | noMoovBox
  | noVideoTrackFound
deriving DecidableEq, Repr

/-- The map `videoCache` of the segmenter. -/
abbrev VideoCache := String → Option Source

/-- The empty cache that `NewSegmenter` makes. -/
def emptyCache : VideoCache := fun _ => none

/-- The loop of `OpenVideo` over `parsedFile.Moov.Traks` that finds the video and the
audio track. -/
def scanTraks : List Trak → Source → Source
  | [], vf => vf
  | trak :: rest, vf =>
    match trak.Mdia with
    | none => scanTraks rest vf
    | some mdia =>
      match mdia.Hdlr with
      | none => scanTraks rest vf
      | some hdlr =>
        if hdlr.HandlerType = "vide" then
          let vf1 : Source := { vf with VideoTrack := some trak }
          let vf2 : Source :=
            match mdia.Mdhd with
            | some mdhd => { vf1 with Timescale := mdhd.Timescale, Duration := mdhd.Duration }
            | none => vf1
          let vf3 : Source :=
            match trak.Tkhd with
            | some tkhd =>
              { vf2 with Width := (tkhd.Width / 2 ^ 16) % u32, Height := (tkhd.Height / 2 ^ 16) % u32 }
            | none => vf2
          scanTraks rest { vf3 with VideoCodec := extractVideoCodec trak }
        else if hdlr.HandlerType = "soun" then
          scanTraks rest { vf with AudioTrack := some trak }
        else scanTraks rest vf

/-- What a call of `OpenVideo` leaves behind: the returned pair, the cache after the
call, and whether `mp4.DecodeFile` was called. -/
structure OpenVideoResult where
  result : Except OpenError Source
  videoCache : VideoCache
  parsed : Bool

/-- The function `Segmenter.OpenVideo`, run without concurrent callers: the lookup
under the read lock, the second lookup under the write lock, then open, parse, track
search and insertion. -/
def OpenVideo (fs : FileSystem) (videoCache : VideoCache) (path : String) : OpenVideoResult :=
  match videoCache path with
  | some vf => ⟨Except.ok vf, videoCache, false⟩
  | none =>
    match videoCache path with
    | some vf => ⟨Except.ok vf, videoCache, false⟩
    | none =>
      match fs.osOpen path with
      | none => ⟨Except.error OpenError.failedToOpen, videoCache, false⟩
      | some f =>
        match fs.decodeFile f with
        | none => ⟨Except.error OpenError.failedToParse, videoCache, true⟩
        | some parsedFile =>
          match parsedFile.Moov with
          | none => ⟨Except.error OpenError.noMoovBox, videoCache, true⟩
          | some moov =>
            match (scanTraks moov.Traks ⟨path, f, parsedFile, 0, 0, none, none, "", 0, 0⟩).VideoTrack with
            | none => ⟨Except.error OpenError.noVideoTrackFound, videoCache, true⟩
            | some _ =>
              ⟨Except.ok (scanTraks moov.Traks ⟨path, f, parsedFile, 0, 0, none, none, "", 0, 0⟩),
                fun p =>
                  if p = path then
                    some (scanTraks moov.Traks ⟨path, f, parsedFile, 0, 0, none, none, "", 0, 0⟩)
                  else videoCache p,
                true⟩

/-- A track that the loop of `OpenVideo` takes for the video track: it has `mdia`
and `hdlr`, and the handler type is `vide`. -/
def Trak.isVide (trak : Trak) : Prop :=
  ∃ mdia hdlr, trak.Mdia = some mdia ∧ mdia.Hdlr = some hdlr ∧ hdlr.HandlerType = "vide"

/-- The cache after a sequence of `OpenVideo` calls, started from `videoCache`. -/
def openAll (fs : FileSystem) : List String → VideoCache → VideoCache
  | [], videoCache => videoCache
  | path :: rest, videoCache => openAll fs rest (OpenVideo fs videoCache path).videoCache


/-! ## Media segments

The boxes of a fragment, the file handle of a source, and the functions
`expandSampleDurations`, `getSampleOffset`, `createTraf` and `GenerateMediaSegment`. -/

/-- How a Go call ends: it returns its results, or it stops with a run-time panic
(a nil pointer dereference, an index out of range). -/
inductive Run (α : Type) where
  | returned (a : α)
  | panicked

/-- The errors that `GenerateMediaSegment` hands back, one constructor per
`fmt.Errorf` message of the segmenter and one per failing call of a package. -/
inductive MediaError where
  | noVideoTrack
  | noStblBox
  | noSttsBox
  | noSamplesInSegment (segmentIndex : Int)
  | noStszBox
  | noStscBox
  | noStcoOrCo64Box
  | failedToFindChunk (sampleNum : Nat) (err : String)
  | chunkOffsetNotFound (chunkNr : Int)
  | seekFailed
  | readFailed
  | encodeFailed (err : String)
deriving DecidableEq, Repr

/-- The error of `getSampleRange` as `GenerateMediaSegment` passes it on. -/
def MediaError.ofSegError : SegError → MediaError
  | SegError.noVideoTrack => MediaError.noVideoTrack
  | SegError.noStblBox => MediaError.noStblBox
  | SegError.noSttsBox => MediaError.noSttsBox
  | SegError.noSamplesInSegment i => MediaError.noSamplesInSegment i

/-- Go's conversion `int32(x)` of an unsigned value: the two's complement reading
of its low 32 bits. -/
def toInt32 (x : Nat) : Int :=
  if x % u32 < 2 ^ 31 then ((x % u32 : Nat) : Int) else ((x % u32 : Nat) : Int) - 2 ^ 32

/-- The sum of two `int32` values, wrapped to `int32`. -/
def addInt32 (a b : Int) : Int := toInt32 ((a + b) % (2 ^ 32 : Int)).toNat

/-- An open `*os.File` on a regular file that nobody writes: its bytes and the
read cursor. -/
structure OsFile where
  data : List Byte
  pos : Nat

/-- The call `f.Seek(offset, io.SeekStart)`: a negative offset is an error, any
other offset becomes the cursor, also one past the end of the file. -/
def OsFile.Seek (f : OsFile) (offset : Int) : Option OsFile :=
  if offset < 0 then none else some ⟨f.data, offset.toNat⟩

/-- The call `io.ReadFull(f, buf)` with `len(buf) = size`: an empty buffer is
filled without reading; otherwise the `size` bytes at the cursor are returned and
the cursor moves past them, and a file that ends earlier is an error. -/
def OsFile.ReadFull (f : OsFile) (size : Nat) : Option (List Byte × OsFile) :=
  if size = 0 then some ([], f)
  else if f.pos + size ≤ f.data.length then
    some ((f.data.drop f.pos).take size, ⟨f.data, f.pos + size⟩)
  else none

/-- One entry of a `trun` box, as `mp4.NewSample(flags, dur, size, cto)` makes it. -/
structure Sample where
  Flags : Nat
  Dur : Nat
  Size : Nat
  CompositionTimeOffset : Int
deriving DecidableEq, Repr

/-- The track fragment header. -/
structure TfhdBox where
  TrackID : Nat
  Flags : Nat
deriving DecidableEq, Repr

/-- The track fragment decode time. -/
structure TfdtBox where
  BaseMediaDecodeTime : Nat
deriving DecidableEq, Repr

/-- The track run box. -/
structure TrunBox where
  Version : Nat
  Flags : Nat
  Samples : List Sample
  DataOffset : Int
deriving DecidableEq, Repr

/-- The track fragment box with the children that `createTraf` adds. -/
structure TrafBox where
  Tfhd : Option TfhdBox
  Tfdt : Option TfdtBox
  Trun : Option TrunBox
deriving DecidableEq, Repr

/-- The movie fragment header. -/
structure MfhdBox where
  SequenceNumber : Nat
deriving DecidableEq, Repr

/-- The movie fragment box. -/
structure MoofBox where
  Mfhd : Option MfhdBox
  Traf : Option TrafBox
deriving DecidableEq, Repr

/-- What `GenerateMediaSegment` asks of the MP4 library: the encoding of the `styp`
box made by `mp4.NewStyp("msdh", 0, ["msdh", "msix"])`, `MoofBox.Size`,
`MoofBox.Encode` and the encoding of an `mdat` box with the given payload.  An
encoder answers the bytes it writes or its error. -/
structure Mp4Lib where
  encodeStyp : Except String (List Byte)
  moofSize : MoofBox → Nat
  encodeMoof : MoofBox → Except String (List Byte)
  encodeMdat : List Byte → Except String (List Byte)

/-- The inner loop of `expandSampleDurations`,
`for j := uint32(0); j < count && uint32(len(result)) < maxSample; j++`; the third
argument is the number of values of `j` left. -/
def expandEntry (dur maxSample : Nat) : Nat → List Nat → List Nat
  | 0, result => result
  | j + 1, result =>
    if result.length % u32 < maxSample then expandEntry dur maxSample j (result ++ [dur])
    else result

/-- The outer loop of `expandSampleDurations` over the entries of the table. -/
def expandEntries (maxSample : Nat) : List SttsEntry → List Nat → List Nat
  | [], result => result
  | e :: es, result =>
    expandEntries maxSample es (expandEntry e.SampleTimeDelta maxSample e.SampleCount result)

/-- The function `Segmenter.expandSampleDurations`. -/
def expandSampleDurations (stts : SttsBox) (maxSample : Nat) : List Nat :=
  expandEntries maxSample stts.Entries []

/-- The loop `for i := firstSampleInChunk; i < int(sampleNum); i++` of
`getSampleOffset` that adds up sample sizes in `uint64`; the second argument is the
number of iterations left. -/
def sumSizes (stsz : StszBox) : Nat → Int → Nat → Nat
  | 0, _, offsetInChunk => offsetInChunk
  | k + 1, i, offsetInChunk =>
    sumSizes stsz k (i + 1) ((offsetInChunk + stsz.GetSampleSize i) % u64)

/-- The tail of `getSampleOffset` once the chunk offset is known: the loop over the
samples of the chunk that come before `sampleNum`.  The loop calls a method of
`stsz`, so a nil `stsz` panics as soon as the loop body runs. -/
def offsetFrom (stbl : Stbl) (chunkOffset : Nat) (firstSampleInChunk : Int) (sampleNum : Nat) :
    Run (Except MediaError Nat) :=
  if firstSampleInChunk < (sampleNum : Int) then
    match stbl.Stsz with
    | none => Run.panicked
    | some stsz =>
      Run.returned (Except.ok ((chunkOffset +
        sumSizes stsz ((sampleNum : Int) - firstSampleInChunk).toNat firstSampleInChunk 0) % u64))
  else Run.returned (Except.ok (chunkOffset % u64))

/-- The index expression `ChunkOffset[chunkNr-1]` with its bounds check; `none` is
the index-out-of-range panic. -/
def chunkAt (offsets : List Nat) (idx : Int) : Option Nat :=
  if idx < 0 then none else offsets.get? idx.toNat

/-- The function `Segmenter.getSampleOffset`. -/
def getSampleOffset (stbl : Stbl) (sampleNum : Nat) : Run (Except MediaError Nat) :=
  match stbl.Stsc with
  | none => Run.returned (Except.error MediaError.noStscBox)
  | some stsc =>
    if stbl.Stco.isNone ∧ stbl.Co64.isNone then
      Run.returned (Except.error MediaError.noStcoOrCo64Box)
    else
      match stsc.ChunkNrFromSampleNr (sampleNum : Int) with
      | Except.error err => Run.returned (Except.error (MediaError.failedToFindChunk sampleNum err))
      | Except.ok (chunkNr, firstSampleInChunk) =>
        let idx := toInt (ofInt (chunkNr - 1))
        match stbl.Stco with
        | some stco =>
          if idx < (stco.ChunkOffset.length : Int) then
            match chunkAt stco.ChunkOffset idx with
            | none => Run.panicked
            | some chunkOffset => offsetFrom stbl chunkOffset firstSampleInChunk sampleNum
          else
            match stbl.Co64 with
            | some co64 =>
              if idx < (co64.ChunkOffset.length : Int) then
                match chunkAt co64.ChunkOffset idx with
                | none => Run.panicked
                | some chunkOffset => offsetFrom stbl chunkOffset firstSampleInChunk sampleNum
              else Run.returned (Except.error (MediaError.chunkOffsetNotFound chunkNr))
            | none => Run.returned (Except.error (MediaError.chunkOffsetNotFound chunkNr))
        | none =>
          match stbl.Co64 with
          | some co64 =>
            if idx < (co64.ChunkOffset.length : Int) then
              match chunkAt co64.ChunkOffset idx with
              | none => Run.panicked
              | some chunkOffset => offsetFrom stbl chunkOffset firstSampleInChunk sampleNum
            else Run.returned (Except.error (MediaError.chunkOffsetNotFound chunkNr))
          | none => Run.returned (Except.error (MediaError.chunkOffsetNotFound chunkNr))

/-- The `trun` entry that the body of the loop of `createTraf` makes for sample
`sampleNum`: size from `stsz`, duration from the expanded table with the default
1024, flags from the sync sample set (`none` is the nil map of a source without
`stss`), composition offset from `ctts`. -/
def newSample (stsz : StszBox) (durations : List Nat) (syncSamples : Option (List Nat))
    (ctts : Option CttsBox) (sampleNum : Nat) : Sample :=
  let size := stsz.GetSampleSize (sampleNum : Int)
  let duration :=
    if (sampleNum + u32 - 1) % u32 < durations.length then
      durations.getD ((sampleNum + u32 - 1) % u32) 1024
    else 1024
  let flags :=
    match syncSamples with
    | none => 0x2000000
    | some set => if sampleNum ∈ set then 0x2000000 else 0x1010000
  let cto : Int :=
    match ctts with
    | none => 0
    | some box => box.GetCompositionTimeOffset sampleNum
  ⟨flags, duration, size, cto⟩

/-- The loop `for sampleNum := startSample; sampleNum < endSample; sampleNum++` of
`createTraf`; the first argument is the number of iterations left, the state is
`sampleNum`, `trun.Samples`, `mdatData` and the file handle. -/
def createTrafLoop (stbl : Stbl) (stsz : StszBox) (durations : List Nat) :
    Nat → Nat → List Sample → List Byte → OsFile →
      Run (Except MediaError (List Sample × List Byte))
  | 0, _, samples, mdatData, _ => Run.returned (Except.ok (samples, mdatData))
  | k + 1, sampleNum, samples, mdatData, file =>
    match getSampleOffset stbl sampleNum with
    | Run.panicked => Run.panicked
    | Run.returned (Except.error err) => Run.returned (Except.error err)
    | Run.returned (Except.ok offset) =>
      match file.Seek (toInt offset) with
      | none => Run.returned (Except.error MediaError.seekFailed)
      | some file1 =>
        match file1.ReadFull (stsz.GetSampleSize (sampleNum : Int)) with
        | none => Run.returned (Except.error MediaError.readFailed)
        | some (sampleData, file2) =>
          createTrafLoop stbl stsz durations k ((sampleNum + 1) % u32)
            (samples ++ [newSample stsz durations (stbl.Stss.map StssBox.SampleNumber)
              stbl.Ctts sampleNum])
            (mdatData ++ sampleData) file2

/-- The function `Segmenter.createTraf`; `cursor` is where the read cursor of the
shared file handle stands when the call starts.  With a nil `stts` the call of
`expandSampleDurations` dereferences a nil pointer. -/
def createTraf (vf : Source) (cursor : Nat) (stbl : Stbl)
    (trackID startSample endSample baseTime : Nat) :
    Run (Except MediaError (TrafBox × List Byte)) :=
  match stbl.Stsz with
  | none => Run.returned (Except.error MediaError.noStszBox)
  | some stsz =>
    match stbl.Stts with
    | none => Run.panicked
    | some stts =>
      match createTrafLoop stbl stsz (expandSampleDurations stts endSample)
          (endSample - startSample) startSample [] [] ⟨vf.File, cursor⟩ with
      | Run.panicked => Run.panicked
      | Run.returned (Except.error err) => Run.returned (Except.error err)
      | Run.returned (Except.ok (samples, mdatData)) =>
        Run.returned (Except.ok
          (⟨some ⟨trackID, 0x020000⟩, some ⟨baseTime⟩, some ⟨0, 0x000F01, samples, 1⟩⟩, mdatData))

/-- The assignment `traf.Trun.DataOffset = dataOffset` under `if traf.Trun != nil`. -/
def TrafBox.setDataOffset (traf : TrafBox) (dataOffset : Int) : TrafBox :=
  match traf.Trun with
  | none => traf
  | some trun => { traf with Trun := some { trun with DataOffset := dataOffset } }

/-- The function `Segmenter.GenerateMediaSegment`: the returned pair
`([]byte, error)` with `none` for nil, or the panic that ends the call. -/
def GenerateMediaSegment (lib : Mp4Lib) (segmentDuration : Nat) (vf : Source) (cursor : Nat)
    (segmentIndex : Int) : Run (Option (List Byte) × Option MediaError) :=
  match vf.VideoTrack with
  | none => Run.returned (none, some MediaError.noVideoTrack)
  | some trak =>
    match trak.Mdia with
    | none => Run.panicked
    | some mdia =>
      match mdia.Minf with
      | none => Run.panicked
      | some minf =>
        match minf.Stbl with
        | none => Run.returned (none, some MediaError.noStblBox)
        | some stbl =>
          let segmentDurTS := (segmentDuration * vf.Timescale) % u64
          let startTime := (ofInt segmentIndex * segmentDurTS) % u64
          let endTime0 := (startTime + segmentDurTS) % u64
          let endTime := if endTime0 > vf.Duration then vf.Duration else endTime0
          match getSampleRange stbl.toStblBox startTime endTime with
          | Except.error err => Run.returned (none, some (MediaError.ofSegError err))
          | Except.ok (startSample, endSample) =>
            if startSample ≥ endSample then
              Run.returned (none, some (MediaError.noSamplesInSegment segmentIndex))
            else
              match lib.encodeStyp with
              | Except.error err => Run.returned (none, some (MediaError.encodeFailed err))
              | Except.ok stypBytes =>
                match createTraf vf cursor stbl 1 startSample endSample startTime with
                | Run.panicked => Run.panicked
                | Run.returned (Except.error err) => Run.returned (none, some err)
                | Run.returned (Except.ok (traf, mdatData)) =>
                  let mfhd : MfhdBox := ⟨ofInt (segmentIndex + 1) % u32⟩
                  let moofSize := lib.moofSize ⟨some mfhd, some traf⟩
                  let mdatHeaderSize := if mdatData.length + 8 > 0xFFFFFFFF then 16 else 8
                  let dataOffset := addInt32 (toInt32 moofSize) (toInt32 mdatHeaderSize)
                  match lib.encodeMoof ⟨some mfhd, some (traf.setDataOffset dataOffset)⟩ with
                  | Except.error err => Run.returned (none, some (MediaError.encodeFailed err))
                  | Except.ok moofBytes =>
                    match lib.encodeMdat mdatData with
                    | Except.error err => Run.returned (none, some (MediaError.encodeFailed err))
                    | Except.ok mdatBytes =>
                      Run.returned (some (stypBytes ++ moofBytes ++ mdatBytes), none)

/-- The `size` bytes of `data` that start at `offset`. -/
def bytesAt (data : List Byte) (offset size : Nat) : List Byte := (data.drop offset).take size

/-- The bytes of sample `n` in the source file: the `size(n)` bytes that start at
`getSampleOffset(n)`; empty when the offset cannot be computed. -/
def sampleBytes (data : List Byte) (stbl : Stbl) (stsz : StszBox) (n : Nat) : List Byte :=
  match getSampleOffset stbl n with
  | Run.returned (Except.ok offset) => bytesAt data offset (stsz.GetSampleSize (n : Int))
  | _ => []

/-- A sample table for worked examples: three samples of 1000 ticks and 2 bytes each
in one chunk at file offset 1, sample 1 the only sync sample, no `ctts`. -/
def exampleStbl : Stbl :=
  ⟨none, some ⟨[⟨3, 1000⟩]⟩, some ⟨fun _ => 2⟩, some ⟨[1]⟩, none,
    some ⟨fun _ => Except.ok (1, 1)⟩, some ⟨[1]⟩, none⟩

/-- A source for worked examples: a file of 8 bytes whose video track carries
`exampleStbl`, timescale 1000, duration 3000 ticks. -/
def exampleSource : Source :=
  ⟨"a.mp4", [10, 11, 12, 13, 14, 15, 16, 17], ⟨none⟩, 1000, 3000,
    some ⟨none, some ⟨some ⟨"vide"⟩, some ⟨1000, 3000⟩, some ⟨some exampleStbl⟩⟩⟩, none, "", 0, 0⟩

/-- End time of the 1-indexed sample `n`: the sum of the durations of the samples
`1 .. n`, so that `decodeTime stts n = endTime stts (n - 1)`. -/
def endTime (stts : SttsBox) (n : Nat) : Nat := ((sampleDeltas stts).take n).sum

/-- The variable `startSample` of `getSampleRange` after the first statement of the
loop body has run for the next `m` samples of `ds`, in closed form: unchanged once
set, else the number of the first of them whose decode time is at least `s`, else
still 0. -/
def startAfter (s : Nat) (st : ScanState) (ds : List Nat) (m : Nat) : Nat :=
  if st.startSample ≠ 0 then st.startSample
  else if countBelow s st.currentTime ds < m then st.sampleNum + countBelow s st.currentTime ds
  else 0

/-- A complete video track for worked examples: `tkhd` of 640 by 360, `mdhd` with
timescale 1000 and duration 3000, handler `vide`, and a sample table with an AVC
sample entry and three samples of 1000 ticks and 2 bytes in one chunk. -/
def completeTrak : Trak :=
  ⟨some ⟨640 * 2 ^ 16, 360 * 2 ^ 16⟩,
    some ⟨some ⟨"vide"⟩, some ⟨1000, 3000⟩,
      some ⟨some ⟨some ⟨some ⟨some ⟨[[0x67, 0x64, 0x00, 0x1F]], 0x64, 0x00, 0x1F⟩⟩, none⟩,
        some ⟨[⟨3, 1000⟩]⟩, some ⟨fun _ => 2⟩, none, none,
        some ⟨fun _ => Except.ok (1, 1)⟩, some ⟨[1]⟩, none⟩⟩⟩⟩

/-- A video track that has `mdia` and `hdlr` (handler `vide`) and no `minf` box. -/
def trakWithoutMinf : Trak := ⟨none, some ⟨some ⟨"vide"⟩, none, none⟩⟩

/-- A parsed file whose `moov` holds `completeTrak` followed by `trakWithoutMinf`. -/
def twoTrakFile : Mp4File := ⟨some ⟨[completeTrak, trakWithoutMinf]⟩⟩

/-! ## The duration string of the DASH manifest -/

/-- Numerator of the value of a `float64` over the denominator `F64.den`. -/
def F64.num (a : F64) : Nat := a.m * 2 ^ a.e.toNat

/-- Denominator of the value of a `float64`: the value is `num / den`. -/
def F64.den (a : F64) : Nat := 2 ^ (-a.e).toNat

/-- Integer part of a `float64` value. -/
def F64.floor (a : F64) : Nat := a.num / a.den

/-- Go's conversion `int(f)` of a non-negative `float64`: truncation when the integer
part fits in `int`; otherwise the language leaves the result to the implementation,
which is `none` here. -/
def F64.toInt (a : F64) : Option Nat := if a.floor < 2 ^ 63 then some a.floor else none

/-- Go's `float64` subtraction `a - b` of non-negative values: the exact difference
over the common denominator, rounded; the flag says whether it is negative. -/
def F64.sub (a b : F64) : Bool × F64 :=
  let x := a.num * b.den
  let y := b.num * a.den
  if y ≤ x then (false, roundRat (x - y) (a.den * b.den))
  else (true, roundRat (y - x) (a.den * b.den))

/-- The multiple of `10^-3` nearest to `n / d`, ties to even, counted in thousandths. -/
def roundThousandths (n d : Nat) : Nat :=
  let f := 1000 * n / d
  let r := 1000 * n % d
  if 2 * r < d then f else if d < 2 * r then f + 1 else if f % 2 = 0 then f else f + 1

/-- The verb `%.3f` applied to the exact value `n / d`: the nearest multiple of
`10^-3`, written with three decimals. -/
def fmt3Exact (n d : Nat) : String :=
  toString (roundThousandths n d / 1000) ++ "." ++
    String.mk [digitChar (roundThousandths n d % 1000 / 100),
      digitChar (roundThousandths n d % 100 / 10), digitChar (roundThousandths n d % 10)]

/-- The verb `%.3f` applied to a `float64` given by sign and magnitude. -/
def fmt3 (x : Bool × F64) : String :=
  (if x.1 then "-" else "") ++ fmt3Exact x.2.num x.2.den

/-- The variable `durationStr` of `GenerateDASHMPD`, which the template writes after
`PT` into `mediaPresentationDuration`; `none` when `int(durationSec)` is not defined
by the language. -/
def durationStr (durationSec : F64) : Option String :=
  match durationSec.toInt with
  | none => none
  | some t =>
    let hours := t / 3600
    let minutes := (t % 3600) / 60
    let seconds := F64.sub durationSec (F64.ofNat (hours * 3600 + minutes * 60))
    if hours > 0 then
      some (toString hours ++ "H" ++ toString minutes ++ "M" ++ fmt3 seconds ++ "S")
    else if minutes > 0 then some (toString minutes ++ "M" ++ fmt3 seconds ++ "S")
    else some (fmt3 seconds ++ "S")

/-! ## The HLS media playlist -/

/-- A finite `float64` value with its sign: `neg` is the sign bit, `abs` the
magnitude. -/
structure Float64 where
  neg : Bool
  abs : F64
deriving DecidableEq, Repr

/-- The value of a non-negative `float64` as a rational number. -/
def F64.toRat (a : F64) : ℚ := (a.num : ℚ) / (a.den : ℚ)

/-- The value of a `float64` as a rational number. -/
def Float64.toRat (a : Float64) : ℚ := if a.neg then -a.abs.toRat else a.abs.toRat

/-- The signed numerator of a value over the denominator `a.abs.den * scale`. -/
def Float64.scaled (a : Float64) (scale : Nat) : Int :=
  if a.neg then -((a.abs.num * scale : Nat) : Int) else ((a.abs.num * scale : Nat) : Int)

/-- Go's conversion `float64(i)` of an `int`. -/
def Float64.ofInt (i : Int) : Float64 := ⟨decide (i < 0), F64.ofNat i.natAbs⟩

/-- Go's comparison `a < b` of two `float64` values: the numerators over the common
denominator are compared. -/
def Float64.lt (a b : Float64) : Bool := decide (a.scaled b.abs.den < b.scaled a.abs.den)

/-- Go's `float64` subtraction `a - b`: the exact difference over the common
denominator, rounded to nearest, ties to even.  An exact difference of zero is `+0`,
except that `(-0) - (+0)` is `-0`. -/
def Float64.sub (a b : Float64) : Float64 :=
  let n := a.scaled b.abs.den - b.scaled a.abs.den
  if n = 0 then ⟨a.neg && !b.neg, ⟨0, 0⟩⟩
  else ⟨decide (n < 0), roundRat n.natAbs (a.abs.den * b.abs.den)⟩

/-- A line of the HLS media playlist.  `extinf x` is the line `#EXTINF:%.6f,` for the
`float64` value `x`, `segment i` is the line `segment_%d.m4s`. -/
inductive PlaylistLine where
  | text (s : String)
  | extinf (segDur : Float64)
  | segment (i : Nat)
deriving DecidableEq

/-- The loop of `GenerateHLSMediaPlaylist` in `float64` arithmetic; the first argument
is the number of iterations left. -/
def hlsLoop (segmentDuration : Int) : Nat → Nat → Float64 → List PlaylistLine
  | 0, _, _ => []
  | n + 1, i, remainingDuration =>
    let segDur : Float64 :=
      if Float64.lt remainingDuration (Float64.ofInt segmentDuration) then remainingDuration
      else Float64.ofInt segmentDuration
    PlaylistLine.extinf segDur :: PlaylistLine.segment i ::
      hlsLoop segmentDuration n (i + 1) (Float64.sub remainingDuration segDur)

/-- The lines written before the loop of `GenerateHLSMediaPlaylist`. -/
def hlsHeader (segmentDuration : Int) : List PlaylistLine :=
  [PlaylistLine.text "#EXTM3U", PlaylistLine.text "#EXT-X-VERSION:6",
    PlaylistLine.text ("#EXT-X-TARGETDURATION:" ++ toString segmentDuration),
    PlaylistLine.text "#EXT-X-MEDIA-SEQUENCE:0", PlaylistLine.text "#EXT-X-PLAYLIST-TYPE:VOD",
    PlaylistLine.text "#EXT-X-MAP:URI=\"init.mp4\"", PlaylistLine.text ""]

/-- The function `ManifestService.GenerateHLSMediaPlaylist`, line by line, for a
non-negative `durationSec`. -/
def GenerateHLSMediaPlaylist (segmentDuration : Int) (durationSec : F64) (segmentCount : Int) :
    List PlaylistLine :=
  hlsHeader segmentDuration ++
    hlsLoop segmentDuration segmentCount.toNat 0 ⟨false, durationSec⟩ ++
    [PlaylistLine.text "#EXT-X-ENDLIST"]

/-- The values of the `#EXTINF` lines of a playlist, in order. -/
def extinfValues : List PlaylistLine → List Float64
  | [] => []
  | PlaylistLine.extinf x :: ls => x :: extinfValues ls
  | _ :: ls => extinfValues ls
/-! ## The scan over the written-out table -/

theorem scanEntry_eq_scanFlat (s e d c : Nat) (st : ScanState) :
    scanEntry s e d c st = scanFlat s e (List.replicate c d) st := by
  induction c generalizing st with
  | zero => rfl
  | succ j ih =>
    simp only [scanEntry, List.replicate_succ, scanFlat]
    cases scanSample s e d st with
    | inl r => rfl
    | inr st1 => exact ih st1

theorem scanFlat_append (s e : Nat) (xs ys : List Nat) (st : ScanState) :
    scanFlat s e (xs ++ ys) st =
      match scanFlat s e xs st with
      | Sum.inl r => Sum.inl r
      | Sum.inr st1 => scanFlat s e ys st1 := by
  induction xs generalizing st with
  | nil => rfl
  | cons x xs ih =>
    simp only [List.cons_append, scanFlat]
    cases scanSample s e x st with
    | inl r => rfl
    | inr st1 => exact ih st1

theorem scanEntries_eq_scanFlat (s e : Nat) (es : List SttsEntry) (st : ScanState) :
    scanEntries s e es st = scanFlat s e (deltasOf es) st := by
  induction es generalizing st with
  | nil => rfl
  | cons en es ih =>
    simp only [scanEntries, deltasOf, scanFlat_append, scanEntry_eq_scanFlat]
    cases scanFlat s e (List.replicate en.SampleCount en.SampleTimeDelta) st with
    | inl r => rfl
    | inr st1 => exact ih st1

theorem getSampleRange_eq_scan (stbl : StblBox) (stts : SttsBox) (h : stbl.Stts = some stts)
    (s e : Nat) :
    getSampleRange stbl s e =
      Except.ok (scanFinish (scanFlat s e (sampleDeltas stts) ⟨1, 0, if s = 0 then 1 else 0⟩)) := by
  unfold getSampleRange
  rw [h]
  simp only [scanEntries_eq_scanFlat, sampleDeltas]
  cases scanFlat s e (deltasOf stts.Entries) ⟨1, 0, if s = 0 then 1 else 0⟩ with
  | inl r => rfl
  | inr st => rfl

theorem scanFlat_cons (s e d : Nat) (ds : List Nat) (st : ScanState) :
    scanFlat s e (d :: ds) st =
      if e ≤ (st.currentTime + d) % u64 then
        Sum.inl (pickStart s st, (st.sampleNum + 1) % u32)
      else
        scanFlat s e ds ⟨(st.sampleNum + 1) % u32, (st.currentTime + d) % u64, pickStart s st⟩ := by
  simp only [scanFlat, scanSample, ge_iff_le, pickStart]
  by_cases h : e ≤ (st.currentTime + d) % u64
  · rw [if_pos h, if_pos h]
  · rw [if_neg h, if_neg h]

theorem pickStart_of_set (s : Nat) (st : ScanState) (h : st.startSample ≠ 0) :
    pickStart s st = st.startSample := by
  simp [pickStart, h]

theorem scan_first_of_set (s e : Nat) (ds : List Nat) (st : ScanState) (h : st.startSample ≠ 0) :
    (scanFinish (scanFlat s e ds st)).1 = st.startSample := by
  induction ds generalizing st with
  | nil => simp [scanFlat, scanFinish, h]
  | cons d ds ih =>
    rw [scanFlat_cons, pickStart_of_set s st h]
    by_cases h1 : e ≤ (st.currentTime + d) % u64
    · rw [if_pos h1]
      rfl
    · rw [if_neg h1]
      exact ih ⟨_, _, st.startSample⟩ h

theorem countBelow_of_le (t cur : Nat) (ds : List Nat) (h : t ≤ cur) : countBelow t cur ds = 0 := by
  cases ds with
  | nil => rfl
  | cons x xs => simp [countBelow, Nat.not_lt.mpr h]

theorem scan_last (s e : Nat) (ds : List Nat) (st : ScanState)
    (hn : st.sampleNum + ds.length < u32) (ht : st.currentTime + ds.sum < u64)
    (hlt : st.currentTime < e) :
    (scanFinish (scanFlat s e ds st)).2 = st.sampleNum + countBelow e st.currentTime ds := by
  induction ds generalizing st with
  | nil => simp [scanFlat, scanFinish, countBelow]
  | cons d ds ih =>
    simp only [List.length_cons, List.sum_cons] at hn ht
    have hc : (st.currentTime + d) % u64 = st.currentTime + d := Nat.mod_eq_of_lt (by omega)
    have hs : (st.sampleNum + 1) % u32 = st.sampleNum + 1 := Nat.mod_eq_of_lt (by omega)
    rw [scanFlat_cons, hc, hs]
    simp only [countBelow, hlt, if_true]
    by_cases h1 : e ≤ st.currentTime + d
    · rw [if_pos h1, countBelow_of_le e _ ds h1]
      rfl
    · rw [if_neg h1, ih _ (by simp only []; omega) (by simp only []; omega)
        (by simp only []; omega)]
      simp only []
      omega

theorem scan_first (s e : Nat) (ds : List Nat) (st : ScanState)
    (hn : st.sampleNum + ds.length < u32) (ht : st.currentTime + ds.sum < u64)
    (h0 : st.startSample = 0) (h1 : 0 < st.sampleNum)
    (hA : ∃ j, j < ds.length ∧ s ≤ st.currentTime + (ds.take j).sum ∧
      st.currentTime + (ds.take j).sum < e) :
    (scanFinish (scanFlat s e ds st)).1 = st.sampleNum + countBelow s st.currentTime ds := by
  induction ds generalizing st with
  | nil =>
    obtain ⟨j, hj, _⟩ := hA
    simp at hj
  | cons d ds ih =>
    simp only [List.length_cons, List.sum_cons] at hn ht
    have hc : (st.currentTime + d) % u64 = st.currentTime + d := Nat.mod_eq_of_lt (by omega)
    have hs : (st.sampleNum + 1) % u32 = st.sampleNum + 1 := Nat.mod_eq_of_lt (by omega)
    rw [scanFlat_cons, hc, hs]
    by_cases hsc : s ≤ st.currentTime
    · have hp : pickStart s st = st.sampleNum := by simp [pickStart, h0, hsc]
      rw [countBelow_of_le s _ _ hsc, hp]
      by_cases h2 : e ≤ st.currentTime + d
      · rw [if_pos h2]
        rfl
      · rw [if_neg h2, scan_first_of_set]
        · rfl
        · simp only []
          omega
    · have hp : pickStart s st = 0 := by simp [pickStart, h0, hsc]
      obtain ⟨j, hj, hj1, hj2⟩ := hA
      cases j with
      | zero =>
        simp only [List.take_zero, List.sum_nil, Nat.add_zero] at hj1
        exact absurd hj1 hsc
      | succ j =>
        simp only [List.take_succ_cons, List.sum_cons, List.length_cons] at hj hj1 hj2
        have hlt : ¬ e ≤ st.currentTime + d := by omega
        rw [if_neg hlt, hp, ih _ (by simp only []; omega) (by simp only []; omega) rfl
          (by simp only []; omega)
          ⟨j, by omega, by simp only []; omega, by simp only []; omega⟩]
        simp only [countBelow, Nat.lt_of_not_le hsc, if_true]
        omega

/-! ## Counting samples below a time -/

theorem deltasOf_length (es : List SttsEntry) :
    (deltasOf es).length = (es.map SttsEntry.SampleCount).sum := by
  induction es with
  | nil => rfl
  | cons en es ih => simp [deltasOf, ih]

theorem sampleDeltas_length (stts : SttsBox) : (sampleDeltas stts).length = totalSamples stts :=
  deltasOf_length stts.Entries

theorem deltasOf_sum_le (es : List SttsEntry) (h : ∀ en ∈ es, en.SampleTimeDelta < u32) :
    (deltasOf es).sum ≤ (deltasOf es).length * (u32 - 1) := by
  induction es with
  | nil => simp [deltasOf]
  | cons en es ih =>
    have h1 : en.SampleTimeDelta ≤ u32 - 1 := by
      have := h en (List.mem_cons_self _ _)
      omega
    have h2 := ih (fun x hx => h x (List.mem_cons_of_mem _ hx))
    simp only [deltasOf, List.sum_append, List.sum_replicate, List.length_append,
      List.length_replicate, smul_eq_mul, Nat.add_mul]
    exact Nat.add_le_add (Nat.mul_le_mul_left _ h1) h2

theorem sampleDeltas_sum_lt (stts : SttsBox) (hN : totalSamples stts + 1 < u32)
    (hd : ∀ en ∈ stts.Entries, en.SampleTimeDelta < u32) : (sampleDeltas stts).sum < u64 := by
  have h1 := deltasOf_sum_le stts.Entries hd
  have h2 : (deltasOf stts.Entries).length = totalSamples stts := deltasOf_length _
  rw [h2] at h1
  have h3 : totalSamples stts * (u32 - 1) ≤ (u32 - 2) * (u32 - 1) :=
    Nat.mul_le_mul_right _ (by omega)
  have h4 : (u32 - 2) * (u32 - 1) < u64 := by decide
  exact lt_of_le_of_lt (le_trans h1 h3) h4

theorem countBelow_le_length (t cur : Nat) (ds : List Nat) : countBelow t cur ds ≤ ds.length := by
  induction ds generalizing cur with
  | nil => simp [countBelow]
  | cons d ds ih =>
    simp only [countBelow, List.length_cons]
    split_ifs
    · exact Nat.succ_le_succ (ih _)
    · exact Nat.zero_le _

theorem countBelow_mono (t u cur : Nat) (ds : List Nat) (h : t ≤ u) :
    countBelow t cur ds ≤ countBelow u cur ds := by
  induction ds generalizing cur with
  | nil => simp [countBelow]
  | cons d ds ih =>
    simp only [countBelow]
    by_cases h1 : cur < t
    · rw [if_pos h1, if_pos (lt_of_lt_of_le h1 h)]
      exact Nat.succ_le_succ (ih _)
    · rw [if_neg h1]
      exact Nat.zero_le _

theorem countBelow_lt (t cur : Nat) (ds : List Nat) (j : Nat) (h : j < countBelow t cur ds) :
    cur + (ds.take j).sum < t := by
  induction ds generalizing cur j with
  | nil => simp [countBelow] at h
  | cons d ds ih =>
    simp only [countBelow] at h
    by_cases h1 : cur < t
    · rw [if_pos h1] at h
      cases j with
      | zero => simpa using h1
      | succ j =>
        have := ih (cur + d) j (by omega)
        simp only [List.take_succ_cons, List.sum_cons]
        omega
    · rw [if_neg h1] at h
      omega

theorem countBelow_ge (t cur : Nat) (ds : List Nat) (j : Nat) (h : countBelow t cur ds ≤ j)
    (hj : j < ds.length) : t ≤ cur + (ds.take j).sum := by
  induction ds generalizing cur j with
  | nil => simp at hj
  | cons d ds ih =>
    simp only [countBelow] at h
    by_cases h1 : cur < t
    · rw [if_pos h1] at h
      cases j with
      | zero => omega
      | succ j =>
        simp only [List.length_cons] at hj
        have := ih (cur + d) j (by omega) (by omega)
        simp only [List.take_succ_cons, List.sum_cons]
        omega
    · omega

theorem countBelow_eq_length (t cur : Nat) (ds : List Nat)
    (h : ∀ j, j < ds.length → cur + (ds.take j).sum < t) : countBelow t cur ds = ds.length := by
  induction ds generalizing cur with
  | nil => rfl
  | cons d ds ih =>
    have h0 : cur < t := by simpa using h 0 (by simp)
    simp only [countBelow, if_pos h0, List.length_cons]
    congr 1
    apply ih
    intro j hj
    have := h (j + 1) (by simpa using hj)
    simp only [List.take_succ_cons, List.sum_cons] at this
    omega

/-! ## The sample range of a window -/

theorem getSampleRange_last (stbl : StblBox) (stts : SttsBox) (h : stbl.Stts = some stts)
    (s e : Nat) (hN : totalSamples stts + 1 < u32)
    (hd : ∀ en ∈ stts.Entries, en.SampleTimeDelta < u32) (he : 0 < e) :
    ∃ first, getSampleRange stbl s e =
        Except.ok (first, countBelow e 0 (sampleDeltas stts) + 1) ∧
      (s = 0 → first = 1) ∧
      ((∃ n, 1 ≤ n ∧ n ≤ totalSamples stts ∧ s ≤ decodeTime stts n ∧ decodeTime stts n < e) →
        first = countBelow s 0 (sampleDeltas stts) + 1) := by
  have hlen := sampleDeltas_length stts
  have hsum := sampleDeltas_sum_lt stts hN hd
  refine ⟨(scanFinish (scanFlat s e (sampleDeltas stts) ⟨1, 0, if s = 0 then 1 else 0⟩)).1,
    ?_, ?_, ?_⟩
  · rw [getSampleRange_eq_scan stbl stts h]
    congr 1
    apply Prod.ext
    · rfl
    · rw [scan_last s e _ _ (by simp only []; omega) (by simp only []; omega) he]
      simp only []
      omega
  · intro hs
    rw [scan_first_of_set]
    · simp [hs]
    · simp [hs]
  · rintro ⟨n, hn1, hn2, hn3, hn4⟩
    by_cases hs : s = 0
    · rw [scan_first_of_set]
      · simp [hs, countBelow_of_le]
      · simp [hs]
    · rw [if_neg hs, scan_first s e _ _ (by simp only []; omega) (by simp only []; omega) rfl
        (by simp only []; omega)]
      · simp only []
        omega
      · refine ⟨n - 1, by omega, ?_, ?_⟩
        · simpa [decodeTime] using hn3
        · simpa [decodeTime] using hn4

/-! ## Machine arithmetic helpers -/

theorem u64_eq : u64 = 18446744073709551616 := by decide

theorem u32_eq : u32 = 4294967296 := by decide

theorem toInt_of_lt (x : Nat) (h : x < 2 ^ 63) : toInt x = (x : Int) := by
  have h1 : x % u64 = x := Nat.mod_eq_of_lt (by rw [u64_eq]; omega)
  simp only [toInt, h1, if_pos h]

theorem ofInt_natCast (n : Nat) (h : n < u64) : ofInt (n : Int) = n := by
  unfold ofInt
  have h2 : ((n : Int) % (2 ^ 64 : Int)) = (n : Int) := by
    apply Int.emod_eq_of_lt (by omega)
    rw [u64_eq] at h
    omega
  rw [h2]
  simp

theorem wrap_add_pred (dur w : Nat) (hw : 0 < w) (hov : dur + w - 1 < u64) :
    ((dur + w) % u64 + u64 - 1) % u64 = dur + w - 1 := by
  rw [u64_eq] at *
  omega

theorem ceil_div_nat (a b : Nat) (hb : 0 < b) :
    ⌈(a : ℚ) / (b : ℚ)⌉ = (((a + b - 1) / b : Nat) : Int) := by
  have hbq : (0 : ℚ) < (b : ℚ) := by exact_mod_cast hb
  have hdm := Nat.div_add_mod (a + b - 1) b
  have hmod := Nat.mod_lt (a + b - 1) hb
  generalize (a + b - 1) / b = q at *
  generalize (a + b - 1) % b = r at *
  rw [Int.ceil_eq_iff]
  constructor
  · rw [lt_div_iff₀ hbq]
    have h1 : b * q < a + b := by omega
    have h2 : ((b * q : Nat) : ℚ) < ((a + b : Nat) : ℚ) := by exact_mod_cast h1
    push_cast at h2 ⊢
    linarith
  · rw [div_le_iff₀ hbq]
    have h1 : a ≤ b * q := by omega
    have h2 : ((a : Nat) : ℚ) ≤ ((b * q : Nat) : ℚ) := by exact_mod_cast h1
    push_cast at h2 ⊢
    linarith

theorem GetSegmentCount_eq_div (D : Nat) (vf : VideoFile) (hts : 0 < vf.Timescale) (hD : 0 < D)
    (hW : D * vf.Timescale < u64) (hov : vf.Duration + D * vf.Timescale - 1 < u64)
    (hint : (vf.Duration + D * vf.Timescale - 1) / (D * vf.Timescale) < 2 ^ 63) :
    GetSegmentCount D vf =
      some (((vf.Duration + D * vf.Timescale - 1) / (D * vf.Timescale) : Nat) : Int) := by
  have hw0 : 0 < D * vf.Timescale := Nat.mul_pos hD hts
  unfold GetSegmentCount
  rw [if_neg (by omega)]
  simp only [Nat.mod_eq_of_lt hW]
  rw [if_neg (by omega), wrap_add_pred _ _ hw0 hov, toInt_of_lt _ hint]


/-! ## The window of a segment -/

theorem segmentWindow_eq (D : Nat) (vf : VideoFile) (i : Nat) (hts : 0 < vf.Timescale)
    (hD : 0 < D) (hi : i * (D * vf.Timescale) + D * vf.Timescale < u64) :
    segmentWindow D vf (i : Int) =
      (i * (D * vf.Timescale), min ((i + 1) * (D * vf.Timescale)) vf.Duration) := by
  have hw0 : 0 < D * vf.Timescale := Nat.mul_pos hD hts
  have hile : i ≤ i * (D * vf.Timescale) := Nat.le_mul_of_pos_right i hw0
  have hW : (D * vf.Timescale) % u64 = D * vf.Timescale := Nat.mod_eq_of_lt (by omega)
  have h1 : (i * (D * vf.Timescale)) % u64 = i * (D * vf.Timescale) :=
    Nat.mod_eq_of_lt (by omega)
  have h2 : (i * (D * vf.Timescale) + D * vf.Timescale) % u64 =
      i * (D * vf.Timescale) + D * vf.Timescale := Nat.mod_eq_of_lt hi
  unfold segmentWindow
  simp only [hW, ofInt_natCast i (by omega), h1, h2, Nat.succ_mul, gt_iff_lt]
  congr 1
  by_cases h3 : vf.Duration < i * (D * vf.Timescale) + D * vf.Timescale
  · rw [if_pos h3, Nat.min_eq_right (le_of_lt h3)]
  · rw [if_neg h3, Nat.min_eq_left (by omega)]

/-- A window that holds the decode time of a sample separates the two counts. -/
theorem countBelow_window (stts : SttsBox) (s e : Nat)
    (hA : ∃ k, 1 ≤ k ∧ k ≤ totalSamples stts ∧ s ≤ decodeTime stts k ∧ decodeTime stts k < e) :
    countBelow s 0 (sampleDeltas stts) < countBelow e 0 (sampleDeltas stts) := by
  obtain ⟨k, hk1, hk2, hk3, hk4⟩ := hA
  have hlen := sampleDeltas_length stts
  have h1 : countBelow s 0 (sampleDeltas stts) ≤ k - 1 := by
    by_contra hc
    have := countBelow_lt s 0 (sampleDeltas stts) (k - 1) (by omega)
    simp only [decodeTime] at hk3
    omega
  have h2 : k - 1 < countBelow e 0 (sampleDeltas stts) := by
    by_contra hc
    have := countBelow_ge e 0 (sampleDeltas stts) (k - 1) (by omega) (by omega)
    simp only [decodeTime] at hk4
    omega
  omega

theorem decodeTime_in_window (stts : SttsBox) (s e n : Nat)
    (h1 : countBelow s 0 (sampleDeltas stts) + 1 ≤ n)
    (h2 : n < countBelow e 0 (sampleDeltas stts) + 1) :
    s ≤ decodeTime stts n ∧ decodeTime stts n < e := by
  have hle := countBelow_le_length e 0 (sampleDeltas stts)
  constructor
  · have := countBelow_ge s 0 (sampleDeltas stts) (n - 1) (by omega) (by omega)
    simpa [decodeTime] using this
  · have := countBelow_lt e 0 (sampleDeltas stts) (n - 1) (by omega)
    simpa [decodeTime] using this

theorem GenerateMediaSegmentRange_window (D : Nat) (vf : VideoFile) (stbl : StblBox)
    (stts : SttsBox) (i : Nat) (hvt : vf.VideoTrack = some ⟨some stbl⟩)
    (hst : stbl.Stts = some stts) (hts : 0 < vf.Timescale) (hD : 0 < D)
    (hov : vf.Duration + D * vf.Timescale ≤ u64) (hN : totalSamples stts + 1 < u32)
    (hd : ∀ en ∈ stts.Entries, en.SampleTimeDelta < u32)
    (hA : ∃ k, 1 ≤ k ∧ k ≤ totalSamples stts ∧ i * (D * vf.Timescale) ≤ decodeTime stts k ∧
      decodeTime stts k < min ((i + 1) * (D * vf.Timescale)) vf.Duration) :
    GenerateMediaSegmentRange D vf (i : Int) =
      Except.ok ⟨countBelow (i * (D * vf.Timescale)) 0 (sampleDeltas stts) + 1,
        countBelow (min ((i + 1) * (D * vf.Timescale)) vf.Duration) 0 (sampleDeltas stts) + 1,
        i * (D * vf.Timescale)⟩ := by
  have hlt := countBelow_window stts _ _ hA
  have hwin : segmentWindow D vf (i : Int) =
      (i * (D * vf.Timescale), min ((i + 1) * (D * vf.Timescale)) vf.Duration) := by
    apply segmentWindow_eq D vf i hts hD
    obtain ⟨k, _, _, hk3, hk4⟩ := hA
    have := Nat.min_le_right ((i + 1) * (D * vf.Timescale)) vf.Duration
    omega
  have he : 0 < min ((i + 1) * (D * vf.Timescale)) vf.Duration := by
    obtain ⟨k, _, _, _, hk4⟩ := hA
    omega
  obtain ⟨first, hr, _, hf⟩ := getSampleRange_last stbl stts hst (i * (D * vf.Timescale))
    (min ((i + 1) * (D * vf.Timescale)) vf.Duration) hN hd he
  have hfirst := hf hA
  subst hfirst
  unfold GenerateMediaSegmentRange
  rw [hvt]
  simp only [hwin, hr]
  rw [if_neg (by omega)]

/-! ## The timeline loop -/

theorem timelineLoop_length (W T n i cur : Nat) : (timelineLoop W T n i cur).length = n := by
  induction n generalizing i cur with
  | zero => rfl
  | succ n ih => simp [timelineLoop, ih]

theorem timelineLoop_inv (W T : Nat) (hT : T < u64) (n i cur k : Nat) (step : TimelineStep)
    (hcur : cur ≤ T) (h : (timelineLoop W T n i cur)[k]? = some step) :
    step.i = i + k ∧ step.currentTime ≤ T := by
  induction n generalizing i cur k with
  | zero => simp [timelineLoop] at h
  | succ n ih =>
    rw [timelineLoop] at h
    cases k with
    | zero =>
      simp only [List.getElem?_cons_zero, Option.some.injEq] at h
      subst h
      exact ⟨rfl, hcur⟩
    | succ k =>
      simp only [List.getElem?_cons_succ] at h
      have := ih (i + 1) _ k ?_ h
      · constructor
        · omega
        · exact this.2
      · rw [u64_eq] at *
        split_ifs <;> omega

theorem timelineLoop_closed (W T : Nat) (hov : W + T < u64) (n i cur : Nat) (hcur : cur ≤ T) :
    timelineLoop W T n i cur =
      (List.range n).map (fun k =>
        (⟨i + k, min (cur + k * W) T, min W (T - min (cur + k * W) T)⟩ : TimelineStep)) := by
  induction n generalizing i cur with
  | zero => rfl
  | succ n ih =>
    have h1 : (cur + W) % u64 = cur + W := Nat.mod_eq_of_lt (by omega)
    have hdur : (if (cur + W) % u64 > T then (T + u64 - cur) % u64 else W) = min W (T - cur) := by
      rw [h1]
      rw [u64_eq] at *
      split_ifs <;> omega
    have h2 : (cur + min W (T - cur)) % u64 = min (cur + W) T := by
      rw [Nat.mod_eq_of_lt (by omega)]
      omega
    rw [timelineLoop]
    simp only [hdur, h2]
    rw [ih (i + 1) (min (cur + W) T) (Nat.min_le_right _ _), List.range_succ_eq_map,
      List.map_cons, List.map_map]
    congr 1
    · simp [Nat.min_eq_left hcur]
    · apply List.map_congr_left
      intro k _
      have h3 : (k + 1) * W = k * W + W := Nat.succ_mul k W
      simp only [Function.comp, Nat.succ_eq_add_one, h3]
      have e1 : min (min (cur + W) T + k * W) T = min (cur + (k * W + W)) T := by omega
      rw [e1]
      congr 1
      omega

theorem timelineLoop_sum_take (W T : Nat) (hov : W + T < u64) (n i cur k : Nat) (hcur : cur ≤ T)
    (hk : k ≤ n) :
    (((timelineLoop W T n i cur).take k).map TimelineStep.dur).sum =
      min (cur + k * W) T - cur := by
  induction n generalizing i cur k with
  | zero =>
    have : k = 0 := by omega
    subst this
    simp [timelineLoop]
  | succ n ih =>
    cases k with
    | zero => simp
    | succ k =>
      have h1 : (cur + W) % u64 = cur + W := Nat.mod_eq_of_lt (by omega)
      have hdur : (if (cur + W) % u64 > T then (T + u64 - cur) % u64 else W) =
          min W (T - cur) := by
        rw [h1]
        rw [u64_eq] at *
        split_ifs <;> omega
      have h2 : (cur + min W (T - cur)) % u64 = min (cur + W) T := by
        rw [Nat.mod_eq_of_lt (by omega)]
        omega
      rw [timelineLoop]
      simp only [hdur, h2, List.take_succ_cons, List.map_cons, List.sum_cons]
      rw [ih (i + 1) (min (cur + W) T) k (Nat.min_le_right _ _) (by omega)]
      have h3 : (k + 1) * W = k * W + W := Nat.succ_mul k W
      rw [h3]
      omega
/-! ## The verb `%.6f` -/

theorem fmt6_intCast (z : Int) : fmt6 (z : ℚ) = (z : ℚ) := by
  unfold fmt6
  have h1 : ⌊(z : ℚ) * 1000000⌋ = z * 1000000 := by
    have : (z : ℚ) * 1000000 = ((z * 1000000 : Int) : ℚ) := by push_cast; ring
    rw [this, Int.floor_intCast]
  simp only [h1]
  norm_num

theorem fmt6_err (x : ℚ) : |fmt6 x - x| ≤ 1 / 2000000 := by
  unfold fmt6
  have h1 := Int.floor_le (x * 1000000)
  have h2 := Int.lt_floor_add_one (x * 1000000)
  simp only []
  generalize ⌊x * 1000000⌋ = f at *
  rw [abs_le]
  split_ifs with a b c
  · constructor
    · rw [le_sub_iff_add_le, le_div_iff₀ (by norm_num)]
      linarith
    · rw [sub_le_iff_le_add, div_le_iff₀ (by norm_num)]
      linarith
  · push_cast
    constructor
    · rw [le_sub_iff_add_le, le_div_iff₀ (by norm_num)]
      linarith
    · rw [sub_le_iff_le_add, div_le_iff₀ (by norm_num)]
      linarith
  · constructor
    · rw [le_sub_iff_add_le, le_div_iff₀ (by norm_num)]
      linarith
    · rw [sub_le_iff_le_add, div_le_iff₀ (by norm_num)]
      linarith
  · push_cast
    constructor
    · rw [le_sub_iff_add_le, le_div_iff₀ (by norm_num)]
      linarith
    · rw [sub_le_iff_le_add, div_le_iff₀ (by norm_num)]
      linarith

theorem sum_segment_values (m : Nat) (D r : ℚ) :
    ((List.range (m + 1)).map (fun i : Nat => if i + 1 < m + 1 then D else r - (i : ℚ) * D)).sum =
      r := by
  rw [List.sum_range_succ]
  have h : (List.range m).map (fun i : Nat => if i + 1 < m + 1 then D else r - (i : ℚ) * D) =
      (List.range m).map (fun _ => D) := by
    apply List.map_congr_left
    intro j hj
    rw [if_pos (by simpa using List.mem_range.mp hj)]
  rw [h, if_neg (by omega)]
  simp only [List.map_const', List.length_range, List.sum_replicate, nsmul_eq_mul]
  ring

theorem sum_formatted_values (m : Nat) (D : Int) (r : ℚ) :
    ((List.range (m + 1)).map
      (fun i : Nat => fmt6 (if i + 1 < m + 1 then (D : ℚ) else r - (i : ℚ) * (D : ℚ)))).sum =
      (m : ℚ) * (D : ℚ) + fmt6 (r - (m : ℚ) * (D : ℚ)) := by
  rw [List.sum_range_succ]
  have h : (List.range m).map
      (fun i : Nat => fmt6 (if i + 1 < m + 1 then (D : ℚ) else r - (i : ℚ) * (D : ℚ))) =
      (List.range m).map (fun _ => (D : ℚ)) := by
    apply List.map_congr_left
    intro j hj
    rw [if_pos (by simpa using List.mem_range.mp hj), fmt6_intCast]
  rw [h, if_neg (by omega)]
  simp only [List.map_const', List.length_range, List.sum_replicate, nsmul_eq_mul]


/-! ## Parsing the segment number -/

theorem digitChar_toNat (d : Nat) (h : d < 10) : (digitChar d).toNat = 48 + d := by
  interval_cases d <;> rfl

theorem digitChar_of_toNat (c : Char) (h1 : 48 ≤ c.toNat) (h2 : c.toNat ≤ 57) :
    digitChar (c.toNat - 48) = c := by
  have h3 : 48 + (c.toNat - 48) = c.toNat := by omega
  unfold digitChar
  rw [h3]
  exact Char.ofNat_toNat c

theorem digitsValue_map (ds : List Nat) (h : ∀ d ∈ ds, d < 10) (acc : Nat) :
    digitsValue (ds.map digitChar) acc =
      some (acc * 10 ^ ds.length + decimalValue ds) := by
  unfold decimalValue
  induction ds generalizing acc with
  | nil => simp [digitsValue]
  | cons d rest ih =>
    have hd : d < 10 := h d (List.mem_cons_self _ _)
    have hrest : ∀ x ∈ rest, x < 10 := fun x hx => h x (List.mem_cons_of_mem _ hx)
    simp only [List.map_cons, digitsValue, digitChar_toNat d hd]
    rw [if_pos (by omega), ih hrest]
    simp only [List.reverse_cons, Nat.ofDigits_append, Nat.ofDigits_singleton,
      List.length_reverse, List.length_cons]
    congr 1
    have : 48 + d - 48 = d := by omega
    rw [this]
    ring

theorem digitsValue_inv (cs : List Char) (acc v : Nat) (h : digitsValue cs acc = some v) :
    ∃ ds : List Nat, (∀ d ∈ ds, d < 10) ∧ cs = ds.map digitChar ∧
      v = acc * 10 ^ ds.length + decimalValue ds := by
  unfold decimalValue
  induction cs generalizing acc with
  | nil =>
    simp only [digitsValue, Option.some.injEq] at h
    exact ⟨[], by simp, rfl, by simp [h]⟩
  | cons c cs ih =>
    simp only [digitsValue] at h
    by_cases hc : 48 ≤ c.toNat ∧ c.toNat ≤ 57
    · rw [if_pos hc] at h
      obtain ⟨ds, h1, h2, h3⟩ := ih _ h
      refine ⟨(c.toNat - 48) :: ds, ?_, ?_, ?_⟩
      · intro d hd
        rcases List.mem_cons.mp hd with rfl | hd
        · omega
        · exact h1 d hd
      · rw [List.map_cons, digitChar_of_toNat c hc.1 hc.2, h2]
      · rw [h3]
        simp only [List.reverse_cons, Nat.ofDigits_append, Nat.ofDigits_singleton,
          List.length_reverse, List.length_cons]
        ring
    · rw [if_neg hc] at h
      cases h

theorem segmentNumOf_wrap (m : String) :
    segmentNumOf ("segment_" ++ m ++ ".m4s") =
      match Atoi m with
      | some n => n
      | none => 0 := by
  have hp : stringsHasPrefix ("segment_" ++ m ++ ".m4s") "segment_" = true := by
    simp only [stringsHasPrefix, String.data_append, List.append_assoc]
    exact List.isPrefixOf_iff_prefix.mpr (List.prefix_append _ _)
  have hs : stringsHasSuffix ("segment_" ++ m ++ ".m4s") ".m4s" = true := by
    simp only [stringsHasSuffix, String.data_append]
    exact List.isSuffixOf_iff_suffix.mpr (List.suffix_append _ _)
  have ht : stringsTrimPrefix ("segment_" ++ m ++ ".m4s") "segment_" = m ++ ".m4s" := by
    simp only [stringsTrimPrefix, hp, if_true]
    apply String.ext
    simp only [String.data_append, List.append_assoc, List.drop_left]
  have hs2 : stringsHasSuffix (m ++ ".m4s") ".m4s" = true := by
    simp only [stringsHasSuffix, String.data_append]
    exact List.isSuffixOf_iff_suffix.mpr (List.suffix_append _ _)
  have ht2 : stringsTrimSuffix (m ++ ".m4s") ".m4s" = m := by
    simp only [stringsTrimSuffix, hs2, if_true]
    apply String.ext
    simp only [String.data_append, List.length_append, Nat.add_sub_cancel, List.take_left]
  simp only [segmentNumOf, hp, hs, Bool.and_self, if_true, ht, ht2]

theorem segmentNumOf_shape (s : String) (h : segmentNumOf s ≠ 0) :
    ∃ m : String, s = "segment_" ++ m ++ ".m4s" := by
  unfold segmentNumOf at h
  by_cases hc : (stringsHasPrefix s "segment_" && stringsHasSuffix s ".m4s") = true
  · rw [Bool.and_eq_true] at hc
    obtain ⟨hp, hs⟩ := hc
    obtain ⟨t, ht⟩ := List.isPrefixOf_iff_prefix.mp hp
    obtain ⟨u, hu⟩ := List.isSuffixOf_iff_suffix.mp hs
    have heq : "segment_".data ++ t = u ++ ".m4s".data := by rw [ht, hu]
    rcases List.append_eq_append_iff.mp heq with ⟨a, ha, hb⟩ | ⟨c, hc1, hc2⟩
    · refine ⟨⟨a⟩, ?_⟩
      apply String.ext
      simp only [String.data_append, List.append_assoc]
      rw [← hb, ht]
    · cases c with
      | nil =>
        refine ⟨⟨[]⟩, ?_⟩
        apply String.ext
        simp only [String.data_append, List.append_assoc, List.nil_append]
        simp only [List.nil_append] at hc2
        rw [hc2, ht]
      | cons x xs =>
        exfalso
        have hx : x = '.' := by
          have := congrArg List.head? hc2
          simpa using this.symm
        have hmem : x ∈ "segment_".data := by
          rw [hc1]
          simp
        rw [hx] at hmem
        revert hmem
        decide
  · rw [if_neg hc] at h
    exact absurd rfl h

theorem digitChar_ne_sign (d : Nat) (h : d < 10) : digitChar d ≠ '-' ∧ digitChar d ≠ '+' := by
  interval_cases d <;> decide

theorem Atoi_digits (ds : List Nat) (hne : ds ≠ []) (h : ∀ d ∈ ds, d < 10) :
    Atoi (digitsString ds) =
      if decimalValue ds < 2 ^ 63 then some (decimalValue ds : Int)
      else none := by
  cases ds with
  | nil => exact absurd rfl hne
  | cons d rest =>
    have hd := digitChar_ne_sign d (h d (List.mem_cons_self _ _))
    have hv := digitsValue_map (d :: rest) h 0
    simp only [List.map_cons, Nat.zero_mul, Nat.zero_add] at hv
    simp only [Atoi, digitsString, List.map_cons, if_neg hd.1, if_neg hd.2, hv]

theorem Atoi_plus_digits (ds : List Nat) (hne : ds ≠ []) (h : ∀ d ∈ ds, d < 10) :
    Atoi ("+" ++ digitsString ds) =
      if decimalValue ds < 2 ^ 63 then some (decimalValue ds : Int)
      else none := by
  have hv := digitsValue_map ds h 0
  simp only [Nat.zero_mul, Nat.zero_add] at hv
  have hdata : ("+" ++ digitsString ds).data = '+' :: ds.map digitChar := rfl
  have hne2 : ds.map digitChar ≠ [] := by simpa using hne
  simp only [Atoi, hdata, if_neg hne2, hv]
  simp

theorem Atoi_minus_digits (ds : List Nat) (hne : ds ≠ []) (h : ∀ d ∈ ds, d < 10) :
    Atoi ("-" ++ digitsString ds) =
      if decimalValue ds ≤ 2 ^ 63 then some (-(decimalValue ds : Int))
      else none := by
  have hv := digitsValue_map ds h 0
  simp only [Nat.zero_mul, Nat.zero_add] at hv
  have hdata : ("-" ++ digitsString ds).data = '-' :: ds.map digitChar := rfl
  have hne2 : ds.map digitChar ≠ [] := by simpa using hne
  simp only [Atoi, hdata, if_neg hne2, hv]
  simp

theorem Atoi_inv (m : String) (n : Int) (h : Atoi m = some n) :
    ∃ ds : List Nat, ds ≠ [] ∧ (∀ d ∈ ds, d < 10) ∧
      ((m = digitsString ds ∧ n = (decimalValue ds : Int) ∧
          decimalValue ds < 2 ^ 63) ∨
        (m = "+" ++ digitsString ds ∧ n = (decimalValue ds : Int) ∧
          decimalValue ds < 2 ^ 63) ∨
        (m = "-" ++ digitsString ds ∧ n = -(decimalValue ds : Int) ∧
          decimalValue ds ≤ 2 ^ 63)) := by
  unfold Atoi at h
  cases hm : m.data with
  | nil => rw [hm] at h; cases h
  | cons c cs =>
    rw [hm] at h
    simp only [] at h
    by_cases h1 : c = '-'
    · rw [if_pos h1] at h
      by_cases h2 : cs = []
      · rw [if_pos h2] at h; cases h
      · rw [if_neg h2] at h
        cases hv : digitsValue cs 0 with
        | none => rw [hv] at h; cases h
        | some v =>
          rw [hv] at h
          simp only [] at h
          by_cases h3 : v ≤ 2 ^ 63
          · rw [if_pos h3] at h
            obtain ⟨ds, hd1, hd2, hd3⟩ := digitsValue_inv cs 0 v hv
            simp only [Nat.zero_mul, Nat.zero_add] at hd3
            refine ⟨ds, ?_, hd1, Or.inr (Or.inr ⟨?_, ?_, ?_⟩)⟩
            · intro hnil
              rw [hnil] at hd2
              exact h2 hd2
            · apply String.ext
              rw [hm, h1, hd2]
              rfl
            · rw [← hd3]
              exact (Option.some.inj h).symm
            · rw [← hd3]
              exact h3
          · rw [if_neg h3] at h; cases h
    · rw [if_neg h1] at h
      by_cases h1p : c = '+'
      · rw [if_pos h1p] at h
        by_cases h2 : cs = []
        · rw [if_pos h2] at h; cases h
        · rw [if_neg h2] at h
          cases hv : digitsValue cs 0 with
          | none => rw [hv] at h; cases h
          | some v =>
            rw [hv] at h
            simp only [] at h
            by_cases h3 : v < 2 ^ 63
            · rw [if_pos h3] at h
              obtain ⟨ds, hd1, hd2, hd3⟩ := digitsValue_inv cs 0 v hv
              simp only [Nat.zero_mul, Nat.zero_add] at hd3
              refine ⟨ds, ?_, hd1, Or.inr (Or.inl ⟨?_, ?_, ?_⟩)⟩
              · intro hnil
                rw [hnil] at hd2
                exact h2 hd2
              · apply String.ext
                rw [hm, h1p, hd2]
                rfl
              · rw [← hd3]
                exact (Option.some.inj h).symm
              · rw [← hd3]
                exact h3
            · rw [if_neg h3] at h; cases h
      · rw [if_neg h1p] at h
        cases hv : digitsValue (c :: cs) 0 with
        | none => rw [hv] at h; cases h
        | some v =>
          rw [hv] at h
          simp only [] at h
          by_cases h3 : v < 2 ^ 63
          · rw [if_pos h3] at h
            obtain ⟨ds, hd1, hd2, hd3⟩ := digitsValue_inv (c :: cs) 0 v hv
            simp only [Nat.zero_mul, Nat.zero_add] at hd3
            refine ⟨ds, ?_, hd1, Or.inl ⟨?_, ?_, ?_⟩⟩
            · intro hnil
              rw [hnil] at hd2
              cases hd2
            · apply String.ext
              rw [hm, hd2]
              rfl
            · rw [← hd3]
              exact (Option.some.inj h).symm
            · rw [← hd3]
              exact h3
          · rw [if_neg h3] at h; cases h

/-! ## The video cache -/

theorem scanTraks_videoTrack_none (traks : List Trak) (vf : Source)
    (h : ∀ trak ∈ traks, ¬ trak.isVide) :
    (scanTraks traks vf).VideoTrack = vf.VideoTrack := by
  induction traks generalizing vf with
  | nil => rfl
  | cons trak rest ih =>
    have hrest : ∀ t ∈ rest, ¬ t.isVide := fun t ht => h t (List.mem_cons_of_mem _ ht)
    have htrak := h trak (List.mem_cons_self _ _)
    cases hm : trak.Mdia with
    | none =>
      rw [scanTraks, hm]
      exact ih vf hrest
    | some mdia =>
      cases hh : mdia.Hdlr with
      | none =>
        rw [scanTraks, hm]
        simp only [hh]
        exact ih vf hrest
      | some hdlr =>
        have hv : ¬ hdlr.HandlerType = "vide" := fun hv => htrak ⟨mdia, hdlr, hm, hh, hv⟩
        rw [scanTraks, hm]
        simp only [hh, if_neg hv]
        split_ifs
        · rw [ih _ hrest]
        · exact ih vf hrest

theorem OpenVideo_cases (fs : FileSystem) (videoCache : VideoCache) (path : String)
    (hmiss : videoCache path = none) :
    ((OpenVideo fs videoCache path).videoCache = videoCache ∧
        ∃ e, (OpenVideo fs videoCache path).result = Except.error e) ∨
      ∃ vf, (OpenVideo fs videoCache path).result = Except.ok vf ∧
        (OpenVideo fs videoCache path).videoCache =
          (fun p => if p = path then some vf else videoCache p) ∧
        vf.VideoTrack ≠ none ∧ (OpenVideo fs videoCache path).parsed = true := by
  unfold OpenVideo
  simp only [hmiss]
  cases fs.osOpen path with
  | none => exact Or.inl ⟨rfl, _, rfl⟩
  | some f =>
    simp only []
    cases fs.decodeFile f with
    | none => exact Or.inl ⟨rfl, _, rfl⟩
    | some parsedFile =>
      simp only []
      cases parsedFile.Moov with
      | none => exact Or.inl ⟨rfl, _, rfl⟩
      | some moov =>
        simp only []
        cases hv : (scanTraks moov.Traks ⟨path, f, parsedFile, 0, 0, none, none, "", 0, 0⟩).VideoTrack with
        | none => exact Or.inl ⟨rfl, _, rfl⟩
        | some trak =>
          refine Or.inr ⟨_, rfl, rfl, ?_, rfl⟩
          rw [hv]
          exact Option.some_ne_none trak

theorem OpenVideo_inv (fs : FileSystem) (videoCache : VideoCache) (path : String)
    (hinv : ∀ p vf, videoCache p = some vf → vf.VideoTrack ≠ none) :
    ∀ p vf, (OpenVideo fs videoCache path).videoCache p = some vf → vf.VideoTrack ≠ none := by
  cases hc : videoCache path with
  | some vf0 =>
    have : (OpenVideo fs videoCache path).videoCache = videoCache := by
      unfold OpenVideo
      simp only [hc]
    rw [this]
    exact hinv
  | none =>
    rcases OpenVideo_cases fs videoCache path hc with ⟨h1, _⟩ | ⟨vf, _, h2, h3, _⟩
    · rw [h1]
      exact hinv
    · rw [h2]
      intro p vf1 hp
      by_cases hpp : p = path
      · simp only [hpp, if_true, Option.some.injEq] at hp
        rw [← hp]
        exact h3
      · simp only [hpp, if_false] at hp
        exact hinv p vf1 hp

theorem openAll_inv (fs : FileSystem) (paths : List String) (videoCache : VideoCache)
    (hinv : ∀ p vf, videoCache p = some vf → vf.VideoTrack ≠ none) :
    ∀ p vf, openAll fs paths videoCache p = some vf → vf.VideoTrack ≠ none := by
  induction paths generalizing videoCache with
  | nil => exact hinv
  | cons path rest ih => exact ih _ (OpenVideo_inv fs videoCache path hinv)

/-! ## Sample offsets -/

theorem sumSizes_eq (stsz : StszBox) (k : Nat) (i : Int) (acc : Nat) :
    sumSizes stsz k i acc % u64 =
      (acc + ((List.range k).map (fun j : Nat => stsz.GetSampleSize (i + (j : Int)))).sum) % u64 := by
  induction k generalizing i acc with
  | zero => simp [sumSizes]
  | succ k ih =>
    rw [sumSizes, ih, List.range_succ_eq_map, List.map_cons, List.sum_cons, List.map_map]
    have hf : ((fun j : Nat => stsz.GetSampleSize (i + (j : Int))) ∘ Nat.succ) =
        fun j : Nat => stsz.GetSampleSize (i + 1 + (j : Int)) := by
      funext j
      simp only [Function.comp, Nat.succ_eq_add_one, Nat.cast_add, Nat.cast_one]
      congr 1
      omega
    rw [hf]
    simp only [Nat.cast_zero, add_zero]
    rw [Nat.add_mod, Nat.mod_mod, ← Nat.add_mod, Nat.add_assoc]

theorem offsetFrom_eq (stbl : Stbl) (stsz : StszBox) (h : stbl.Stsz = some stsz)
    (chunkOffset : Nat) (s : Int) (n : Nat) :
    offsetFrom stbl chunkOffset s n =
      Run.returned (Except.ok ((chunkOffset +
        ((List.range ((n : Int) - s).toNat).map
          (fun j : Nat => stsz.GetSampleSize (s + (j : Int)))).sum) % u64)) := by
  unfold offsetFrom
  by_cases hlt : s < (n : Int)
  · rw [if_pos hlt, h]
    simp only []
    congr 2
    rw [Nat.add_mod, sumSizes_eq, Nat.zero_add, ← Nat.add_mod]
  · rw [if_neg hlt]
    have h0 : ((n : Int) - s).toNat = 0 := by omega
    rw [h0]
    simp

theorem chunkAt_of_lt (offsets : List Nat) (idx : Int) (h0 : 0 ≤ idx)
    (h1 : idx < (offsets.length : Int)) :
    chunkAt offsets idx = some (offsets.getD idx.toNat 0) := by
  unfold chunkAt
  rw [if_neg (by omega)]
  have hlt : idx.toNat < offsets.length := by omega
  rw [List.getD_eq_getElem _ _ hlt, List.get?_eq_get hlt]
  rfl

theorem chunk_index (c : Int) (h1 : 1 ≤ c) (h2 : c < 2 ^ 63) : toInt (ofInt (c - 1)) = c - 1 := by
  obtain ⟨m, hm⟩ := Int.eq_ofNat_of_zero_le (show (0 : Int) ≤ c - 1 by omega)
  rw [hm, ofInt_natCast m (by rw [u64_eq]; omega), toInt_of_lt m (by omega)]

/-! ## The track run -/

theorem offsetFrom_lt (stbl : Stbl) (chunkOffset : Nat) (s : Int) (n offset : Nat)
    (h : offsetFrom stbl chunkOffset s n = Run.returned (Except.ok offset)) : offset < u64 := by
  unfold offsetFrom at h
  have hpos : 0 < u64 := by decide
  split_ifs at h
  · cases hz : stbl.Stsz with
    | none => simp [hz] at h
    | some stsz =>
      simp only [hz, Run.returned.injEq, Except.ok.injEq] at h
      rw [← h]
      exact Nat.mod_lt _ hpos
  · simp only [Run.returned.injEq, Except.ok.injEq] at h
    rw [← h]
    exact Nat.mod_lt _ hpos

theorem getSampleOffset_lt (stbl : Stbl) (n offset : Nat)
    (h : getSampleOffset stbl n = Run.returned (Except.ok offset)) : offset < u64 := by
  unfold getSampleOffset at h
  simp only [] at h
  repeat' split at h
  all_goals first
    | exact offsetFrom_lt _ _ _ _ _ h
    | exact absurd h (by simp)

theorem ReadFull_spec (f f2 : OsFile) (size : Nat) (out : List Byte)
    (h : f.ReadFull size = some (out, f2)) :
    out = bytesAt f.data f.pos size ∧ out.length = size ∧ f2.data = f.data := by
  unfold OsFile.ReadFull at h
  by_cases h0 : size = 0
  · rw [if_pos h0] at h
    simp only [Option.some.injEq, Prod.mk.injEq] at h
    obtain ⟨h1, h2⟩ := h
    subst h0
    rw [← h1, ← h2]
    simp [bytesAt]
  · rw [if_neg h0] at h
    by_cases h1 : f.pos + size ≤ f.data.length
    · rw [if_pos h1] at h
      simp only [Option.some.injEq, Prod.mk.injEq] at h
      obtain ⟨h2, h3⟩ := h
      rw [← h2, ← h3]
      refine ⟨rfl, ?_, rfl⟩
      rw [List.length_take, List.length_drop]
      omega
    · rw [if_neg h1] at h
      cases h

theorem Seek_spec (f f1 : OsFile) (offset : Nat) (hlt : offset < u64)
    (h : f.Seek (toInt offset) = some f1) : f1.data = f.data ∧ f1.pos = offset := by
  unfold OsFile.Seek at h
  by_cases h0 : toInt offset < 0
  · rw [if_pos h0] at h
    cases h
  · rw [if_neg h0] at h
    simp only [Option.some.injEq] at h
    rw [← h]
    refine ⟨rfl, ?_⟩
    simp only []
    unfold toInt at h0 ⊢
    rw [Nat.mod_eq_of_lt hlt] at h0 ⊢
    rw [u64_eq] at hlt
    split_ifs at h0 ⊢
    · simp
    · omega

theorem range_succ_map {α : Type} (k : Nat) (f : Nat → α) :
    (List.range (k + 1)).map f = f 0 :: (List.range k).map (fun j => f (j + 1)) := by
  rw [List.range_succ_eq_map, List.map_cons, List.map_map]
  rfl

theorem createTrafLoop_ok (stbl : Stbl) (stsz : StszBox) (durations : List Nat) (k : Nat) :
    ∀ (sampleNum : Nat) (samples : List Sample) (mdatData : List Byte) (file : OsFile)
      (samples1 : List Sample) (mdatData1 : List Byte), sampleNum + k < u32 →
      createTrafLoop stbl stsz durations k sampleNum samples mdatData file =
        Run.returned (Except.ok (samples1, mdatData1)) →
      samples1 = samples ++ (List.range k).map (fun j =>
        newSample stsz durations (stbl.Stss.map StssBox.SampleNumber) stbl.Ctts (sampleNum + j)) ∧
      mdatData1 = mdatData ++
        ((List.range k).map (fun j => sampleBytes file.data stbl stsz (sampleNum + j))).flatten ∧
      ∀ j, j < k → ∃ offset,
        getSampleOffset stbl (sampleNum + j) = Run.returned (Except.ok offset) ∧
        (sampleBytes file.data stbl stsz (sampleNum + j)).length =
          stsz.GetSampleSize ((sampleNum + j : Nat) : Int) := by
  induction k with
  | zero =>
    intro sampleNum samples mdatData file samples1 mdatData1 _ h
    simp only [createTrafLoop, Run.returned.injEq, Except.ok.injEq, Prod.mk.injEq] at h
    obtain ⟨h1, h2⟩ := h
    refine ⟨by simp [h1], by simp [h2], ?_⟩
    intro j hj
    omega
  | succ k ih =>
    intro sampleNum samples mdatData file samples1 mdatData1 hk h
    rw [createTrafLoop] at h
    cases hoff : getSampleOffset stbl sampleNum with
    | panicked => simp [hoff] at h
    | returned r =>
      cases r with
      | error err => simp [hoff] at h
      | ok offset =>
        simp only [hoff] at h
        have hlt := getSampleOffset_lt stbl sampleNum offset hoff
        cases hseek : file.Seek (toInt offset) with
        | none => simp [hseek] at h
        | some file1 =>
          simp only [hseek] at h
          obtain ⟨hd1, hp1⟩ := Seek_spec file file1 offset hlt hseek
          cases hread : file1.ReadFull (stsz.GetSampleSize (sampleNum : Int)) with
          | none => simp [hread] at h
          | some pr =>
            obtain ⟨sampleData, file2⟩ := pr
            simp only [hread] at h
            obtain ⟨ho, hl, hd2⟩ := ReadFull_spec file1 file2 _ sampleData hread
            have hs : (sampleNum + 1) % u32 = sampleNum + 1 := Nat.mod_eq_of_lt (by omega)
            rw [hs] at h
            obtain ⟨i1, i2, i3⟩ := ih (sampleNum + 1) _ _ file2 samples1 mdatData1 (by omega) h
            have hbytes : sampleBytes file.data stbl stsz sampleNum = sampleData := by
              unfold sampleBytes
              rw [hoff, ho, hd1, hp1]
            have hshift : ∀ j : Nat, sampleNum + 1 + j = sampleNum + (j + 1) := fun j => by omega
            refine ⟨?_, ?_, ?_⟩
            · rw [i1, range_succ_map, List.append_assoc]
              simp only [List.singleton_append, Nat.add_zero, hshift]
            · rw [i2, range_succ_map, List.flatten_cons, hd2, hd1, List.append_assoc]
              simp only [Nat.add_zero, hshift, hbytes]
            · intro j hj
              cases j with
              | zero =>
                refine ⟨offset, hoff, ?_⟩
                rw [Nat.add_zero, hbytes, hl]
              | succ j =>
                obtain ⟨o, ho1, ho2⟩ := i3 j (by omega)
                rw [hd2, hd1, hshift] at ho2
                rw [hshift] at ho1
                exact ⟨o, ho1, ho2⟩

theorem expandEntry_eq (dur maxSample : Nat) (hmax : maxSample < u32) (j : Nat) :
    ∀ result : List Nat, result.length ≤ maxSample →
      expandEntry dur maxSample j result =
        result ++ List.replicate (min j (maxSample - result.length)) dur := by
  induction j with
  | zero =>
    intro result _
    simp [expandEntry]
  | succ j ih =>
    intro result hlen
    rw [expandEntry, Nat.mod_eq_of_lt (by omega)]
    by_cases hlt : result.length < maxSample
    · rw [if_pos hlt, ih _ (by simp only [List.length_append, List.length_singleton]; omega)]
      simp only [List.length_append, List.length_singleton, List.append_assoc,
        List.singleton_append]
      have hm : min (j + 1) (maxSample - result.length) =
          min j (maxSample - (result.length + 1)) + 1 := by omega
      rw [hm, List.replicate_succ]
    · rw [if_neg hlt]
      have hm : min (j + 1) (maxSample - result.length) = 0 := by omega
      rw [hm]
      simp

theorem expandEntries_eq (maxSample : Nat) (hmax : maxSample < u32) (es : List SttsEntry) :
    ∀ result : List Nat, result.length ≤ maxSample →
      expandEntries maxSample es result =
        result ++ (deltasOf es).take (maxSample - result.length) := by
  induction es with
  | nil =>
    intro result _
    simp [expandEntries, deltasOf]
  | cons e es ih =>
    intro result hlen
    rw [expandEntries, expandEntry_eq _ _ hmax _ _ hlen, ih]
    · simp only [deltasOf, List.length_append, List.length_replicate, List.append_assoc,
        List.take_append_eq_append_take, List.take_replicate]
      congr 2
      · rw [Nat.min_comm]
      · congr 1
        omega
    · simp only [List.length_append, List.length_replicate]
      omega

theorem expandSampleDurations_eq (stts : SttsBox) (maxSample : Nat) (hmax : maxSample < u32) :
    expandSampleDurations stts maxSample = (sampleDeltas stts).take maxSample := by
  unfold expandSampleDurations sampleDeltas
  rw [expandEntries_eq maxSample hmax _ [] (Nat.zero_le _)]
  simp

theorem newSample_dur (stsz : StszBox) (stts : SttsBox) (sync : Option (List Nat))
    (ctts : Option CttsBox) (n last : Nat) (h1 : 1 ≤ n) (h2 : n < last) (h3 : last < u32)
    (h4 : n ≤ totalSamples stts) :
    (newSample stsz (expandSampleDurations stts last) sync ctts n).Dur =
      (sampleDeltas stts).getD (n - 1) 0 := by
  have hi : (n + u32 - 1) % u32 = n - 1 := by
    rw [show n + u32 - 1 = (n - 1) + 1 * u32 by omega, Nat.add_mul_mod_self_right]
    exact Nat.mod_eq_of_lt (by omega)
  have hlen := sampleDeltas_length stts
  have hl : n - 1 < ((sampleDeltas stts).take last).length := by
    rw [List.length_take, hlen]
    omega
  simp only [newSample, hi, expandSampleDurations_eq stts last h3, if_pos hl]
  rw [List.getD_eq_getElem _ _ hl, List.getD_eq_getElem _ _ (by omega), List.getElem_take]

theorem createTraf_ok (vf : Source) (cursor : Nat) (stbl : Stbl)
    (trackID first last baseTime : Nat) (traf : TrafBox) (mdatData : List Byte)
    (hlast : last < u32)
    (h : createTraf vf cursor stbl trackID first last baseTime =
      Run.returned (Except.ok (traf, mdatData))) :
    ∃ stsz stts, stbl.Stsz = some stsz ∧ stbl.Stts = some stts ∧
      traf = ⟨some ⟨trackID, 0x020000⟩, some ⟨baseTime⟩, some ⟨0, 0x000F01,
        (List.range (last - first)).map (fun j =>
          newSample stsz (expandSampleDurations stts last)
            (stbl.Stss.map StssBox.SampleNumber) stbl.Ctts (first + j)), 1⟩⟩ ∧
      mdatData = ((List.range (last - first)).map
        (fun j => sampleBytes vf.File stbl stsz (first + j))).flatten ∧
      ∀ j, j < last - first → ∃ offset,
        getSampleOffset stbl (first + j) = Run.returned (Except.ok offset) ∧
        (sampleBytes vf.File stbl stsz (first + j)).length =
          stsz.GetSampleSize ((first + j : Nat) : Int) := by
  unfold createTraf at h
  cases hz : stbl.Stsz with
  | none => simp [hz] at h
  | some stsz =>
    cases ht : stbl.Stts with
    | none => simp [hz, ht] at h
    | some stts =>
      simp only [hz, ht] at h
      cases hloop : createTrafLoop stbl stsz (expandSampleDurations stts last) (last - first)
          first [] [] ⟨vf.File, cursor⟩ with
      | panicked => simp [hloop] at h
      | returned r =>
        cases r with
        | error err => simp [hloop] at h
        | ok pr =>
          obtain ⟨samples, mdat1⟩ := pr
          simp only [hloop, Run.returned.injEq, Except.ok.injEq, Prod.mk.injEq] at h
          obtain ⟨h1, h2⟩ := h
          by_cases hfl : first < last
          · obtain ⟨i1, i2, i3⟩ := createTrafLoop_ok stbl stsz _ (last - first) first [] []
              ⟨vf.File, cursor⟩ samples mdat1 (by omega) hloop
            refine ⟨stsz, stts, rfl, rfl, ?_, ?_, i3⟩
            · rw [← h1, i1, List.nil_append]
            · rw [← h2, i2, List.nil_append]
          · have h0 : last - first = 0 := by omega
            rw [h0] at hloop ⊢
            simp only [createTrafLoop, Run.returned.injEq, Except.ok.injEq, Prod.mk.injEq] at hloop
            refine ⟨stsz, stts, rfl, rfl, ?_, ?_, ?_⟩
            · rw [← h1, ← hloop.1]
              rfl
            · rw [← h2, ← hloop.2]
              rfl
            · intro j hj
              omega

/-! ## What `GenerateMediaSegment` hands back -/

theorem GenerateMediaSegment_pair (lib : Mp4Lib) (segmentDuration : Nat) (vf : Source)
    (cursor : Nat) (segmentIndex : Int) (bytes : Option (List Byte)) (err : Option MediaError)
    (h : GenerateMediaSegment lib segmentDuration vf cursor segmentIndex =
      Run.returned (bytes, err)) :
    (bytes = none ∧ err ≠ none) ∨ (bytes ≠ none ∧ err = none) := by
  unfold GenerateMediaSegment at h
  simp only [] at h
  repeat' split at h
  all_goals
    cases h
    try simp

theorem GenerateMediaSegment_nil_minf (lib : Mp4Lib) (segmentDuration : Nat) (vf : Source)
    (cursor : Nat) (segmentIndex : Int) (trak : Trak) (mdia : Mdia)
    (h1 : vf.VideoTrack = some trak) (h2 : trak.Mdia = some mdia) (h3 : mdia.Minf = none) :
    GenerateMediaSegment lib segmentDuration vf cursor segmentIndex = Run.panicked := by
  unfold GenerateMediaSegment
  rw [h1]
  simp only [h2, h3]

/-! ## The closed form of `getSampleRange` -/

theorem startAfter_zero (s : Nat) (st : ScanState) (ds : List Nat) :
    startAfter s st ds 0 = st.startSample := by
  unfold startAfter
  by_cases h : st.startSample ≠ 0
  · rw [if_pos h]
  · rw [if_neg h, if_neg (Nat.not_lt_zero _)]
    omega

theorem startAfter_cons (s d : Nat) (st : ScanState) (ds : List Nat) (m n c : Nat)
    (h1 : 0 < st.sampleNum) (hn : n = st.sampleNum + 1) (hc : c = st.currentTime + d) :
    startAfter s ⟨n, c, pickStart s st⟩ ds m = startAfter s st (d :: ds) (m + 1) := by
  subst hn hc
  unfold startAfter pickStart
  simp only [countBelow]
  by_cases h0 : st.startSample = 0
  · by_cases hs : s ≤ st.currentTime
    · have hp : (0 : Nat) < m + 1 := Nat.succ_pos m
      simp [h0, hs, Nat.not_lt.mpr hs, Nat.pos_iff_ne_zero.mp h1]
    · have hlt : st.currentTime < s := Nat.lt_of_not_le hs
      simp only [h0, hs, and_false, if_false, hlt, if_true, ne_eq, not_true_eq_false,
        Nat.add_lt_add_iff_right]
      split_ifs
      · omega
      · rfl
  · simp [h0]

theorem scan_early (s e : Nat) (ds : List Nat) :
    ∀ (st : ScanState) (m : Nat), st.sampleNum + ds.length < u32 →
      st.currentTime + ds.sum < u64 → 0 < st.sampleNum → m < ds.length →
      e ≤ st.currentTime + (ds.take (m + 1)).sum →
      (∀ j, j < m → st.currentTime + (ds.take (j + 1)).sum < e) →
      scanFlat s e ds st = Sum.inl (startAfter s st ds (m + 1), st.sampleNum + m + 1) := by
  induction ds with
  | nil =>
    intro st m _ _ _ hm
    simp at hm
  | cons d ds ih =>
    intro st m hn ht h1 hm he hlt
    simp only [List.length_cons, List.sum_cons] at hn ht hm
    have hc : (st.currentTime + d) % u64 = st.currentTime + d := Nat.mod_eq_of_lt (by omega)
    have hs : (st.sampleNum + 1) % u32 = st.sampleNum + 1 := Nat.mod_eq_of_lt (by omega)
    rw [scanFlat_cons, hc, hs]
    cases m with
    | zero =>
      simp only [Nat.zero_add, List.take_succ_cons, List.take_zero, List.sum_cons, List.sum_nil,
        Nat.add_zero] at he
      rw [if_pos he, ← startAfter_cons s d st ds 0 _ _ h1 rfl rfl, startAfter_zero]
    | succ m =>
      have h0 := hlt 0 (Nat.succ_pos m)
      simp only [Nat.zero_add, List.take_succ_cons, List.take_zero, List.sum_cons, List.sum_nil,
        Nat.add_zero] at h0
      rw [if_neg (by omega), ih ⟨_, _, pickStart s st⟩ m (by simp only []; omega)
        (by simp only []; omega) (by simp only []; omega) (by omega)
        (by simp only [List.take_succ_cons, List.sum_cons] at he ⊢; omega)
        (fun j hj => by
          have := hlt (j + 1) (by omega)
          simp only [List.take_succ_cons, List.sum_cons] at this ⊢
          omega),
        startAfter_cons s d st ds (m + 1) _ _ h1 rfl rfl]
      simp only []
      congr 2
      omega

theorem scan_exhaust (s e : Nat) (ds : List Nat) :
    ∀ (st : ScanState), st.sampleNum + ds.length < u32 →
      st.currentTime + ds.sum < u64 → 0 < st.sampleNum →
      (∀ j, j < ds.length → st.currentTime + (ds.take (j + 1)).sum < e) →
      scanFlat s e ds st =
        Sum.inr ⟨st.sampleNum + ds.length, st.currentTime + ds.sum, startAfter s st ds ds.length⟩ := by
  induction ds with
  | nil =>
    intro st _ _ _ _
    simp [scanFlat, startAfter_zero]
  | cons d ds ih =>
    intro st hn ht h1 hlt
    simp only [List.length_cons, List.sum_cons] at hn ht
    have hc : (st.currentTime + d) % u64 = st.currentTime + d := Nat.mod_eq_of_lt (by omega)
    have hs : (st.sampleNum + 1) % u32 = st.sampleNum + 1 := Nat.mod_eq_of_lt (by omega)
    have h0 := hlt 0 (by simp)
    simp only [Nat.zero_add, List.take_succ_cons, List.take_zero, List.sum_cons, List.sum_nil,
      Nat.add_zero] at h0
    rw [scanFlat_cons, hc, hs, if_neg (by omega), ih ⟨_, _, pickStart s st⟩
      (by simp only []; omega) (by simp only []; omega) (by simp only []; omega)
      (fun j hj => by
        have := hlt (j + 1) (by simpa using hj)
        simp only [List.take_succ_cons, List.sum_cons] at this ⊢
        omega),
      startAfter_cons s d st ds ds.length _ _ h1 rfl rfl]
    simp only [List.length_cons, List.sum_cons]
    congr 2 <;> omega

theorem countBelow_least (s : Nat) (ds : List Nat) (f : Nat) (h1 : 1 ≤ f) (h2 : f ≤ ds.length)
    (h3 : s ≤ (ds.take (f - 1)).sum) (h4 : ∀ k, 1 ≤ k → k < f → (ds.take (k - 1)).sum < s) :
    countBelow s 0 ds = f - 1 := by
  have hle := countBelow_le_length s 0 ds
  by_contra hne
  rcases Nat.lt_or_gt_of_ne hne with hlt | hgt
  · have := countBelow_ge s 0 ds (countBelow s 0 ds) (Nat.le_refl _) (by omega)
    have := h4 (countBelow s 0 ds + 1) (by omega) (by omega)
    simp only [Nat.add_sub_cancel] at this
    omega
  · have := countBelow_lt s 0 ds (f - 1) hgt
    omega

theorem scanEntry_zero_delta (s e : Nat) (j : Nat) :
    ∀ st : ScanState, st.startSample ≠ 0 → st.currentTime < e → st.currentTime < u64 →
      st.sampleNum < u32 →
      scanEntry s e 0 j st =
        Sum.inr ⟨(st.sampleNum + j) % u32, st.currentTime, st.startSample⟩ := by
  induction j with
  | zero =>
    intro st _ _ _ hn
    simp only [scanEntry, Nat.add_zero, Nat.mod_eq_of_lt hn]
  | succ j ih =>
    intro st h0 he hu hn
    have hpos : 0 < u32 := by decide
    have hstep : scanSample s e 0 st =
        Sum.inr ⟨(st.sampleNum + 1) % u32, st.currentTime, st.startSample⟩ := by
      simp only [scanSample, Nat.add_zero, Nat.mod_eq_of_lt hu, ge_iff_le, Nat.not_le.mpr he,
        if_false, h0, false_and]
    rw [scanEntry, hstep]
    simp only []
    rw [ih ⟨(st.sampleNum + 1) % u32, st.currentTime, st.startSample⟩ h0 he hu
      (Nat.mod_lt _ hpos)]
    simp only []
    congr 2
    rw [Nat.add_mod, Nat.mod_mod, ← Nat.add_mod]
    congr 1
    omega

theorem getSampleRange_zero_deltas (count e : Nat) (he : 0 < e) :
    getSampleRange ⟨some ⟨[⟨count, 0⟩]⟩⟩ 0 e = Except.ok (1, (1 + count) % u32) := by
  have hscan := scanEntry_zero_delta 0 e count ⟨1, 0, 1⟩ (by decide) he (by decide) (by decide)
  simp only [getSampleRange, scanEntries, if_true, hscan]
  rfl

/-! ## Exact `float64` results -/

theorem bitLenAux_zero (fuel : Nat) : bitLenAux fuel 0 = 0 := by
  cases fuel <;> simp [bitLenAux]

theorem bitLenAux_bounds (fuel : Nat) :
    ∀ n, n ≤ fuel → n ≠ 0 → n < 2 ^ bitLenAux fuel n ∧ 2 ^ bitLenAux fuel n ≤ 2 * n := by
  induction fuel with
  | zero =>
    intro n h1 h2
    omega
  | succ fuel ih =>
    intro n h1 h2
    rw [bitLenAux, if_neg h2]
    by_cases h0 : n / 2 = 0
    · have hn : n = 1 := by omega
      rw [h0, bitLenAux_zero, hn]
      decide
    · obtain ⟨i1, i2⟩ := ih (n / 2) (by omega) h0
      rw [pow_succ]
      constructor <;> omega

theorem bitLen_bounds (n : Nat) (h : n ≠ 0) : n < 2 ^ bitLen n ∧ 2 ^ bitLen n ≤ 2 * n :=
  bitLenAux_bounds n n (Nat.le_refl n) h

theorem pow_split (n d n0 a b : Nat) (e : Int) (h : n * 2 ^ b = n0 * 2 ^ a * d)
    (he : e ≤ (a : Int) - b) :
    n * 2 ^ (-e).toNat = n0 * 2 ^ ((a : Int) - b - e).toNat * (d * 2 ^ e.toNat) := by
  have key : a + (-e).toNat = ((a : Int) - b - e).toNat + e.toNat + b := by omega
  have h1 : 2 ^ (a + (-e).toNat) = 2 ^ (((a : Int) - b - e).toNat + e.toNat + b) := by rw [key]
  apply Nat.eq_of_mul_eq_mul_right (pow_pos (by norm_num : 0 < 2) b)
  calc n * 2 ^ (-e).toNat * 2 ^ b = (n * 2 ^ b) * 2 ^ (-e).toNat := by ring
    _ = n0 * 2 ^ a * d * 2 ^ (-e).toNat := by rw [h]
    _ = n0 * d * 2 ^ (a + (-e).toNat) := by ring
    _ = n0 * d * 2 ^ (((a : Int) - b - e).toNat + e.toNat + b) := by rw [h1]
    _ = n0 * 2 ^ ((a : Int) - b - e).toNat * (d * 2 ^ e.toNat) * 2 ^ b := by ring

theorem exp_bound (n d n0 a b : Nat) (hn : n ≠ 0) (hd : d ≠ 0) (h53 : n0 < 2 ^ 53)
    (h : n * 2 ^ b = n0 * 2 ^ a * d) :
    (bitLen n : Int) - bitLen d - 53 ≤ (a : Int) - b := by
  obtain ⟨_, hn2⟩ := bitLen_bounds n hn
  obtain ⟨hd1, _⟩ := bitLen_bounds d hd
  have hlt : 2 ^ (bitLen n + b) < 2 ^ (54 + a + bitLen d) := by
    calc 2 ^ (bitLen n + b) = 2 ^ bitLen n * 2 ^ b := pow_add _ _ _
      _ ≤ 2 * n * 2 ^ b := Nat.mul_le_mul_right _ hn2
      _ = 2 * (n0 * 2 ^ a * d) := by rw [← h]; ring
      _ < 2 * (2 ^ 53 * 2 ^ a * 2 ^ bitLen d) :=
        Nat.mul_lt_mul_of_pos_left
          (Nat.mul_lt_mul'' (Nat.mul_lt_mul_of_pos_right h53 (pow_pos (by norm_num) a)) hd1)
          (by norm_num)
      _ = 2 ^ (54 + a + bitLen d) := by ring
  have := (Nat.pow_lt_pow_iff_right (by norm_num)).mp hlt
  omega

theorem roundRat_exact (n d n0 a b : Nat) (hd : d ≠ 0) (h53 : n0 < 2 ^ 53)
    (h : n * 2 ^ b = n0 * 2 ^ a * d) :
    (roundRat n d).m * 2 ^ (roundRat n d).e.toNat * d = n * 2 ^ (-(roundRat n d).e).toNat := by
  by_cases hn : n = 0
  · subst hn
    simp [roundRat]
  · have he0 := exp_bound n d n0 a b hn hd h53 h
    have hdiv : ∀ e : Int, e ≤ (a : Int) - b →
        n * 2 ^ (-e).toNat / (d * 2 ^ e.toNat) = n0 * 2 ^ ((a : Int) - b - e).toNat ∧
        n * 2 ^ (-e).toNat % (d * 2 ^ e.toNat) = 0 := by
      intro e he
      have hpos : 0 < d * 2 ^ e.toNat :=
        Nat.mul_pos (Nat.pos_of_ne_zero hd) (pow_pos (by norm_num) _)
      rw [pow_split n d n0 a b e h he]
      exact ⟨Nat.mul_div_cancel _ hpos, Nat.mul_mod_left _ _⟩
    have hfin : ∀ e : Int, e ≤ (a : Int) - b →
        n0 * 2 ^ ((a : Int) - b - e).toNat * 2 ^ e.toNat * d = n * 2 ^ (-e).toNat := by
      intro e he
      rw [pow_split n d n0 a b e h he]
      ring
    have hsel : ∀ e : Int, e ≤ (a : Int) - b →
        (if 2 * (n * 2 ^ (-e).toNat % (d * 2 ^ e.toNat)) < d * 2 ^ e.toNat then
            n * 2 ^ (-e).toNat / (d * 2 ^ e.toNat)
          else if d * 2 ^ e.toNat < 2 * (n * 2 ^ (-e).toNat % (d * 2 ^ e.toNat)) then
            n * 2 ^ (-e).toNat / (d * 2 ^ e.toNat) + 1
          else if n * 2 ^ (-e).toNat / (d * 2 ^ e.toNat) % 2 = 0 then
            n * 2 ^ (-e).toNat / (d * 2 ^ e.toNat)
          else n * 2 ^ (-e).toNat / (d * 2 ^ e.toNat) + 1) =
          n0 * 2 ^ ((a : Int) - b - e).toNat := by
      intro e he
      have hpos : 0 < d * 2 ^ e.toNat :=
        Nat.mul_pos (Nat.pos_of_ne_zero hd) (pow_pos (by norm_num) _)
      obtain ⟨h1, h2⟩ := hdiv e he
      rw [h2, h1, if_pos (by omega)]
    unfold roundRat
    rw [if_neg (by simp [hn, hd])]
    simp only []
    by_cases hq : n * 2 ^ (-((bitLen n : Int) - bitLen d - 53)).toNat /
        (d * 2 ^ ((bitLen n : Int) - bitLen d - 53).toNat) < 2 ^ 53
    · simp only [if_pos hq]
      rw [hsel _ he0]
      exact hfin _ he0
    · have he1 : (bitLen n : Int) - bitLen d - 53 + 1 ≤ (a : Int) - b := by
        by_contra hc
        have heq : (bitLen n : Int) - bitLen d - 53 = (a : Int) - b := by omega
        apply hq
        rw [(hdiv _ he0).1, heq]
        simpa using h53
      simp only [if_neg hq]
      rw [hsel _ he1]
      exact hfin _ he1

theorem ofNat_exact (k : Nat) (hk : k < 2 ^ 53) :
    (F64.ofNat k).num = k * (F64.ofNat k).den := by
  have h := roundRat_exact k 1 k 0 0 (by norm_num) hk (by ring)
  simpa [F64.ofNat, F64.num, F64.den] using h

theorem F64.den_pos (a : F64) : 0 < a.den := pow_pos (by norm_num) _

theorem roundThousandths_scale (n d c : Nat) (hc : 0 < c) :
    roundThousandths (n * c) (d * c) = roundThousandths n d := by
  have h1 : 1000 * (n * c) = 1000 * n * c := by ring
  have h2 : ∀ r : Nat, (2 * (r * c) < d * c) ↔ (2 * r < d) := by
    intro r
    rw [← Nat.mul_assoc]
    exact Nat.mul_lt_mul_right hc
  have h3 : ∀ r : Nat, (d * c < 2 * (r * c)) ↔ (d < 2 * r) := by
    intro r
    rw [← Nat.mul_assoc]
    exact Nat.mul_lt_mul_right hc
  simp only [roundThousandths, h1, Nat.mul_div_mul_right _ _ hc, Nat.mul_mod_mul_right, h2, h3]

theorem fmt3Exact_congr (n d n1 d1 : Nat) (hd : 0 < d) (hd1 : 0 < d1) (h : n * d1 = n1 * d) :
    fmt3Exact n d = fmt3Exact n1 d1 := by
  have e1 : roundThousandths n d = roundThousandths n1 d1 := by
    rw [← roundThousandths_scale n d d1 hd1, h, Nat.mul_comm d d1,
      roundThousandths_scale n1 d1 d hd]
  simp only [fmt3Exact, e1]

theorem sub_ofNat (x : F64) (k : Nat) (hk : k < 2 ^ 53) (hle : k * x.den ≤ x.num)
    (hN : x.num - k * x.den < 2 ^ 53) :
    fmt3 (F64.sub x (F64.ofNat k)) = fmt3Exact (x.num - k * x.den) x.den := by
  have hy := ofNat_exact k hk
  have hxd := F64.den_pos x
  have hyd := F64.den_pos (F64.ofNat k)
  have hle2 : (F64.ofNat k).num * x.den ≤ x.num * (F64.ofNat k).den := by
    rw [hy]
    calc k * (F64.ofNat k).den * x.den = k * x.den * (F64.ofNat k).den := by ring
      _ ≤ x.num * (F64.ofNat k).den := Nat.mul_le_mul_right _ hle
  have hdiff : x.num * (F64.ofNat k).den - (F64.ofNat k).num * x.den =
      (x.num - k * x.den) * (F64.ofNat k).den := by
    rw [hy, Nat.sub_mul]
    congr 1
    ring
  have hexact := roundRat_exact (x.num * (F64.ofNat k).den - (F64.ofNat k).num * x.den)
    (x.den * (F64.ofNat k).den) (x.num - k * x.den) 0 (-x.e).toNat
    (Nat.pos_iff_ne_zero.mp (Nat.mul_pos hxd hyd)) hN
    (by
      rw [hdiff]
      simp only [F64.den]
      ring)
  rw [hdiff] at hexact
  unfold F64.sub
  simp only [if_pos hle2, fmt3, hdiff, Bool.false_eq_true, if_false, String.empty_append]
  apply fmt3Exact_congr _ _ _ _ (F64.den_pos _) hxd
  apply Nat.eq_of_mul_eq_mul_right hyd
  simp only [F64.num, F64.den] at hexact ⊢
  calc _ = (roundRat ((x.m * 2 ^ x.e.toNat - k * 2 ^ (-x.e).toNat) * 2 ^ (-(F64.ofNat k).e).toNat)
          (2 ^ (-x.e).toNat * 2 ^ (-(F64.ofNat k).e).toNat)).m *
        2 ^ (roundRat ((x.m * 2 ^ x.e.toNat - k * 2 ^ (-x.e).toNat) *
          2 ^ (-(F64.ofNat k).e).toNat)
          (2 ^ (-x.e).toNat * 2 ^ (-(F64.ofNat k).e).toNat)).e.toNat *
        (2 ^ (-x.e).toNat * 2 ^ (-(F64.ofNat k).e).toNat) := by ring
    _ = _ := by rw [hexact]; ring

/-! ## The playlist loop in `float64` -/

theorem extinfValues_append (xs ys : List PlaylistLine) :
    extinfValues (xs ++ ys) = extinfValues xs ++ extinfValues ys := by
  induction xs with
  | nil => rfl
  | cons x xs ih => cases x <;> simp [extinfValues, ih]

theorem extinfValues_hlsLoop_length (D : Int) (n : Nat) :
    ∀ (i : Nat) (rem : Float64), (extinfValues (hlsLoop D n i rem)).length = n := by
  induction n with
  | zero =>
    intro i rem
    rfl
  | succ n ih =>
    intro i rem
    rw [hlsLoop]
    simp only [extinfValues, List.length_cons, ih]

theorem hlsLoop_shape (D : Int) (n : Nat) :
    ∀ (i : Nat) (rem : Float64),
      hlsLoop D n i rem =
        (List.range n).flatMap (fun k =>
          [PlaylistLine.extinf ((extinfValues (hlsLoop D n i rem)).getD k ⟨false, ⟨0, 0⟩⟩),
            PlaylistLine.segment (i + k)]) := by
  induction n with
  | zero =>
    intro i rem
    rfl
  | succ n ih =>
    intro i rem
    rw [List.range_succ_eq_map, List.flatMap_cons, List.flatMap_map]
    conv_lhs => rw [hlsLoop]
    simp only [hlsLoop, extinfValues, List.getD_cons_zero, Nat.add_zero, List.cons_append,
      List.nil_append, List.cons.injEq, true_and]
    conv_lhs => rw [ih]
    congr 1
    funext k
    simp only [Function.comp, Nat.succ_eq_add_one, List.getD_cons_succ]
    rw [show i + 1 + k = i + (k + 1) by omega]

theorem float64_ofInt_natCast (n : Nat) : Float64.ofInt (n : Int) = ⟨false, F64.ofNat n⟩ := by
  simp [Float64.ofInt]

theorem Float64.lt_nonneg (a b : F64) :
    Float64.lt ⟨false, a⟩ ⟨false, b⟩ = decide (a.num * b.den < b.num * a.den) := by
  simp only [Float64.lt, Float64.scaled, Bool.false_eq_true, if_false, Nat.cast_lt]

theorem Float64.sub_nonneg (a b : F64) (h : b.num * a.den ≤ a.num * b.den) :
    Float64.sub ⟨false, a⟩ ⟨false, b⟩ =
      ⟨false, roundRat (a.num * b.den - b.num * a.den) (a.den * b.den)⟩ := by
  have hn : (((a.num * b.den : Nat) : Int) - ((b.num * a.den : Nat) : Int)).natAbs =
      a.num * b.den - b.num * a.den := by omega
  simp only [Float64.sub, Float64.scaled, Bool.false_eq_true, if_false, hn]
  by_cases h0 : ((a.num * b.den : Nat) : Int) - ((b.num * a.den : Nat) : Int) = 0
  · have h1 : a.num * b.den - b.num * a.den = 0 := by omega
    rw [if_pos h0, h1]
    simp [roundRat]
  · rw [if_neg h0]
    congr 1
    simp only [decide_eq_false_iff_not, not_lt]
    omega

theorem sub_exact (a b : F64) (A B c j : Nat) (hc : c = 2 ^ j) (ha : a.num * c = A * a.den)
    (hb : b.num * c = B * b.den) (hle : B ≤ A) (h53 : A - B < 2 ^ 53) :
    b.num * a.den ≤ a.num * b.den ∧
      (roundRat (a.num * b.den - b.num * a.den) (a.den * b.den)).num * c =
        (A - B) * (roundRat (a.num * b.den - b.num * a.den) (a.den * b.den)).den := by
  have had := F64.den_pos a
  have hbd := F64.den_pos b
  have hcp : 0 < c := by
    rw [hc]
    exact pow_pos (by norm_num) _
  have hdp : 0 < a.den * b.den := Nat.mul_pos had hbd
  have hle2 : b.num * a.den ≤ a.num * b.den := by
    apply Nat.le_of_mul_le_mul_right _ hcp
    calc b.num * a.den * c = b.num * c * a.den := by ring
      _ = B * (a.den * b.den) := by rw [hb]; ring
      _ ≤ A * (a.den * b.den) := Nat.mul_le_mul_right _ hle
      _ = a.num * c * b.den := by rw [ha]; ring
      _ = a.num * b.den * c := by ring
  have hX : a.num * b.den * c = A * (a.den * b.den) := by
    calc a.num * b.den * c = a.num * c * b.den := by ring
      _ = A * (a.den * b.den) := by rw [ha]; ring
  have hY : b.num * a.den * c = B * (a.den * b.den) := by
    calc b.num * a.den * c = b.num * c * a.den := by ring
      _ = B * (a.den * b.den) := by rw [hb]; ring
  have hn0 : (a.num * b.den - b.num * a.den) * c = (A - B) * (a.den * b.den) := by
    rw [Nat.sub_mul, Nat.sub_mul, hX, hY]
  have hn : (a.num * b.den - b.num * a.den) * 2 ^ j = (A - B) * 2 ^ 0 * (a.den * b.den) := by
    rw [← hc, pow_zero, Nat.mul_one]
    exact hn0
  have hexact : (roundRat (a.num * b.den - b.num * a.den) (a.den * b.den)).num *
      (a.den * b.den) = (a.num * b.den - b.num * a.den) *
      (roundRat (a.num * b.den - b.num * a.den) (a.den * b.den)).den :=
    roundRat_exact (a.num * b.den - b.num * a.den) (a.den * b.den) (A - B) 0 j
      (Nat.pos_iff_ne_zero.mp hdp) h53 hn
  refine ⟨hle2, ?_⟩
  apply Nat.eq_of_mul_eq_mul_right hdp
  generalize roundRat (a.num * b.den - b.num * a.den) (a.den * b.den) = r at hexact ⊢
  calc r.num * c * (a.den * b.den) = r.num * (a.den * b.den) * c := by ring
    _ = (a.num * b.den - b.num * a.den) * c * r.den := by rw [hexact]; ring
    _ = (A - B) * r.den * (a.den * b.den) := by rw [hn0]; ring

theorem floor_pow_ge (n L E : Nat) (hL : 2 ^ L ≤ 2 * n) (h54 : 54 ≤ L) (hE : E + 1 ≤ L) :
    2 ^ 53 ≤ n / 2 ^ E * 2 ^ E := by
  have hpos : 0 < 2 ^ E := pow_pos (by norm_num) E
  have h1 : 2 ^ (L - 1) ≤ n := by
    have : 2 ^ L = 2 * 2 ^ (L - 1) := by
      rw [← pow_succ']
      congr 1
      omega
    omega
  have h2 : 2 ^ (L - 1 - E) * 2 ^ E ≤ n := by
    rw [← pow_add]
    have : L - 1 - E + E = L - 1 := by omega
    rw [this]
    exact h1
  have h3 : 2 ^ (L - 1 - E) ≤ n / 2 ^ E := (Nat.le_div_iff_mul_le hpos).mpr h2
  have h4 : 2 ^ 53 ≤ 2 ^ (L - 1) := Nat.pow_le_pow_right (by norm_num) (by omega)
  calc 2 ^ 53 ≤ 2 ^ (L - 1) := h4
    _ = 2 ^ (L - 1 - E) * 2 ^ E := by
      rw [← pow_add]
      congr 1
      omega
    _ ≤ n / 2 ^ E * 2 ^ E := Nat.mul_le_mul_right _ h3

theorem ofNat_ge (n : Nat) (h : 2 ^ 53 ≤ n) : 2 ^ 53 * (F64.ofNat n).den ≤ (F64.ofNat n).num := by
  have hn : n ≠ 0 := by
    have : 0 < 2 ^ 53 := by norm_num
    omega
  obtain ⟨hb1, hb2⟩ := bitLen_bounds n hn
  have h54 : 54 ≤ bitLen n := by
    have hlt : 2 ^ 53 < 2 ^ bitLen n := lt_of_le_of_lt h hb1
    have := (Nat.pow_lt_pow_iff_right (by norm_num)).mp hlt
    omega
  have hone : bitLen 1 = 1 := by decide
  have he0 : (bitLen n : Int) - ((1 : Nat) : Int) - 53 = ((bitLen n - 54 : Nat) : Int) := by omega
  have t0 : (-((bitLen n - 54 : Nat) : Int)).toNat = 0 := by omega
  have t1 : (((bitLen n - 54 : Nat) : Int)).toNat = bitLen n - 54 := by omega
  have t2 : (-(((bitLen n - 54 : Nat) : Int) + 1)).toNat = 0 := by omega
  have t3 : ((((bitLen n - 54 : Nat) : Int)) + 1).toNat = bitLen n - 53 := by omega
  have hA := floor_pow_ge n (bitLen n) (bitLen n - 54) hb2 h54 (by omega)
  have hB := floor_pow_ge n (bitLen n) (bitLen n - 53) hb2 h54 (by omega)
  have hA1 : n / 2 ^ (bitLen n - 54) * 2 ^ (bitLen n - 54) ≤
      (n / 2 ^ (bitLen n - 54) + 1) * 2 ^ (bitLen n - 54) := Nat.mul_le_mul_right _ (by omega)
  have hB1 : n / 2 ^ (bitLen n - 53) * 2 ^ (bitLen n - 53) ≤
      (n / 2 ^ (bitLen n - 53) + 1) * 2 ^ (bitLen n - 53) := Nat.mul_le_mul_right _ (by omega)
  unfold F64.ofNat roundRat
  rw [if_neg (by simp [hn])]
  simp only [hone, he0]
  split_ifs
  all_goals simp only [F64.num, F64.den, t0, t1, t2, t3, pow_zero, Nat.mul_one, Nat.one_mul]
  all_goals omega

theorem lt_ofNat (rem : F64) (N c Dn : Nat) (hcp : 0 < c) (hinv : rem.num * c = N * rem.den)
    (hN : N < 2 ^ 53 * c) :
    Float64.lt ⟨false, rem⟩ ⟨false, F64.ofNat Dn⟩ = decide (N < Dn * c) := by
  have hrd := F64.den_pos rem
  have hyd := F64.den_pos (F64.ofNat Dn)
  rw [Float64.lt_nonneg, decide_eq_decide]
  by_cases hD : Dn < 2 ^ 53
  · have hy := ofNat_exact Dn hD
    rw [hy]
    have e1 : Dn * (F64.ofNat Dn).den * rem.den = Dn * rem.den * (F64.ofNat Dn).den := by ring
    have e2 : N * rem.den = rem.num * c := hinv.symm
    have e3 : Dn * c * rem.den = Dn * rem.den * c := by ring
    rw [e1, Nat.mul_lt_mul_right hyd, ← Nat.mul_lt_mul_right hcp, hinv, ← e3,
      Nat.mul_lt_mul_right hrd]
  · have hy := ofNat_ge Dn (by omega)
    have h1 : N < Dn * c := lt_of_lt_of_le hN (Nat.mul_le_mul_right _ (by omega))
    have h2 : rem.num * c < 2 ^ 53 * rem.den * c := by
      rw [hinv]
      calc N * rem.den < 2 ^ 53 * c * rem.den := Nat.mul_lt_mul_of_pos_right hN hrd
        _ = 2 ^ 53 * rem.den * c := by ring
    have h3 : rem.num < 2 ^ 53 * rem.den := (Nat.mul_lt_mul_right hcp).mp h2
    have h4 : rem.num * (F64.ofNat Dn).den < (F64.ofNat Dn).num * rem.den := by
      calc rem.num * (F64.ofNat Dn).den < 2 ^ 53 * rem.den * (F64.ofNat Dn).den :=
            Nat.mul_lt_mul_of_pos_right h3 hyd
        _ = 2 ^ 53 * (F64.ofNat Dn).den * rem.den := by ring
        _ ≤ (F64.ofNat Dn).num * rem.den := Nat.mul_le_mul_right _ hy
    exact ⟨fun _ => h1, fun _ => h4⟩

theorem hls_values (Dn num c j : Nat) (hc : c = 2 ^ j) (hnum : num < 2 ^ 53) (n : Nat) :
    ∀ (i t : Nat) (rem : F64), rem.num * c = (num - t) * rem.den → t ≤ num →
      (n = 0 ∨ (t + (n - 1) * (Dn * c) < num ∧ num ≤ t + n * (Dn * c))) →
      ∀ k v, (extinfValues (hlsLoop (Dn : Int) n i ⟨false, rem⟩))[k]? = some v →
        v.neg = false ∧
          v.abs.num * c =
            (if k + 1 < n then Dn * c else num - (t + k * (Dn * c))) * v.abs.den := by
  have hcp : 0 < c := by
    rw [hc]
    exact pow_pos (by norm_num) _
  have hW : Dn ≤ Dn * c := Nat.le_mul_of_pos_right _ hcp
  have h53 : (2 : Nat) ^ 53 ≤ 2 ^ 53 * c := Nat.le_mul_of_pos_right _ hcp
  induction n with
  | zero =>
    intro i t rem _ _ _ k v hk
    simp [hlsLoop, extinfValues] at hk
  | succ n ih =>
    intro i t rem hinv ht hcond k v hk
    rcases hcond with h0 | ⟨hc1, hc2⟩
    · omega
    simp only [Nat.add_sub_cancel] at hc1
    rw [Nat.succ_mul] at hc2
    have hlt := lt_ofNat rem (num - t) c Dn hcp hinv (by omega)
    rw [hlsLoop, float64_ofInt_natCast] at hk
    simp only [hlt, extinfValues] at hk
    by_cases hsmall : num - t < Dn * c
    · have hn0 : n = 0 := by
        rcases Nat.eq_zero_or_pos n with h | h
        · exact h
        · have : Dn * c ≤ n * (Dn * c) := Nat.le_mul_of_pos_left _ h
          omega
      subst hn0
      simp only [decide_eq_true hsmall, if_true] at hk
      cases k with
      | zero =>
        simp only [List.getElem?_cons_zero, Option.some.injEq] at hk
        subst hk
        refine ⟨rfl, ?_⟩
        simp only [Nat.zero_add, Nat.lt_irrefl, if_false, Nat.zero_mul, Nat.add_zero]
        exact hinv
      | succ k =>
        simp [hlsLoop, extinfValues] at hk
    · have hle : Dn * c ≤ num - t := Nat.le_of_not_lt hsmall
      have hDn : Dn < 2 ^ 53 := by omega
      have hy : (F64.ofNat Dn).num * c = Dn * c * (F64.ofNat Dn).den := by
        rw [ofNat_exact Dn hDn]
        ring
      simp only [decide_eq_false hsmall, Bool.false_eq_true, if_false] at hk
      cases k with
      | zero =>
        simp only [List.getElem?_cons_zero, Option.some.injEq] at hk
        subst hk
        refine ⟨rfl, ?_⟩
        simp only [Nat.zero_mul, Nat.add_zero]
        by_cases hn : 0 + 1 < n + 1
        · rw [if_pos hn]
          exact hy
        · rw [if_neg hn]
          have hn0 : n = 0 := by omega
          subst hn0
          have : num - t = Dn * c := by omega
          rw [this]
          exact hy
      | succ k =>
        simp only [List.getElem?_cons_succ] at hk
        obtain ⟨hsub1, hsub2⟩ := sub_exact rem (F64.ofNat Dn) (num - t) (Dn * c) c j hc hinv hy
          hle (by omega)
        rw [Float64.sub_nonneg rem (F64.ofNat Dn) hsub1] at hk
        have hinv2 : (roundRat (rem.num * (F64.ofNat Dn).den - (F64.ofNat Dn).num * rem.den)
            (rem.den * (F64.ofNat Dn).den)).num * c =
            (num - (t + Dn * c)) *
              (roundRat (rem.num * (F64.ofNat Dn).den - (F64.ofNat Dn).num * rem.den)
                (rem.den * (F64.ofNat Dn).den)).den := by
          rw [hsub2]
          congr 1
          omega
        have hcond2 : n = 0 ∨ (t + Dn * c + (n - 1) * (Dn * c) < num ∧
            num ≤ t + Dn * c + n * (Dn * c)) := by
          rcases Nat.eq_zero_or_pos n with h | h
          · exact Or.inl h
          · right
            have e : n * (Dn * c) = (n - 1) * (Dn * c) + Dn * c := by
              calc n * (Dn * c) = (n - 1 + 1) * (Dn * c) := by rw [Nat.sub_add_cancel h]
                _ = (n - 1) * (Dn * c) + Dn * c := by rw [Nat.add_mul, Nat.one_mul]
            omega
        obtain ⟨r1, r2⟩ := ih (i + 1) (t + Dn * c) _ hinv2 (by omega) hcond2 k v hk
        refine ⟨r1, ?_⟩
        rw [r2, Nat.succ_mul]
        congr 1
        by_cases hkn : k + 1 < n
        · rw [if_pos hkn, if_pos (by omega)]
        · rw [if_neg hkn, if_neg (by omega)]
          congr 1
          omega

theorem toRat_of_scaled (v : Float64) (c A : Nat) (hc : 0 < c) (hneg : v.neg = false)
    (h : v.abs.num * c = A * v.abs.den) : v.toRat = (A : ℚ) / (c : ℚ) := by
  have hd : (v.abs.den : ℚ) ≠ 0 := by exact_mod_cast Nat.pos_iff_ne_zero.mp (F64.den_pos v.abs)
  have hc0 : (c : ℚ) ≠ 0 := by exact_mod_cast Nat.pos_iff_ne_zero.mp hc
  unfold Float64.toRat F64.toRat
  rw [hneg]
  simp only [Bool.false_eq_true, if_false]
  rw [div_eq_div_iff hd hc0]
  exact_mod_cast h

theorem hlsLoop_values (Dn : Nat) (x : F64) (n : Nat) (hnum : x.num < 2 ^ 53)
    (hcond : n = 0 ∨ ((n - 1) * (Dn * x.den) < x.num ∧ x.num ≤ n * (Dn * x.den))) :
    (∀ v ∈ extinfValues (hlsLoop (Dn : Int) n 0 ⟨false, x⟩), v.neg = false) ∧
      (extinfValues (hlsLoop (Dn : Int) n 0 ⟨false, x⟩)).map Float64.toRat =
        (List.range n).map (fun i : Nat =>
          if i + 1 < n then ((Dn : Int) : ℚ) else x.toRat - (i : ℚ) * ((Dn : Int) : ℚ)) := by
  have hden := F64.den_pos x
  have hden0 : (x.den : ℚ) ≠ 0 := by exact_mod_cast Nat.pos_iff_ne_zero.mp hden
  have hv := hls_values Dn x.num x.den (-x.e).toNat rfl hnum n 0 0 x (by simp) (Nat.zero_le _)
    (by simpa using hcond)
  constructor
  · intro v hv1
    obtain ⟨k, hk⟩ := List.getElem?_of_mem hv1
    exact (hv k v hk).1
  · apply List.ext_getElem
    · rw [List.length_map, extinfValues_hlsLoop_length, List.length_map, List.length_range]
    · intro k h1 h2
      rw [List.getElem_map, List.getElem_map, List.getElem_range]
      have hkn : k < n := by simpa [extinfValues_hlsLoop_length] using h1
      obtain ⟨r1, r2⟩ := hv k _ (List.getElem?_eq_getElem _)
      rw [toRat_of_scaled _ x.den _ hden r1 r2]
      by_cases hk : k + 1 < n
      · rw [if_pos hk, if_pos hk]
        push_cast
        field_simp
      · rw [if_neg hk, if_neg hk]
        rcases hcond with h0 | ⟨hc1, _⟩
        · omega
        have hk1 : k = n - 1 := by omega
        have hle : 0 + k * (Dn * x.den) ≤ x.num := by
          rw [hk1]
          omega
        rw [Nat.cast_sub hle]
        unfold F64.toRat
        push_cast
        field_simp
        ring

theorem ceil_cond (Dn : Nat) (x : F64) (segmentCount : Int) (hD : 0 < Dn)
    (hc : segmentCount = ⌈x.toRat / ((Dn : Int) : ℚ)⌉) :
    0 ≤ segmentCount ∧ (segmentCount.toNat = 0 → x.toRat = 0) ∧
      (segmentCount.toNat = 0 ∨
        ((segmentCount.toNat - 1) * (Dn * x.den) < x.num ∧
          x.num ≤ segmentCount.toNat * (Dn * x.den))) := by
  have hden := F64.den_pos x
  have hdenq : (0 : ℚ) < (x.den : ℚ) := by exact_mod_cast hden
  have hDq : (0 : ℚ) < ((Dn : Int) : ℚ) := by exact_mod_cast hD
  have hx0 : 0 ≤ x.toRat := by
    unfold F64.toRat
    positivity
  have hc0 : 0 ≤ segmentCount := by
    rw [hc]
    exact Int.ceil_nonneg (div_nonneg hx0 (le_of_lt hDq))
  have hcast : ((segmentCount.toNat : Nat) : ℚ) = (segmentCount : ℚ) := by
    have := Int.toNat_of_nonneg hc0
    exact_mod_cast this
  have hle : x.toRat ≤ (segmentCount : ℚ) * ((Dn : Int) : ℚ) := by
    have := Int.le_ceil (x.toRat / ((Dn : Int) : ℚ))
    rw [← hc, div_le_iff₀ hDq] at this
    exact this
  have hlt : ((segmentCount : ℚ) - 1) * ((Dn : Int) : ℚ) < x.toRat := by
    have h1 := Int.ceil_lt_add_one (x.toRat / ((Dn : Int) : ℚ))
    rw [← hc] at h1
    have h2 : (segmentCount : ℚ) - 1 < x.toRat / ((Dn : Int) : ℚ) := by linarith
    rw [lt_div_iff₀ hDq] at h2
    exact h2
  have hzero : segmentCount.toNat = 0 → x.toRat = 0 := by
    intro h0
    rw [h0] at hcast
    have : (segmentCount : ℚ) = 0 := by rw [← hcast]; simp
    rw [this] at hle
    linarith
  refine ⟨hc0, hzero, ?_⟩
  rcases Nat.eq_zero_or_pos segmentCount.toNat with h0 | h0
  · exact Or.inl h0
  · right
    rw [← hcast] at hle hlt
    unfold F64.toRat at hle hlt
    rw [div_le_iff₀ hdenq] at hle
    rw [lt_div_iff₀ hdenq] at hlt
    constructor
    · have : (((segmentCount.toNat - 1) * (Dn * x.den) : Nat) : ℚ) < ((x.num : Nat) : ℚ) := by
        rw [Nat.cast_mul, Nat.cast_sub h0, Nat.cast_mul]
        push_cast at hlt ⊢
        linarith
      exact_mod_cast this
    · have : ((x.num : Nat) : ℚ) ≤ ((segmentCount.toNat * (Dn * x.den) : Nat) : ℚ) := by
        push_cast at hle ⊢
        linarith
      exact_mod_cast this

/-! ## The sample range is not empty -/

theorem pickStart_le (s : Nat) (st : ScanState) (h : st.startSample ≤ st.sampleNum) :
    pickStart s st ≤ st.sampleNum := by
  unfold pickStart
  split_ifs
  · exact Nat.le_refl _
  · exact h

theorem scan_nonempty (s e : Nat) (ds : List Nat) :
    ∀ st : ScanState, st.sampleNum + ds.length < u32 → 2 ≤ st.sampleNum →
      st.startSample < st.sampleNum →
      (scanFinish (scanFlat s e ds st)).1 < (scanFinish (scanFlat s e ds st)).2 ∧
        (scanFinish (scanFlat s e ds st)).2 ≤ st.sampleNum + ds.length := by
  induction ds with
  | nil =>
    intro st _ h2 h3
    simp only [scanFlat, scanFinish, List.length_nil, Nat.add_zero, Nat.le_refl, and_true]
    split_ifs <;> omega
  | cons d ds ih =>
    intro st hn h2 h3
    simp only [List.length_cons] at hn
    have hs : (st.sampleNum + 1) % u32 = st.sampleNum + 1 := Nat.mod_eq_of_lt (by omega)
    have hp := pickStart_le s st (Nat.le_of_lt h3)
    rw [scanFlat_cons, hs]
    by_cases h1 : e ≤ (st.currentTime + d) % u64
    · rw [if_pos h1]
      simp only [scanFinish, List.length_cons]
      omega
    · rw [if_neg h1]
      have := ih ⟨st.sampleNum + 1, (st.currentTime + d) % u64, pickStart s st⟩
        (by simp only []; omega) (by simp only []; omega) (by simp only []; omega)
      simp only [List.length_cons] at this ⊢
      omega

theorem getSampleRange_nonempty (stbl : StblBox) (stts : SttsBox) (s e : Nat)
    (h : stbl.Stts = some stts) (h1 : 1 ≤ totalSamples stts) (hN : totalSamples stts + 1 < u32) :
    ∃ first last, getSampleRange stbl s e = Except.ok (first, last) ∧ first < last ∧
      last ≤ totalSamples stts + 1 := by
  have hlen := sampleDeltas_length stts
  have key : ∀ ds : List Nat, ds.length = totalSamples stts →
      (scanFinish (scanFlat s e ds ⟨1, 0, if s = 0 then 1 else 0⟩)).1 <
        (scanFinish (scanFlat s e ds ⟨1, 0, if s = 0 then 1 else 0⟩)).2 ∧
      (scanFinish (scanFlat s e ds ⟨1, 0, if s = 0 then 1 else 0⟩)).2 ≤ totalSamples stts + 1 := by
    intro ds hl
    cases ds with
    | nil =>
      simp only [List.length_nil] at hl
      omega
    | cons d ds =>
      simp only [List.length_cons] at hl
      have hp : pickStart s ⟨1, 0, if s = 0 then 1 else 0⟩ ≤ 1 :=
        pickStart_le s ⟨1, 0, if s = 0 then 1 else 0⟩ (by simp only []; split_ifs <;> omega)
      have hs : (1 + 1) % u32 = 2 := by decide
      rw [scanFlat_cons]
      simp only []
      rw [hs]
      by_cases he : e ≤ (0 + d) % u64
      · rw [if_pos he]
        simp only [scanFinish]
        omega
      · rw [if_neg he]
        have := scan_nonempty s e ds
          ⟨2, (0 + d) % u64, pickStart s ⟨1, 0, if s = 0 then 1 else 0⟩⟩
          (by simp only []; omega) (by simp only []; omega) (by simp only []; omega)
        simp only [] at this
        omega
  rw [getSampleRange_eq_scan stbl stts h]
  exact ⟨(scanFinish (scanFlat s e (sampleDeltas stts) ⟨1, 0, if s = 0 then 1 else 0⟩)).1,
    (scanFinish (scanFlat s e (sampleDeltas stts) ⟨1, 0, if s = 0 then 1 else 0⟩)).2, rfl,
    key _ hlen⟩

theorem getSampleRange_empty (stbl : StblBox) (stts : SttsBox) (s e : Nat)
    (h : stbl.Stts = some stts) (h0 : totalSamples stts = 0) :
    getSampleRange stbl s e = Except.ok (1, 1) := by
  have hlen := sampleDeltas_length stts
  rw [h0] at hlen
  rw [getSampleRange_eq_scan stbl stts h, List.length_eq_zero.mp hlen]
  simp only [scanFlat, scanFinish]
  split_ifs <;> simp_all

theorem getSampleOffset_error (stbl : Stbl) (j : Int) (sampleNum : Nat)
    (h : getSampleOffset stbl sampleNum =
      Run.returned (Except.error (MediaError.noSamplesInSegment j))) : False := by
  unfold getSampleOffset at h
  simp only [] at h
  unfold offsetFrom at h
  repeat' split at h
  all_goals simp at h

theorem createTrafLoop_error (stbl : Stbl) (stsz : StszBox) (durations : List Nat) (j : Int)
    (k : Nat) :
    ∀ (sampleNum : Nat) (samples : List Sample) (mdatData : List Byte) (file : OsFile),
      createTrafLoop stbl stsz durations k sampleNum samples mdatData file ≠
        Run.returned (Except.error (MediaError.noSamplesInSegment j)) := by
  induction k with
  | zero =>
    intro sampleNum samples mdatData file h
    simp [createTrafLoop] at h
  | succ k ih =>
    intro sampleNum samples mdatData file h
    rw [createTrafLoop] at h
    cases hoff : getSampleOffset stbl sampleNum with
    | panicked => simp [hoff] at h
    | returned r =>
      cases r with
      | error err =>
        simp only [hoff, Run.returned.injEq, Except.error.injEq] at h
        rw [h] at hoff
        exact getSampleOffset_error stbl j sampleNum hoff
      | ok offset =>
        simp only [hoff] at h
        cases hseek : file.Seek (toInt offset) with
        | none => simp [hseek] at h
        | some file1 =>
          simp only [hseek] at h
          cases hread : file1.ReadFull (stsz.GetSampleSize (sampleNum : Int)) with
          | none => simp [hread] at h
          | some pr =>
            obtain ⟨sampleData, file2⟩ := pr
            simp only [hread] at h
            exact ih _ _ _ _ h

theorem createTraf_error (vf : Source) (cursor : Nat) (stbl : Stbl)
    (trackID first last baseTime : Nat) (j : Int) :
    createTraf vf cursor stbl trackID first last baseTime ≠
      Run.returned (Except.error (MediaError.noSamplesInSegment j)) := by
  intro h
  unfold createTraf at h
  cases hz : stbl.Stsz with
  | none => simp [hz] at h
  | some stsz =>
    cases ht : stbl.Stts with
    | none => simp [hz, ht] at h
    | some stts =>
      simp only [hz, ht] at h
      cases hloop : createTrafLoop stbl stsz (expandSampleDurations stts last) (last - first)
          first [] [] ⟨vf.File, cursor⟩ with
      | panicked => simp [hloop] at h
      | returned r =>
        cases r with
        | error err =>
          simp only [hloop, Run.returned.injEq, Except.error.injEq] at h
          rw [h] at hloop
          exact createTrafLoop_error stbl stsz _ j _ _ _ _ _ hloop
        | ok pr =>
          obtain ⟨samples, mdat1⟩ := pr
          simp [hloop] at h

theorem GenerateMediaSegment_check (lib : Mp4Lib) (segmentDuration : Nat) (vf : Source)
    (cursor : Nat) (segmentIndex j : Int) (trak : Trak) (mdia : Mdia) (minf : Minf)
    (stbl : Stbl) (stts : SttsBox) (bytes : Option (List Byte))
    (h1 : vf.VideoTrack = some trak) (h2 : trak.Mdia = some mdia) (h3 : mdia.Minf = some minf)
    (h4 : minf.Stbl = some stbl) (h5 : stbl.Stts = some stts)
    (hN : totalSamples stts + 1 < u32)
    (h : GenerateMediaSegment lib segmentDuration vf cursor segmentIndex =
      Run.returned (bytes, some (MediaError.noSamplesInSegment j))) :
    totalSamples stts = 0 := by
  by_contra hne
  obtain ⟨first, last, hr, hlt, _⟩ := getSampleRange_nonempty stbl.toStblBox stts
    ((ofInt segmentIndex * (segmentDuration * vf.Timescale % u64)) % u64)
    (if ((ofInt segmentIndex * (segmentDuration * vf.Timescale % u64)) % u64 +
        segmentDuration * vf.Timescale % u64) % u64 > vf.Duration then vf.Duration
      else ((ofInt segmentIndex * (segmentDuration * vf.Timescale % u64)) % u64 +
        segmentDuration * vf.Timescale % u64) % u64)
    h5 (by omega) hN
  unfold GenerateMediaSegment at h
  rw [h1] at h
  simp only [h2, h3, h4, hr] at h
  rw [if_neg (by omega)] at h
  repeat' split at h
  all_goals first
    | (simp at h; done)
    | (simp only [Run.returned.injEq, Prod.mk.injEq, Option.some.injEq] at h
       obtain ⟨_, herr⟩ := h
       subst herr
       exact createTraf_error _ _ _ _ _ _ _ _ (by assumption))

/-! ## Decode times at segment boundaries -/

theorem take_sum_mono (ds : List Nat) (a b : Nat) (h : a ≤ b) :
    (ds.take a).sum ≤ (ds.take b).sum := by
  induction ds generalizing a b with
  | nil => simp
  | cons d ds ih =>
    cases a with
    | zero => simp
    | succ a =>
      cases b with
      | zero => omega
      | succ b =>
        simp only [List.take_succ_cons, List.sum_cons]
        have := ih a b (by omega)
        omega

theorem take_sum_succ (ds : List Nat) (a : Nat) (h : a < ds.length) :
    (ds.take (a + 1)).sum = (ds.take a).sum + ds.getD a 0 := by
  induction ds generalizing a with
  | nil => simp at h
  | cons d ds ih =>
    cases a with
    | zero => simp
    | succ a =>
      simp only [List.length_cons] at h
      simp only [List.take_succ_cons, List.sum_cons, List.getD_cons_succ]
      rw [ih a (by omega)]
      omega

theorem sum_range_getD (ds : List Nat) (a k : Nat) (h : a + k ≤ ds.length) :
    ((List.range k).map (fun j => ds.getD (a + j) 0)).sum + (ds.take a).sum =
      (ds.take (a + k)).sum := by
  induction k with
  | zero => simp
  | succ k ih =>
    rw [List.range_succ, List.map_append, List.sum_append, ← Nat.add_assoc a k 1,
      take_sum_succ ds (a + k) (by omega), ← ih (by omega)]
    simp only [List.map_cons, List.map_nil, List.sum_cons, List.sum_nil, Nat.add_zero]
    omega

/-- The count of samples decoded before `t` stops at a sample decoded exactly at `t`. -/
theorem countBelow_exact (t : Nat) (ds : List Nat) (f : Nat) (hf : f ≤ ds.length)
    (h : (ds.take f).sum = t) :
    countBelow t 0 ds ≤ f ∧ (ds.take (countBelow t 0 ds)).sum = t := by
  have hle : countBelow t 0 ds ≤ f := by
    by_contra hc
    have := countBelow_lt t 0 ds f (by omega)
    omega
  refine ⟨hle, ?_⟩
  have hmono := take_sum_mono ds _ _ hle
  by_cases hlt : countBelow t 0 ds < ds.length
  · have := countBelow_ge t 0 ds (countBelow t 0 ds) (Nat.le_refl _) hlt
    omega
  · have heq : countBelow t 0 ds = f := by omega
    rw [heq]
    exact h

theorem segment_start_lt (D : Nat) (vf : VideoFile) (c : Int) (i : Nat)
    (hts : 0 < vf.Timescale) (hD : 0 < D) (hov : vf.Duration + D * vf.Timescale ≤ 2 ^ 63)
    (hc : GetSegmentCount D vf = some c) (hi : (i : Int) < c) :
    i * (D * vf.Timescale) < vf.Duration := by
  have hw0 : 0 < D * vf.Timescale := Nat.mul_pos hD hts
  have hq : (vf.Duration + D * vf.Timescale - 1) / (D * vf.Timescale) < 2 ^ 63 :=
    lt_of_le_of_lt (Nat.div_le_self _ _) (by omega)
  have hW : D * vf.Timescale < u64 := by
    rw [u64_eq]
    omega
  have hcount := GetSegmentCount_eq_div D vf hts hD hW (by rw [u64_eq]; omega) hq
  rw [hcount] at hc
  have hc3 := Option.some.inj hc
  subst hc3
  have hi2 : i + 1 ≤ (vf.Duration + D * vf.Timescale - 1) / (D * vf.Timescale) := by omega
  have := (Nat.le_div_iff_mul_le hw0).mp hi2
  rw [Nat.add_mul] at this
  omega

theorem trun_durations_sum (vf : Source) (cursor : Nat) (table : Stbl) (stts : SttsBox)
    (trackID first last baseTime : Nat) (traf : TrafBox) (mdatData : List Byte)
    (ht : table.Stts = some stts) (h1 : 1 ≤ first) (h2 : first ≤ last)
    (h3 : last ≤ totalSamples stts + 1) (hlast : last < u32)
    (h : createTraf vf cursor table trackID first last baseTime =
      Run.returned (Except.ok (traf, mdatData))) :
    traf.Tfdt = some ⟨baseTime⟩ ∧ ∃ trun, traf.Trun = some trun ∧
      (trun.Samples.map Sample.Dur).sum + decodeTime stts first = decodeTime stts last := by
  obtain ⟨stsz, stts1, _, ht1, htraf, _, _⟩ :=
    createTraf_ok vf cursor table trackID first last baseTime traf mdatData hlast h
  rw [ht] at ht1
  cases ht1
  have hlen := sampleDeltas_length stts
  refine ⟨by rw [htraf], _, by rw [htraf], ?_⟩
  have hmap : ((List.range (last - first)).map (fun j =>
      newSample stsz (expandSampleDurations stts last)
        (table.Stss.map StssBox.SampleNumber) table.Ctts (first + j))).map Sample.Dur =
      (List.range (last - first)).map (fun j => (sampleDeltas stts).getD (first - 1 + j) 0) := by
    rw [List.map_map]
    apply List.map_congr_left
    intro j hj
    have hj2 := List.mem_range.mp hj
    simp only [Function.comp]
    rw [newSample_dur stsz stts _ _ (first + j) last (by omega) (by omega) hlast (by omega)]
    congr 1
    omega
  simp only [hmap, decodeTime]
  rw [sum_range_getD (sampleDeltas stts) (first - 1) (last - first) (by omega)]
  congr 2
  omega
/-! ## Claims about the segment count -/


/-- C3 fails as stated: with duration `2^63`, `D = 1` and timescale `1` nothing
overflows `uint64`, the ceiling is `2^63`, and `GetSegmentCount` returns `-2^63`,
because the conversion to `int` wraps. -/
theorem GetSegmentCount_int_wraps :
    0 < (⟨1, 2 ^ 63, none⟩ : VideoFile).Timescale ∧ 0 < 1 ∧
      (⟨1, 2 ^ 63, none⟩ : VideoFile).Duration + 1 * 1 - 1 < u64 ∧
      ⌈(((2 : Nat) ^ 63 : Nat) : ℚ) / ((1 * 1 : Nat) : ℚ)⌉ = 2 ^ 63 ∧
      GetSegmentCount 1 ⟨1, 2 ^ 63, none⟩ = some (-(2 ^ 63)) ∧
      GetSegmentCount 1 ⟨1, 2 ^ 63, none⟩ ≠
        some ⌈(((2 : Nat) ^ 63 : Nat) : ℚ) / ((1 * 1 : Nat) : ℚ)⌉ := by
  have hceil : ⌈(((2 : Nat) ^ 63 : Nat) : ℚ) / ((1 * 1 : Nat) : ℚ)⌉ = 2 ^ 63 := by
    rw [ceil_div_nat _ _ (by decide)]
    decide
  refine ⟨by decide, by decide, by decide, hceil, by decide, ?_⟩
  rw [hceil]
  decide

/-- C3, amended: for a video with timescale > 0 and segment duration `D > 0`, when
`D * timescale` and `duration + D * timescale - 1` fit in `uint64` and the ceiling is
below `2^63` (so that the conversion to `int` is exact), `GetSegmentCount` returns
`ceil(duration / (D * timescale))`; hence 1 when `0 < duration < D * timescale`, exactly
`k` when `duration = k * D * timescale`, 3 for `D = 4`, duration 10000, timescale 1000,
2 for duration 8000, and 611 for `D = 6` and 3661.5 s. -/
theorem GetSegmentCount_eq_ceil (D : Nat) (vf : VideoFile) (hts : 0 < vf.Timescale) (hD : 0 < D)
    (hW : D * vf.Timescale < u64) (hov : vf.Duration + D * vf.Timescale - 1 < u64)
    (hint : ⌈(vf.Duration : ℚ) / ((D * vf.Timescale : Nat) : ℚ)⌉ < 2 ^ 63) :
    GetSegmentCount D vf = some ⌈(vf.Duration : ℚ) / ((D * vf.Timescale : Nat) : ℚ)⌉ ∧
      (0 < vf.Duration → vf.Duration < D * vf.Timescale → GetSegmentCount D vf = some 1) ∧
      (∀ k : Nat, vf.Duration = k * (D * vf.Timescale) → GetSegmentCount D vf = some (k : Int)) ∧
      GetSegmentCount 4 ⟨1000, 10000, none⟩ = some 3 ∧
      GetSegmentCount 4 ⟨1000, 8000, none⟩ = some 2 ∧
      GetSegmentCount 6 ⟨1000, 3661500, none⟩ = some 611 := by
  have hw0 : 0 < D * vf.Timescale := Nat.mul_pos hD hts
  rw [ceil_div_nat _ _ hw0] at hint ⊢
  have hq : (vf.Duration + D * vf.Timescale - 1) / (D * vf.Timescale) < 2 ^ 63 := by
    exact_mod_cast hint
  have hmain := GetSegmentCount_eq_div D vf hts hD hW hov hq
  refine ⟨hmain, ?_, ?_, by decide, by decide, by decide⟩
  · intro h0 hlt
    rw [hmain]
    have : (vf.Duration + D * vf.Timescale - 1) / (D * vf.Timescale) = 1 :=
      Nat.div_eq_of_lt_le (by omega) (by omega)
    rw [this]
    rfl
  · intro k hk
    rw [hmain]
    have : (vf.Duration + D * vf.Timescale - 1) / (D * vf.Timescale) = k := by
      apply Nat.div_eq_of_lt_le
      · omega
      · rw [Nat.succ_mul]
        omega
    rw [this]

/-- Witness of C3 (amended) at `D = 6`, timescale 1000, duration 3661500. -/
theorem GetSegmentCount_eq_ceil_witness :
    GetSegmentCount 6 ⟨1000, 3661500, none⟩ =
      some ⌈((3661500 : Nat) : ℚ) / ((6 * 1000 : Nat) : ℚ)⌉ :=
  (GetSegmentCount_eq_ceil 6 ⟨1000, 3661500, none⟩ (by decide) (by decide) (by decide)
    (by decide) (by
      show ⌈((3661500 : Nat) : ℚ) / ((6 * 1000 : Nat) : ℚ)⌉ < 2 ^ 63
      rw [ceil_div_nat _ _ (by decide)]
      decide)).1

/-! ## Claims about the sample ranges of segments -/

/-- C1 fails as stated: for eight samples of 1000 ticks followed by one sample of 0
ticks, duration 8000, timescale 1000 and `D = 4` there are 2 segments with the sample
ranges `[1, 5)` and `[5, 9)`: 8 samples are emitted, the table describes 9.  The last
sample is decoded at 8000, the clamped end of the last window. -/
theorem emitted_total_counterexample :
    GetSegmentCount 4 ⟨1000, 8000, some ⟨some ⟨some ⟨[⟨8, 1000⟩, ⟨1, 0⟩]⟩⟩⟩⟩ = some 2 ∧
      totalSamples ⟨[⟨8, 1000⟩, ⟨1, 0⟩]⟩ = 9 ∧
      GenerateMediaSegmentRange 4 ⟨1000, 8000, some ⟨some ⟨some ⟨[⟨8, 1000⟩, ⟨1, 0⟩]⟩⟩⟩⟩ 0 =
        Except.ok ⟨1, 5, 0⟩ ∧
      GenerateMediaSegmentRange 4 ⟨1000, 8000, some ⟨some ⟨some ⟨[⟨8, 1000⟩, ⟨1, 0⟩]⟩⟩⟩⟩ 1 =
        Except.ok ⟨5, 9, 4000⟩ ∧
      (∑ i ∈ Finset.range 2,
        emittedSamples 4 ⟨1000, 8000, some ⟨some ⟨some ⟨[⟨8, 1000⟩, ⟨1, 0⟩]⟩⟩⟩⟩ i) = 8 := by
  refine ⟨by decide, by decide, by rfl, by rfl, by decide⟩

/-- C1, amended: for a source with timescale > 0 and `D > 0` whose `stts` describes
fewer than `2^32 - 1` samples with `uint32` durations, with
`duration + D * timescale ≤ 2^63`, in which every sample has a decode time below the
track duration and every segment window `[i * D * timescale, (i + 1) * D * timescale)`,
`i < GetSegmentCount`, contains the decode time of at least one sample, the numbers
`last - first` of the sample ranges of the segments `0 .. GetSegmentCount - 1` add up to
the total number of samples of the table. -/
theorem emitted_total (D : Nat) (vf : VideoFile) (stbl : StblBox) (stts : SttsBox) (c : Int)
    (hvt : vf.VideoTrack = some ⟨some stbl⟩) (hst : stbl.Stts = some stts)
    (hts : 0 < vf.Timescale) (hD : 0 < D) (hov : vf.Duration + D * vf.Timescale ≤ 2 ^ 63)
    (hN : totalSamples stts + 1 < u32) (hd : ∀ en ∈ stts.Entries, en.SampleTimeDelta < u32)
    (hc : GetSegmentCount D vf = some c)
    (hall : ∀ n, 1 ≤ n → n ≤ totalSamples stts → decodeTime stts n < vf.Duration)
    (hwin : ∀ i, i < c.toNat → ∃ k, 1 ≤ k ∧ k ≤ totalSamples stts ∧
      i * (D * vf.Timescale) ≤ decodeTime stts k ∧
      decodeTime stts k < (i + 1) * (D * vf.Timescale)) :
    (∑ i ∈ Finset.range c.toNat, emittedSamples D vf i) = totalSamples stts := by
  have hw0 : 0 < D * vf.Timescale := Nat.mul_pos hD hts
  have h64 : vf.Duration + D * vf.Timescale ≤ u64 := by
    rw [u64_eq]
    omega
  have hq : (vf.Duration + D * vf.Timescale - 1) / (D * vf.Timescale) < 2 ^ 63 :=
    lt_of_le_of_lt (Nat.div_le_self _ _) (by omega)
  have hW : D * vf.Timescale < u64 := by
    rw [u64_eq]
    omega
  have hcount := GetSegmentCount_eq_div D vf hts hD hW (by omega) hq
  rw [hcount] at hc
  have hc2 : c.toNat = (vf.Duration + D * vf.Timescale - 1) / (D * vf.Timescale) := by
    have hc3 := Option.some.inj hc
    subst hc3
    exact Int.toNat_natCast _
  rw [hc2] at hwin ⊢
  have hdm := Nat.div_add_mod (vf.Duration + D * vf.Timescale - 1) (D * vf.Timescale)
  have hmod := Nat.mod_lt (vf.Duration + D * vf.Timescale - 1) hw0
  generalize (vf.Duration + D * vf.Timescale - 1) / (D * vf.Timescale) = q at *
  generalize (vf.Duration + D * vf.Timescale - 1) % (D * vf.Timescale) = r at *
  have hstep : ∀ i, i < q → emittedSamples D vf i =
      countBelow (min ((i + 1) * (D * vf.Timescale)) vf.Duration) 0 (sampleDeltas stts) -
        countBelow (min (i * (D * vf.Timescale)) vf.Duration) 0 (sampleDeltas stts) := by
    intro i hi
    obtain ⟨k, hk1, hk2, hk3, hk4⟩ := hwin i hi
    have hk5 := hall k hk1 hk2
    have hplan := GenerateMediaSegmentRange_window D vf stbl stts i hvt hst hts hD h64 hN hd
      ⟨k, hk1, hk2, hk3, lt_min hk4 hk5⟩
    unfold emittedSamples
    rw [hplan, Nat.min_eq_left (a := i * (D * vf.Timescale)) (by omega)]
    simp only []
    omega
  rw [Finset.sum_congr rfl (fun i hi => hstep i (Finset.mem_range.mp hi))]
  rw [Finset.sum_range_tsub (f := fun i =>
    countBelow (min (i * (D * vf.Timescale)) vf.Duration) 0 (sampleDeltas stts))]
  · simp only [Nat.zero_mul, Nat.zero_min, Nat.sub_zero]
    have hqd : vf.Duration ≤ q * (D * vf.Timescale) := by
      rw [Nat.mul_comm]
      omega
    rw [Nat.min_eq_right hqd, countBelow_of_le 0 0 _ (Nat.le_refl 0), Nat.sub_zero,
      ← sampleDeltas_length stts]
    apply countBelow_eq_length
    intro j hj
    have := hall (j + 1) (by omega) (by rw [← sampleDeltas_length stts]; omega)
    simpa [decodeTime] using this
  · intro a b hab
    apply countBelow_mono
    exact min_le_min (Nat.mul_le_mul_right _ hab) (le_refl _)

/-- Witness of C1 (amended): ten samples of 1000 ticks, duration 10000, timescale 1000,
`D = 4`; the three segments carry 4 + 4 + 2 = 10 samples. -/
theorem emitted_total_witness :
    GetSegmentCount 4 ⟨1000, 10000, some ⟨some ⟨some ⟨[⟨10, 1000⟩]⟩⟩⟩⟩ = some 3 ∧
      (∑ i ∈ Finset.range (3 : Int).toNat,
        emittedSamples 4 ⟨1000, 10000, some ⟨some ⟨some ⟨[⟨10, 1000⟩]⟩⟩⟩⟩ i) =
        totalSamples ⟨[⟨10, 1000⟩]⟩ :=
  ⟨by decide,
    emitted_total 4 ⟨1000, 10000, some ⟨some ⟨some ⟨[⟨10, 1000⟩]⟩⟩⟩⟩ ⟨some ⟨[⟨10, 1000⟩]⟩⟩
      ⟨[⟨10, 1000⟩]⟩ 3 rfl rfl (by decide) (by decide) (by decide) (by decide) (by decide)
      (by decide)
      (by
        intro n h1 h2
        have h3 : n ≤ 10 := h2
        interval_cases n <;> decide)
      (by
        intro i hi
        have h3 : i < 3 := hi
        interval_cases i
        · exact ⟨1, by decide, by decide, by decide, by decide⟩
        · exact ⟨5, by decide, by decide, by decide, by decide⟩
        · exact ⟨9, by decide, by decide, by decide, by decide⟩)⟩

/-- C2 fails on the code: a source of 80 samples of 1000 ticks, duration 80000,
timescale 1000 and `D = 4` has 20 segments, and for segment index 37 the head of
`GenerateMediaSegment` does not return the "no samples in segment" error: the sample
range is `(0, 81)`, so `startSample >= endSample` is false and `createTraf` is
called with it. -/
theorem segment_past_end_not_empty :
    GetSegmentCount 4 ⟨1000, 80000, some ⟨some ⟨some ⟨[⟨80, 1000⟩]⟩⟩⟩⟩ = some 20 ∧
      GenerateMediaSegmentRange 4 ⟨1000, 80000, some ⟨some ⟨some ⟨[⟨80, 1000⟩]⟩⟩⟩⟩ 37 =
        Except.ok ⟨0, 81, 148000⟩ ∧
      GenerateMediaSegmentRange 4 ⟨1000, 80000, some ⟨some ⟨some ⟨[⟨80, 1000⟩]⟩⟩⟩⟩ 37 ≠
        Except.error (SegError.noSamplesInSegment 37) := by
  refine ⟨by decide, by rfl, ?_⟩
  have h : GenerateMediaSegmentRange 4 ⟨1000, 80000, some ⟨some ⟨some ⟨[⟨80, 1000⟩]⟩⟩⟩⟩ 37 =
      Except.ok ⟨0, 81, 148000⟩ := by rfl
  rw [h]
  exact fun hh => by cases hh

/-- C5 fails as stated: for two samples of 1000 ticks, duration 10000, timescale 1000
and `D = 4`, segment 1 (of 3) has the window `[4000, 8000)`; the table ends before
`currentTime` reaches either bound, `startSample` takes its default 1, and the range
is `[1, 3)`: sample 1 lies in it and its decode time 0 is not in the window. -/
theorem range_outside_window_counterexample :
    GetSegmentCount 4 ⟨1000, 10000, some ⟨some ⟨some ⟨[⟨2, 1000⟩]⟩⟩⟩⟩ = some 3 ∧
      segmentWindow 4 ⟨1000, 10000, some ⟨some ⟨some ⟨[⟨2, 1000⟩]⟩⟩⟩⟩ 1 = (4000, 8000) ∧
      GenerateMediaSegmentRange 4 ⟨1000, 10000, some ⟨some ⟨some ⟨[⟨2, 1000⟩]⟩⟩⟩⟩ 1 =
        Except.ok ⟨1, 3, 4000⟩ ∧
      (1 ≤ 1 ∧ 1 < 3) ∧ decodeTime ⟨[⟨2, 1000⟩]⟩ 1 = 0 ∧
      ¬ (4000 ≤ decodeTime ⟨[⟨2, 1000⟩]⟩ 1) := by
  refine ⟨by decide, by decide, by rfl, by decide, by decide, by decide⟩

/-- C5, amended: for a source with timescale > 0, `D > 0`, `duration + D * timescale`
within `uint64` and an `stts` table of fewer than `2^32 - 1` samples with `uint32`
durations, if the window `[i * D * timescale, min((i + 1) * D * timescale, duration))` of
segment `i` contains the decode time of at least one sample (which makes
`i < segment_count`), then the head of `GenerateMediaSegment` succeeds with a range
`[first, last)`, `1 ≤ first < last ≤ N + 1`, and every sample `n` of that range has
its decode time in the window. -/
theorem range_inside_window (D : Nat) (vf : VideoFile) (stbl : StblBox) (stts : SttsBox)
    (i : Nat) (hvt : vf.VideoTrack = some ⟨some stbl⟩) (hst : stbl.Stts = some stts)
    (hts : 0 < vf.Timescale) (hD : 0 < D) (hov : vf.Duration + D * vf.Timescale ≤ u64)
    (hN : totalSamples stts + 1 < u32) (hd : ∀ en ∈ stts.Entries, en.SampleTimeDelta < u32)
    (hA : ∃ k, 1 ≤ k ∧ k ≤ totalSamples stts ∧ i * (D * vf.Timescale) ≤ decodeTime stts k ∧
      decodeTime stts k < min ((i + 1) * (D * vf.Timescale)) vf.Duration) :
    ∃ first last,
      GenerateMediaSegmentRange D vf (i : Int) =
        Except.ok ⟨first, last, i * (D * vf.Timescale)⟩ ∧
      1 ≤ first ∧ first < last ∧ last ≤ totalSamples stts + 1 ∧
      ∀ n, first ≤ n → n < last →
        i * (D * vf.Timescale) ≤ decodeTime stts n ∧
        decodeTime stts n < min ((i + 1) * (D * vf.Timescale)) vf.Duration := by
  refine ⟨_, _, GenerateMediaSegmentRange_window D vf stbl stts i hvt hst hts hD hov hN hd hA,
    by omega, ?_, ?_, ?_⟩
  · have := countBelow_window stts _ _ hA
    omega
  · have := countBelow_le_length (min ((i + 1) * (D * vf.Timescale)) vf.Duration) 0
      (sampleDeltas stts)
    rw [sampleDeltas_length] at this
    omega
  · intro n h1 h2
    exact decodeTime_in_window stts _ _ n h1 h2

/-- Witness of C5 (amended): ten samples of 1000 ticks, duration 10000, timescale 1000,
`D = 4`, segment 1; sample 5 is decoded at 4000, inside `[4000, 8000)`. -/
theorem range_inside_window_witness :
    ∃ first last,
      GenerateMediaSegmentRange 4 ⟨1000, 10000, some ⟨some ⟨some ⟨[⟨10, 1000⟩]⟩⟩⟩⟩ ((1 : Nat) : Int) =
        Except.ok ⟨first, last, 1 * (4 * 1000)⟩ ∧
      1 ≤ first ∧ first < last ∧ last ≤ totalSamples ⟨[⟨10, 1000⟩]⟩ + 1 ∧
      ∀ n, first ≤ n → n < last →
        1 * (4 * 1000) ≤ decodeTime ⟨[⟨10, 1000⟩]⟩ n ∧
        decodeTime ⟨[⟨10, 1000⟩]⟩ n < min ((1 + 1) * (4 * 1000)) 10000 :=
  range_inside_window 4 ⟨1000, 10000, some ⟨some ⟨some ⟨[⟨10, 1000⟩]⟩⟩⟩⟩ ⟨some ⟨[⟨10, 1000⟩]⟩⟩
    ⟨[⟨10, 1000⟩]⟩ 1 rfl rfl (by decide) (by decide) (by decide) (by decide) (by decide)
    ⟨5, by decide, by decide, by decide, by decide⟩

/-- C6 fails on the code: for three samples of 3000 ticks and the window
`[8000, 9000)` the early return of `getSampleRange` hands back `startSample = 0`;
the range is `(0, 4)` and sample number 0 reaches `createTraf`. -/
theorem getSampleRange_first_zero :
    getSampleRange ⟨some ⟨[⟨3, 3000⟩]⟩⟩ 8000 9000 = Except.ok (0, 4) ∧
      GenerateMediaSegmentRange 4 ⟨1000, 9000, some ⟨some ⟨some ⟨[⟨3, 3000⟩]⟩⟩⟩⟩ 2 =
        Except.ok ⟨0, 4, 8000⟩ :=
  ⟨by rfl, by rfl⟩

/-- C7 fails as stated: with one sample of 1000 ticks followed by one of 0 ticks,
duration 1000, timescale 1000 and `D = 4` there is one segment, the table has 2
samples, and the range of segment 0 is `[1, 2)`: sample 2, decoded at 1000, is left
out. -/
theorem lone_segment_counterexample :
    0 < (⟨1000, 1000, some ⟨some ⟨some ⟨[⟨1, 1000⟩, ⟨1, 0⟩]⟩⟩⟩⟩ : VideoFile).Duration ∧
      (⟨1000, 1000, some ⟨some ⟨some ⟨[⟨1, 1000⟩, ⟨1, 0⟩]⟩⟩⟩⟩ : VideoFile).Duration < 4 * 1000 ∧
      GetSegmentCount 4 ⟨1000, 1000, some ⟨some ⟨some ⟨[⟨1, 1000⟩, ⟨1, 0⟩]⟩⟩⟩⟩ = some 1 ∧
      totalSamples ⟨[⟨1, 1000⟩, ⟨1, 0⟩]⟩ = 2 ∧
      GenerateMediaSegmentRange 4 ⟨1000, 1000, some ⟨some ⟨some ⟨[⟨1, 1000⟩, ⟨1, 0⟩]⟩⟩⟩⟩ 0 =
        Except.ok ⟨1, 2, 0⟩ := by
  refine ⟨by decide, by decide, by decide, by decide, by rfl⟩

/-- C7, amended: for a source with timescale > 0, `0 < duration < D * timescale`,
`duration + D * timescale` within `uint64` and an `stts` table of fewer than `2^32 - 1`
samples with `uint32` durations, in which every sample has a decode time below the
track duration, `GetSegmentCount` is 1, the window of segment 0 is `[0, duration)` and
its sample range is `[1, N + 1)`. -/
theorem lone_segment (D : Nat) (vf : VideoFile) (stbl : StblBox) (stts : SttsBox)
    (hst : stbl.Stts = some stts) (hts : 0 < vf.Timescale) (hdur : 0 < vf.Duration)
    (hlt : vf.Duration < D * vf.Timescale) (hov : vf.Duration + D * vf.Timescale ≤ u64)
    (hN : totalSamples stts + 1 < u32) (hd : ∀ en ∈ stts.Entries, en.SampleTimeDelta < u32)
    (hall : ∀ n, 1 ≤ n → n ≤ totalSamples stts → decodeTime stts n < vf.Duration) :
    GetSegmentCount D vf = some 1 ∧
      segmentWindow D vf 0 = (0, vf.Duration) ∧
      getSampleRange stbl (segmentWindow D vf 0).1 (segmentWindow D vf 0).2 =
        Except.ok (1, totalSamples stts + 1) ∧
      (1 ≤ totalSamples stts → vf.VideoTrack = some ⟨some stbl⟩ →
        GenerateMediaSegmentRange D vf 0 = Except.ok ⟨1, totalSamples stts + 1, 0⟩) := by
  have hD : 0 < D := by
    rcases Nat.eq_zero_or_pos D with h | h
    · rw [h] at hlt
      omega
    · exact h
  have hwin : segmentWindow D vf 0 = (0, vf.Duration) := by
    have := segmentWindow_eq D vf 0 hts hD (by omega)
    simp only [Nat.zero_mul, Nat.zero_add, Nat.one_mul, Nat.cast_zero] at this
    rw [this, Nat.min_eq_right (le_of_lt hlt)]
  have hrange : getSampleRange stbl 0 vf.Duration = Except.ok (1, totalSamples stts + 1) := by
    obtain ⟨first, hr, hf, _⟩ := getSampleRange_last stbl stts hst 0 vf.Duration hN hd hdur
    rw [hr, hf rfl]
    congr 2
    rw [← sampleDeltas_length stts]
    congr 1
    apply countBelow_eq_length
    intro j hj
    have := hall (j + 1) (by omega) (by rw [← sampleDeltas_length stts]; omega)
    simpa [decodeTime] using this
  refine ⟨?_, hwin, ?_, ?_⟩
  · have hq : (vf.Duration + D * vf.Timescale - 1) / (D * vf.Timescale) = 1 :=
      Nat.div_eq_of_lt_le (by omega) (by omega)
    have := GetSegmentCount_eq_div D vf hts hD (by omega) (by omega) (by rw [hq]; decide)
    rw [this, hq]
    rfl
  · rw [hwin]
    exact hrange
  · intro h1 hvt
    unfold GenerateMediaSegmentRange
    rw [hvt]
    simp only [hwin, hrange]
    rw [if_neg (by omega)]

/-- Witness of C7 (amended): two samples of 1000 ticks, duration 2000, timescale 1000,
`D = 4`; the lone segment has the range `[1, 3)`. -/
theorem lone_segment_witness :
    GetSegmentCount 4 ⟨1000, 2000, some ⟨some ⟨some ⟨[⟨2, 1000⟩]⟩⟩⟩⟩ = some 1 ∧
      GenerateMediaSegmentRange 4 ⟨1000, 2000, some ⟨some ⟨some ⟨[⟨2, 1000⟩]⟩⟩⟩⟩ 0 =
        Except.ok ⟨1, totalSamples ⟨[⟨2, 1000⟩]⟩ + 1, 0⟩ :=
  have h := lone_segment 4 ⟨1000, 2000, some ⟨some ⟨some ⟨[⟨2, 1000⟩]⟩⟩⟩⟩ ⟨some ⟨[⟨2, 1000⟩]⟩⟩
    ⟨[⟨2, 1000⟩]⟩ rfl (by decide) (by decide) (by decide) (by decide) (by decide) (by decide)
    (by
      intro n h1 h2
      have h3 : n ≤ 2 := h2
      interval_cases n <;> decide)
  ⟨h.1, h.2.2.2 (by decide) rfl⟩

/-! ## Claims about the manifests -/

/-- C8 fails on the code: for duration 1001 ticks at timescale 1000 and `D = 4` the
handler passes `durationSec = 4508103226997866 * 2^-52` (the `float64` nearest to
1.001), the product with 1000.0 rounds to `8804889115230207 * 2^-43`, just below 1001,
`uint64` truncates it to 1000, and the one `<S>` element of the timeline has
`d = 1000`: the `d` attributes sum to 1000 ticks, the track duration is 1001. -/
theorem dash_timeline_loses_tick :
    GetSegmentCount (ofInt 4) ⟨1000, 1001, none⟩ = some 1 ∧
      GetDurationSec ⟨1000, 1001, none⟩ = ⟨4508103226997866, -52⟩ ∧
      F64.mul (GetDurationSec ⟨1000, 1001, none⟩) (F64.ofNat 1000) =
        ⟨8804889115230207, -43⟩ ∧
      F64.toUint64 (F64.mul (GetDurationSec ⟨1000, 1001, none⟩) (F64.ofNat 1000)) = 1000 ∧
      GetDASHManifestTimeline 4 ⟨1000, 1001, none⟩ = some [⟨0, 0, 1000⟩] ∧
      (([⟨0, 0, 1000⟩] : List TimelineStep).map
        (fun st => (TimelineStep.toSElement st).d)).sum = 1000 := by
  refine ⟨by decide, by decide, by decide, by decide, by decide, by decide⟩

/-- C9 fails as stated: with `D = 3074457345618258603`, timescale 3 (so that
`D * timescale = 2^63 + 1`), `durationSec = 6004799503160660 * 2^10` (the duration in
seconds of a track of `2^64 - 4096` ticks at timescale 3) and `segmentCount = 2`, the
total is `T = uint64(durationSec * 3.0) = 2^64 - 4096`, the sum `currentTime + dur` of
the second iteration wraps around `2^64`, the comparison with `T` is false and element
1 gets `d = 2^63 + 1`, although
`min(D * timescale, T - d_0) = min(2 * D * timescale, T) - D * timescale = 2^63 - 4097`
and `1 * D * timescale ≤ T`. -/
theorem timeline_wrap_counterexample :
    (3074457345618258603 * 3 : Nat) = 2 ^ 63 + 1 ∧
      GetDurationSec ⟨3, 2 ^ 64 - 4096, none⟩ = ⟨6004799503160660, 10⟩ ∧
      F64.toUint64 (F64.mul ⟨6004799503160660, 10⟩ (F64.ofNat 3)) = 2 ^ 64 - 4096 ∧
      GenerateDASHMPDTimeline 3074457345618258603 ⟨6004799503160660, 10⟩ 2 3 =
        [⟨0, 0, 2 ^ 63 + 1⟩, ⟨1, 2 ^ 63 + 1, 2 ^ 63 + 1⟩] ∧
      min (3074457345618258603 * 3) (2 ^ 64 - 4096 - (2 ^ 63 + 1)) = 2 ^ 63 - 4097 ∧
      1 * (3074457345618258603 * 3) ≤ 2 ^ 64 - 4096 ∧
      min ((1 + 1) * (3074457345618258603 * 3)) (2 ^ 64 - 4096) - 1 * (3074457345618258603 * 3) =
        2 ^ 63 - 4097 ∧
      (2 ^ 63 + 1 : Nat) ≠ 2 ^ 63 - 4097 := by
  refine ⟨by decide, by decide, by decide, by decide, by decide, by decide, by decide, by decide⟩

/-- C9, amended: for every `uint64` tick count `T`, timescale and `segmentCount`, the
timeline of `GenerateDASHMPD` has exactly `segmentCount` elements (none if it is
negative), element `k` is written by iteration `i = k`, only element 0 carries
`t="0"`, and `currentTime ≤ T` at every iteration, so `T - currentTime` never
underflows; and when `D ≥ 0` and `D * timescale + T < 2^64`, `currentTime` is the sum of
the previous `d` values, element `k` has `d = min(D * timescale, T - that sum)`, which is
`min((k + 1) * D * timescale, T) - k * D * timescale` whenever `k * D * timescale ≤ T`.  For
`D = 4`, `T = 10000`, timescale 1000 the elements are
`<S t="0" d="4000"/>`, `<S d="4000"/>`, `<S d="2000"/>`. -/
theorem timeline_elements (D : Int) (ts T : Nat) (c : Int) (hT : T < u64) :
    (timelineOfTicks D ts T c).length = c.toNat ∧
      (∀ k step, (timelineOfTicks D ts T c)[k]? = some step →
        step.i = k ∧ step.currentTime ≤ T ∧
        ((TimelineStep.toSElement step).t = some 0 ↔ k = 0) ∧
        (TimelineStep.toSElement step).d = step.dur) ∧
      (0 ≤ D → D.toNat * ts + T < u64 →
        ∀ k step, (timelineOfTicks D ts T c)[k]? = some step →
          step.currentTime =
            (((timelineOfTicks D ts T c).take k).map TimelineStep.dur).sum ∧
          step.dur = min (D.toNat * ts)
            (T - (((timelineOfTicks D ts T c).take k).map TimelineStep.dur).sum) ∧
          (k * (D.toNat * ts) ≤ T →
            step.dur = min ((k + 1) * (D.toNat * ts)) T - k * (D.toNat * ts))) ∧
      (timelineOfTicks 4 1000 10000 3).map TimelineStep.toSElement =
        [⟨some 0, 4000⟩, ⟨none, 4000⟩, ⟨none, 2000⟩] := by
  refine ⟨timelineLoop_length _ _ _ _ _, ?_, ?_, by decide⟩
  · intro k step h
    have := timelineLoop_inv _ T hT _ 0 0 k step (Nat.zero_le _) h
    rw [Nat.zero_add] at this
    refine ⟨this.1, this.2, ?_, rfl⟩
    simp only [TimelineStep.toSElement, this.1]
    by_cases hk : k = 0
    · simp [hk]
    · simp [hk]
  · intro hD hov k step h
    have hW : (ofInt D * ts) % u64 = D.toNat * ts := by
      rcases Nat.eq_zero_or_pos ts with h0 | h0
      · simp [h0]
      · have hle : D.toNat ≤ D.toNat * ts := Nat.le_mul_of_pos_right _ h0
        have h1 : ofInt D = D.toNat := by
          have h2 := ofInt_natCast D.toNat (by omega)
          rw [Int.toNat_of_nonneg hD] at h2
          exact h2
        rw [h1, Nat.mod_eq_of_lt (by omega)]
    have hklt : k < c.toNat := by
      have h1 := (List.getElem?_eq_some_iff.mp h).1
      unfold timelineOfTicks at h1
      rw [timelineLoop_length] at h1
      exact h1
    unfold timelineOfTicks at h ⊢
    rw [hW] at h ⊢
    have hsum := timelineLoop_sum_take (D.toNat * ts) T hov c.toNat 0 0 k (Nat.zero_le _)
      (le_of_lt hklt)
    rw [timelineLoop_closed (D.toNat * ts) T hov c.toNat 0 0 (Nat.zero_le _)] at h
    rw [hsum]
    simp only [List.getElem?_map, List.getElem?_range hklt, Option.map_some',
      Option.some.injEq, Nat.zero_add] at h
    subst h
    simp only [Nat.sub_zero, Nat.zero_add, true_and]
    intro hle
    have h3 : (k + 1) * (D.toNat * ts) = k * (D.toNat * ts) + D.toNat * ts := Nat.succ_mul _ _
    rw [h3]
    omega

/-- Witness of C9 (amended) at `D = 4`, timescale 1000, `T = 10000`, three segments:
the last element has `d = min(4000, 10000 - 8000) = 2000`. -/
theorem timeline_elements_witness :
    (timelineOfTicks 4 1000 10000 3).length = (3 : Int).toNat ∧
      (timelineOfTicks 4 1000 10000 3).map TimelineStep.toSElement =
        [⟨some 0, 4000⟩, ⟨none, 4000⟩, ⟨none, 2000⟩] ∧
      (⟨2, 8000, 2000⟩ : TimelineStep).dur = min ((4 : Int).toNat * 1000)
        (10000 - (((timelineOfTicks 4 1000 10000 3).take 2).map TimelineStep.dur).sum) :=
  have h := timeline_elements 4 1000 10000 3 (by decide)
  ⟨h.1, h.2.2.2, (h.2.2.1 (by decide) (by decide) 2 ⟨2, 8000, 2000⟩ (by decide)).2.1⟩

/-! ## Claims about the HLS media playlist -/

/-- C10 fails as stated: the loop subtracts in `float64`.  A track of `3 * 2^52 + 2`
ticks at timescale 1 gives `durationSec = 3 * 2^52 + 2`; with `D = 2^52 - 1` the
segment count is 4 and the playlist values are `D`, `D`, `D` and `6`, while
`durationSec - 3 * D` is `5`: the subtraction `(2^53 + 3) - D` rounds to `2^52 + 4`.
The four values sum to `durationSec + 1`. -/
theorem hls_last_value_rounded :
    GetDurationSec ⟨1, 13510798882111490, none⟩ = ⟨6755399441055745, 1⟩ ∧
      GetSegmentCount 4503599627370495 ⟨1, 13510798882111490, none⟩ = some 4 ∧
      (4 : Int) = ⌈F64.toRat ⟨6755399441055745, 1⟩ / ((4503599627370495 : Int) : ℚ)⌉ ∧
      extinfValues (GenerateHLSMediaPlaylist 4503599627370495 ⟨6755399441055745, 1⟩ 4) =
        [⟨false, ⟨9007199254740990, -1⟩⟩, ⟨false, ⟨9007199254740990, -1⟩⟩,
          ⟨false, ⟨9007199254740990, -1⟩⟩, ⟨false, ⟨6755399441055744, -50⟩⟩] ∧
      Float64.toRat ⟨false, ⟨9007199254740990, -1⟩⟩ = 4503599627370495 ∧
      Float64.toRat ⟨false, ⟨6755399441055744, -50⟩⟩ = 6 ∧
      F64.toRat ⟨6755399441055745, 1⟩ - 3 * 4503599627370495 = 5 ∧
      ((extinfValues (GenerateHLSMediaPlaylist 4503599627370495 ⟨6755399441055745, 1⟩ 4)).map
        Float64.toRat).sum = F64.toRat ⟨6755399441055745, 1⟩ + 1 := by
  have hv : extinfValues (GenerateHLSMediaPlaylist 4503599627370495 ⟨6755399441055745, 1⟩ 4) =
      [⟨false, ⟨9007199254740990, -1⟩⟩, ⟨false, ⟨9007199254740990, -1⟩⟩,
        ⟨false, ⟨9007199254740990, -1⟩⟩, ⟨false, ⟨6755399441055744, -50⟩⟩] := by decide
  have n1 : F64.num ⟨9007199254740990, -1⟩ = 9007199254740990 := by decide
  have d1 : F64.den ⟨9007199254740990, -1⟩ = 2 := by decide
  have n2 : F64.num ⟨6755399441055744, -50⟩ = 6755399441055744 := by decide
  have d2 : F64.den ⟨6755399441055744, -50⟩ = 1125899906842624 := by decide
  have n3 : F64.num ⟨6755399441055745, 1⟩ = 13510798882111490 := by decide
  have d3 : F64.den ⟨6755399441055745, 1⟩ = 1 := by decide
  have h1 : Float64.toRat ⟨false, ⟨9007199254740990, -1⟩⟩ = 4503599627370495 := by
    simp only [Float64.toRat, F64.toRat, n1, d1]
    norm_num
  have h2 : Float64.toRat ⟨false, ⟨6755399441055744, -50⟩⟩ = 6 := by
    simp only [Float64.toRat, F64.toRat, n2, d2]
    norm_num
  have h3 : F64.toRat ⟨6755399441055745, 1⟩ = 13510798882111490 := by
    simp only [F64.toRat, n3, d3]
    norm_num
  refine ⟨by decide, by decide, ?_, hv, h1, h2, ?_, ?_⟩
  · rw [h3, eq_comm, Int.ceil_eq_iff]
    norm_num
  · rw [h3]
    norm_num
  · rw [hv, h3]
    simp only [List.map_cons, List.map_nil, List.sum_cons, List.sum_nil, h1, h2]
    norm_num

/-- C10, amended: for every `float64` value `durationSec` with `0 ≤ durationSec <
2^53`, `D > 0` and `segmentCount = ceil(durationSec / D)`, the playlist of
`GenerateHLSMediaPlaylist`, computed in `float64`, is the header, then for
`i = 0, 1, ..., segmentCount - 1` in increasing order one `#EXTINF` line immediately
followed by the line `segment_i.m4s`, then `#EXT-X-ENDLIST`; there are exactly
`segmentCount` `#EXTINF` lines; no value carries a sign; the value of entry `i` is `D`
for every entry but the last and `durationSec - i * D` for the last; the values sum to
`durationSec`, and after the 6-decimal formatting their sum is within `10^-5` of
`durationSec`. -/
theorem hls_playlist (D : Int) (durationSec : F64) (segmentCount : Int) (hD : 0 < D)
    (hm : durationSec.m < 2 ^ 53) (hx : durationSec.floor < 2 ^ 53)
    (hc : segmentCount = ⌈durationSec.toRat / (D : ℚ)⌉) :
    GenerateHLSMediaPlaylist D durationSec segmentCount =
        hlsHeader D ++
          (List.range segmentCount.toNat).flatMap (fun i =>
            [PlaylistLine.extinf
                ((extinfValues (GenerateHLSMediaPlaylist D durationSec segmentCount)).getD i
                  ⟨false, ⟨0, 0⟩⟩),
              PlaylistLine.segment i]) ++
          [PlaylistLine.text "#EXT-X-ENDLIST"] ∧
      (extinfValues (GenerateHLSMediaPlaylist D durationSec segmentCount)).length =
        segmentCount.toNat ∧
      (∀ v ∈ extinfValues (GenerateHLSMediaPlaylist D durationSec segmentCount),
        v.neg = false) ∧
      (extinfValues (GenerateHLSMediaPlaylist D durationSec segmentCount)).map Float64.toRat =
        (List.range segmentCount.toNat).map (fun i : Nat =>
          if i + 1 < segmentCount.toNat then (D : ℚ)
          else durationSec.toRat - (i : ℚ) * (D : ℚ)) ∧
      ((extinfValues (GenerateHLSMediaPlaylist D durationSec segmentCount)).map
        Float64.toRat).sum = durationSec.toRat ∧
      |(((extinfValues (GenerateHLSMediaPlaylist D durationSec segmentCount)).map
        Float64.toRat).map fmt6).sum - durationSec.toRat| < 1 / 100000 := by
  obtain ⟨Dn, rfl⟩ : ∃ Dn : Nat, D = (Dn : Int) :=
    ⟨D.toNat, (Int.toNat_of_nonneg (le_of_lt hD)).symm⟩
  have hDn : 0 < Dn := by exact_mod_cast hD
  have hnum : durationSec.num < 2 ^ 53 := by
    by_cases he : 0 ≤ durationSec.e
    · have hd1 : durationSec.den = 1 := by
        have : (-durationSec.e).toNat = 0 := by omega
        simp [F64.den, this]
      have : durationSec.floor = durationSec.num := by simp [F64.floor, hd1]
      omega
    · have : durationSec.e.toNat = 0 := by omega
      simpa [F64.num, this] using hm
  obtain ⟨_, hzero, hcond⟩ := ceil_cond Dn durationSec segmentCount hDn hc
  obtain ⟨hsign, hrat⟩ := hlsLoop_values Dn durationSec segmentCount.toNat hnum hcond
  have hvals : extinfValues (GenerateHLSMediaPlaylist (Dn : Int) durationSec segmentCount) =
      extinfValues (hlsLoop (Dn : Int) segmentCount.toNat 0 ⟨false, durationSec⟩) := by
    unfold GenerateHLSMediaPlaylist
    rw [extinfValues_append, extinfValues_append]
    have h1 : extinfValues (hlsHeader (Dn : Int)) = [] := rfl
    have h2 : extinfValues [PlaylistLine.text "#EXT-X-ENDLIST"] = [] := rfl
    rw [h1, h2, List.nil_append, List.append_nil]
  rw [hvals]
  refine ⟨?_, extinfValues_hlsLoop_length _ _ _ _, hsign, hrat, ?_, ?_⟩
  · unfold GenerateHLSMediaPlaylist
    have hshape := hlsLoop_shape (Dn : Int) segmentCount.toNat 0 ⟨false, durationSec⟩
    simp only [Nat.zero_add] at hshape
    rw [← hshape]
  · rw [hrat]
    rcases Nat.eq_zero_or_pos segmentCount.toNat with h0 | h0
    · rw [h0, hzero h0]
      rfl
    · obtain ⟨k, hk⟩ := Nat.exists_eq_succ_of_ne_zero (Nat.pos_iff_ne_zero.mp h0)
      rw [hk]
      exact sum_segment_values k _ _
  · rw [hrat, List.map_map]
    rcases Nat.eq_zero_or_pos segmentCount.toNat with h0 | h0
    · rw [h0, hzero h0]
      norm_num
    · obtain ⟨k, hk⟩ := Nat.exists_eq_succ_of_ne_zero (Nat.pos_iff_ne_zero.mp h0)
      rw [hk]
      have := sum_formatted_values k (Dn : Int) durationSec.toRat
      simp only [Function.comp_def, Nat.succ_eq_add_one] at this ⊢
      rw [this]
      have herr := fmt6_err (durationSec.toRat - (k : ℚ) * ((Dn : Int) : ℚ))
      have e : (k : ℚ) * ((Dn : Int) : ℚ) +
          fmt6 (durationSec.toRat - (k : ℚ) * ((Dn : Int) : ℚ)) - durationSec.toRat =
          fmt6 (durationSec.toRat - (k : ℚ) * ((Dn : Int) : ℚ)) -
            (durationSec.toRat - (k : ℚ) * ((Dn : Int) : ℚ)) := by ring
      rw [e]
      exact lt_of_le_of_lt herr (by norm_num)

/-- Witness of C10 (amended) at `D = 4`, `durationSec = 10.5`, three segments: the
values are 4, 4 and 2.5. -/
theorem hls_playlist_witness :
    (21 : Nat) < 2 ^ 53 ∧ F64.floor ⟨21, -1⟩ < 2 ^ 53 ∧
      (extinfValues (GenerateHLSMediaPlaylist 4 ⟨21, -1⟩ 3)).map Float64.toRat =
        (List.range (3 : Int).toNat).map (fun i : Nat =>
          if i + 1 < (3 : Int).toNat then ((4 : Int) : ℚ)
          else F64.toRat ⟨21, -1⟩ - (i : ℚ) * ((4 : Int) : ℚ)) ∧
      ((extinfValues (GenerateHLSMediaPlaylist 4 ⟨21, -1⟩ 3)).map Float64.toRat).sum =
        F64.toRat ⟨21, -1⟩ :=
  ⟨by decide, by decide,
    (hls_playlist 4 ⟨21, -1⟩ 3 (by decide) (by decide) (by decide) (by
      have hn : F64.num ⟨21, -1⟩ = 21 := by decide
      have hd : F64.den ⟨21, -1⟩ = 2 := by decide
      rw [eq_comm, Int.ceil_eq_iff]
      simp only [F64.toRat, hn, hd]
      norm_num)).2.2.2.1,
    (hls_playlist 4 ⟨21, -1⟩ 3 (by decide) (by decide) (by decide) (by
      have hn : F64.num ⟨21, -1⟩ = 21 := by decide
      have hd : F64.den ⟨21, -1⟩ = 2 := by decide
      rw [eq_comm, Int.ceil_eq_iff]
      simp only [F64.toRat, hn, hd]
      norm_num)).2.2.2.2.1⟩

/-! ## Claims about the codec string -/

theorem avc1String_length (a b c : Byte) : (avc1String a b c).length = 11 := by
  simp only [avc1String, fmtHex2, String.length_append]
  rfl

theorem Trak.stsd_eq_some (trak : Trak) (stsd : StsdBox) (h : trak.stsd = some stsd) :
    ∃ mdia minf stbl, trak.Mdia = some mdia ∧ mdia.Minf = some minf ∧ minf.Stbl = some stbl ∧
      stbl.Stsd = some stsd := by
  cases hm : trak.Mdia with
  | none => simp [Trak.stsd, hm] at h
  | some mdia =>
    cases hi : mdia.Minf with
    | none => simp [Trak.stsd, hm, hi] at h
    | some minf =>
      cases hs : minf.Stbl with
      | none => simp [Trak.stsd, hm, hi, hs] at h
      | some stbl =>
        simp only [Trak.stsd, hm, hi, hs] at h
        exact ⟨mdia, minf, stbl, rfl, hi, hs, h⟩

theorem extractVideoCodec_of_none (trak : Trak) (h : trak.stsd = none) :
    extractVideoCodec trak = "avc1.640028" := by
  cases hm : trak.Mdia with
  | none => simp [extractVideoCodec, hm]
  | some mdia =>
    cases hi : mdia.Minf with
    | none => simp [extractVideoCodec, hm, hi]
    | some minf =>
      cases hs : minf.Stbl with
      | none => simp [extractVideoCodec, hm, hi, hs]
      | some stbl =>
        simp only [Trak.stsd, hm, hi, hs] at h
        simp [extractVideoCodec, hm, hi, hs, h]

/-- C12: `extractVideoCodec` follows the decision table.  With an AVC sample entry
whose `avcC` has a first SPS of length at least 4 the result is `avc1.` followed by
the SPS bytes 1, 2, 3 as two lowercase hexadecimal digits each; with `avcC` and no
first SPS of that length it is `avc1.` followed by the profile indication, the profile
compatibility and the level indication in the same format; with an AVC entry without
`avcC`, without `stsd` (or a box above it), or with neither an AVC nor an HEVC entry it
is `avc1.640028`; with an HEVC entry and no AVC entry it is `hvc1.1.6.L93.B0`.  With an
AVC entry the result has 11 characters, and an SPS starting 67 64 00 1F gives
`avc1.64001f`. -/
theorem extractVideoCodec_table (trak : Trak) :
    (∀ stsd avcX avcC sps rest, trak.stsd = some stsd → stsd.AvcX = some avcX →
        avcX.AvcC = some avcC → avcC.SPSnalus = sps :: rest → 4 ≤ sps.length →
        extractVideoCodec trak = avc1String (sps.getD 1 0) (sps.getD 2 0) (sps.getD 3 0)) ∧
      (∀ stsd avcX avcC, trak.stsd = some stsd → stsd.AvcX = some avcX →
        avcX.AvcC = some avcC → (∀ sps rest, avcC.SPSnalus = sps :: rest → sps.length < 4) →
        extractVideoCodec trak =
          avc1String avcC.AVCProfileIndication avcC.ProfileCompatibility
            avcC.AVCLevelIndication) ∧
      (∀ stsd avcX, trak.stsd = some stsd → stsd.AvcX = some avcX → avcX.AvcC = none →
        extractVideoCodec trak = "avc1.640028") ∧
      (trak.stsd = none → extractVideoCodec trak = "avc1.640028") ∧
      (∀ stsd, trak.stsd = some stsd → stsd.AvcX = none → stsd.HvcX = none →
        extractVideoCodec trak = "avc1.640028") ∧
      (∀ stsd hvcX, trak.stsd = some stsd → stsd.AvcX = none → stsd.HvcX = some hvcX →
        extractVideoCodec trak = "hvc1.1.6.L93.B0") ∧
      (∀ stsd avcX, trak.stsd = some stsd → stsd.AvcX = some avcX →
        (extractVideoCodec trak).length = 11) ∧
      avc1String 0x64 0x00 0x1F = "avc1.64001f" := by
  have key : ∀ stsd, trak.stsd = some stsd →
      extractVideoCodec trak =
        match stsd.AvcX with
        | some avcX =>
          match avcX.AvcC with
          | some avcC =>
            match avcC.SPSnalus with
            | sps :: _ =>
              if sps.length ≥ 4 then avc1String (sps.getD 1 0) (sps.getD 2 0) (sps.getD 3 0)
              else avc1String avcC.AVCProfileIndication avcC.ProfileCompatibility
                avcC.AVCLevelIndication
            | [] =>
              avc1String avcC.AVCProfileIndication avcC.ProfileCompatibility
                avcC.AVCLevelIndication
          | none => "avc1.640028"
        | none =>
          match stsd.HvcX with
          | some _ => "hvc1.1.6.L93.B0"
          | none => "avc1.640028" := by
    intro stsd h
    obtain ⟨mdia, minf, stbl, h1, h2, h3, h4⟩ := Trak.stsd_eq_some trak stsd h
    unfold extractVideoCodec
    rw [h1]
    simp only [h2, h3, h4]
  refine ⟨?_, ?_, ?_, extractVideoCodec_of_none trak, ?_, ?_, ?_, by decide⟩
  · intro stsd avcX avcC sps rest h ha hc hs hl
    rw [key stsd h, ha]
    simp only [hc, hs]
    rw [if_pos hl]
  · intro stsd avcX avcC h ha hc hs
    rw [key stsd h, ha]
    simp only [hc]
    cases hsp : avcC.SPSnalus with
    | nil => rfl
    | cons sps rest =>
      have := hs sps rest hsp
      simp only []
      rw [if_neg (by omega)]
  · intro stsd avcX h ha hc
    rw [key stsd h, ha]
    simp only [hc]
  · intro stsd h ha hh
    rw [key stsd h, ha]
    simp only [hh]
  · intro stsd hvcX h ha hh
    rw [key stsd h, ha]
    simp only [hh]
  · intro stsd avcX h ha
    rw [key stsd h, ha]
    simp only []
    cases hc : avcX.AvcC with
    | none => rfl
    | some avcC =>
      simp only []
      cases hsp : avcC.SPSnalus with
      | nil => exact avc1String_length _ _ _
      | cons sps rest =>
        simp only []
        split_ifs
        · exact avc1String_length _ _ _
        · exact avc1String_length _ _ _

/-- Witness of C12: a video track whose `avcC` holds the SPS 67 64 00 1F AC. -/
theorem extractVideoCodec_table_witness :
    extractVideoCodec ⟨none, some ⟨none, none, some ⟨some ⟨some ⟨some ⟨some
        ⟨[[0x67, 0x64, 0x00, 0x1F, 0xAC]], 0x42, 0xC0, 0x1E⟩⟩, none⟩,
        none, none, none, none, none, none, none⟩⟩⟩⟩ =
      avc1String (([0x67, 0x64, 0x00, 0x1F, 0xAC] : List Byte).getD 1 0)
        (([0x67, 0x64, 0x00, 0x1F, 0xAC] : List Byte).getD 2 0)
        (([0x67, 0x64, 0x00, 0x1F, 0xAC] : List Byte).getD 3 0) ∧
      avc1String (([0x67, 0x64, 0x00, 0x1F, 0xAC] : List Byte).getD 1 0)
        (([0x67, 0x64, 0x00, 0x1F, 0xAC] : List Byte).getD 2 0)
        (([0x67, 0x64, 0x00, 0x1F, 0xAC] : List Byte).getD 3 0) = "avc1.64001f" :=
  ⟨(extractVideoCodec_table _).1
      ⟨some ⟨some ⟨[[0x67, 0x64, 0x00, 0x1F, 0xAC]], 0x42, 0xC0, 0x1E⟩⟩, none⟩
      ⟨some ⟨[[0x67, 0x64, 0x00, 0x1F, 0xAC]], 0x42, 0xC0, 0x1E⟩⟩
      ⟨[[0x67, 0x64, 0x00, 0x1F, 0xAC]], 0x42, 0xC0, 0x1E⟩
      [0x67, 0x64, 0x00, 0x1F, 0xAC] [] rfl rfl rfl rfl (by decide),
    by decide⟩

/-! ## Claims about the request handlers -/

/-- C13 fails as stated: for the path parameter `segment_-5.m4s` both handlers pass the
index -5 to `GenerateMediaSegment`, because `strconv.Atoi` accepts a sign. -/
theorem segment_index_negative :
    GetHLSSegmentIndex "segment_-5.m4s" = -5 ∧
      GetDASHSegmentIndex "segment_-5.m4s" = some (-5) ∧
      ¬ (0 ≤ GetHLSSegmentIndex "segment_-5.m4s") := by
  refine ⟨by decide, by decide, by decide⟩

/-- C13, amended: the index that `GetHLSSegment` and `GetDASHSegment` pass to
`GenerateMediaSegment` is `N` when the parameter is `segment_<N>.m4s` or
`segment_+<N>.m4s` with `<N>` a non-empty run of decimal digits of value below `2^63`,
`-N` when it is `segment_-<N>.m4s` with a value of at most `2^63`, and 0 for every
other parameter; both handlers compute the same index for the same parameter, except
that `GetDASHSegment` serves the init segment for `init.mp4`. -/
theorem segment_index_spec :
    (∀ ds : List Nat, ds ≠ [] → (∀ d ∈ ds, d < 10) → decimalValue ds < 2 ^ 63 →
        GetHLSSegmentIndex ("segment_" ++ digitsString ds ++ ".m4s") = (decimalValue ds : Int) ∧
        GetHLSSegmentIndex ("segment_" ++ ("+" ++ digitsString ds) ++ ".m4s") =
          (decimalValue ds : Int)) ∧
      (∀ ds : List Nat, ds ≠ [] → (∀ d ∈ ds, d < 10) → decimalValue ds ≤ 2 ^ 63 →
        GetHLSSegmentIndex ("segment_" ++ ("-" ++ digitsString ds) ++ ".m4s") =
          -(decimalValue ds : Int)) ∧
      (∀ segment : String, GetHLSSegmentIndex segment ≠ 0 →
        ∃ ds : List Nat, ds ≠ [] ∧ (∀ d ∈ ds, d < 10) ∧
          ((segment = "segment_" ++ digitsString ds ++ ".m4s" ∧
              GetHLSSegmentIndex segment = (decimalValue ds : Int) ∧
              decimalValue ds < 2 ^ 63) ∨
            (segment = "segment_" ++ ("+" ++ digitsString ds) ++ ".m4s" ∧
              GetHLSSegmentIndex segment = (decimalValue ds : Int) ∧
              decimalValue ds < 2 ^ 63) ∨
            (segment = "segment_" ++ ("-" ++ digitsString ds) ++ ".m4s" ∧
              GetHLSSegmentIndex segment = -(decimalValue ds : Int) ∧
              decimalValue ds ≤ 2 ^ 63))) ∧
      (∀ segment : String, segment ≠ "init.mp4" →
        GetDASHSegmentIndex segment = some (GetHLSSegmentIndex segment)) ∧
      GetDASHSegmentIndex "init.mp4" = none := by
  refine ⟨?_, ?_, ?_, ?_, by decide⟩
  · intro ds hne hd hv
    constructor
    · unfold GetHLSSegmentIndex
      rw [segmentNumOf_wrap, Atoi_digits ds hne hd, if_pos hv]
    · unfold GetHLSSegmentIndex
      rw [segmentNumOf_wrap, Atoi_plus_digits ds hne hd, if_pos hv]
  · intro ds hne hd hv
    unfold GetHLSSegmentIndex
    rw [segmentNumOf_wrap, Atoi_minus_digits ds hne hd, if_pos hv]
  · intro segment h
    unfold GetHLSSegmentIndex at h ⊢
    obtain ⟨m, hm⟩ := segmentNumOf_shape segment h
    have hw := segmentNumOf_wrap m
    rw [← hm] at hw
    cases ha : Atoi m with
    | none =>
      rw [ha] at hw
      exact absurd hw h
    | some n =>
      rw [ha] at hw
      simp only [] at hw
      obtain ⟨ds, hne, hd, hcases⟩ := Atoi_inv m n ha
      refine ⟨ds, hne, hd, ?_⟩
      rcases hcases with ⟨h1, h2, h3⟩ | ⟨h1, h2, h3⟩ | ⟨h1, h2, h3⟩
      · exact Or.inl ⟨by rw [hm, h1], by rw [hw, h2], h3⟩
      · exact Or.inr (Or.inl ⟨by rw [hm, h1], by rw [hw, h2], h3⟩)
      · exact Or.inr (Or.inr ⟨by rw [hm, h1], by rw [hw, h2], h3⟩)
  · intro segment h
    unfold GetDASHSegmentIndex
    rw [if_neg h]
    rfl

/-- Witness of C13 (amended): `segment_37.m4s` gives index 37 in both handlers. -/
theorem segment_index_spec_witness :
    GetHLSSegmentIndex ("segment_" ++ digitsString [3, 7] ++ ".m4s") = (decimalValue [3, 7] : Int) ∧
      decimalValue [3, 7] = 37 ∧ "segment_" ++ digitsString [3, 7] ++ ".m4s" = "segment_37.m4s" ∧
      GetDASHSegmentIndex "segment_37.m4s" = some (GetHLSSegmentIndex "segment_37.m4s") :=
  ⟨(segment_index_spec.1 [3, 7] (by decide) (by decide) (by decide)).1, by decide, by decide,
    segment_index_spec.2.2.2.1 "segment_37.m4s" (by decide)⟩

/-- C14: in the sequential model of the video cache, `OpenVideo(path)` on a cache that
holds `path` returns the cached entry, does not parse and leaves the cache as it is;
on a miss that succeeds the file was parsed, the new cache is the old one with `path`
mapped to the returned entry, and that entry has a video track; on a miss that fails
the cache is unchanged, and it fails when the file cannot be opened, when it does not
parse, when it has no `moov` and when no track has the handler `vide`.  Hence every
entry of a cache built by `OpenVideo` calls from the empty cache has a video track. -/
theorem open_video_cache (fs : FileSystem) (videoCache : VideoCache) (path : String) :
    (∀ vf, videoCache path = some vf →
        (OpenVideo fs videoCache path).result = Except.ok vf ∧
        (OpenVideo fs videoCache path).videoCache = videoCache ∧
        (OpenVideo fs videoCache path).parsed = false) ∧
      (videoCache path = none → ∀ vf, (OpenVideo fs videoCache path).result = Except.ok vf →
        (OpenVideo fs videoCache path).videoCache =
          (fun p => if p = path then some vf else videoCache p) ∧
        vf.VideoTrack ≠ none ∧ (OpenVideo fs videoCache path).parsed = true) ∧
      (videoCache path = none → ∀ e, (OpenVideo fs videoCache path).result = Except.error e →
        (OpenVideo fs videoCache path).videoCache = videoCache) ∧
      (videoCache path = none → fs.osOpen path = none →
        (OpenVideo fs videoCache path).result = Except.error OpenError.failedToOpen) ∧
      (∀ f, videoCache path = none → fs.osOpen path = some f → fs.decodeFile f = none →
        (OpenVideo fs videoCache path).result = Except.error OpenError.failedToParse) ∧
      (∀ f parsedFile, videoCache path = none → fs.osOpen path = some f →
        fs.decodeFile f = some parsedFile → parsedFile.Moov = none →
        (OpenVideo fs videoCache path).result = Except.error OpenError.noMoovBox) ∧
      (∀ f parsedFile moov, videoCache path = none → fs.osOpen path = some f →
        fs.decodeFile f = some parsedFile → parsedFile.Moov = some moov →
        (∀ trak ∈ moov.Traks, ¬ trak.isVide) →
        (OpenVideo fs videoCache path).result = Except.error OpenError.noVideoTrackFound) ∧
      ((∀ p vf, videoCache p = some vf → vf.VideoTrack ≠ none) →
        ∀ p vf, (OpenVideo fs videoCache path).videoCache p = some vf → vf.VideoTrack ≠ none) ∧
      (∀ paths p vf, openAll fs paths emptyCache p = some vf → vf.VideoTrack ≠ none) := by
  refine ⟨?_, ?_, ?_, ?_, ?_, ?_, ?_, OpenVideo_inv fs videoCache path, ?_⟩
  · intro vf h
    unfold OpenVideo
    rw [h]
    exact ⟨rfl, rfl, rfl⟩
  · intro hmiss vf hok
    rcases OpenVideo_cases fs videoCache path hmiss with ⟨_, e, he⟩ | ⟨vf1, h1, h2, h3, h4⟩
    · rw [he] at hok
      cases hok
    · rw [h1] at hok
      cases hok
      exact ⟨h2, h3, h4⟩
  · intro hmiss e herr
    rcases OpenVideo_cases fs videoCache path hmiss with ⟨h0, _⟩ | ⟨vf1, h1, _⟩
    · exact h0
    · rw [h1] at herr
      cases herr
  · intro hmiss ho
    unfold OpenVideo
    simp only [hmiss, ho]
  · intro f hmiss ho hd
    unfold OpenVideo
    simp only [hmiss, ho, hd]
  · intro f parsedFile hmiss ho hd hm
    unfold OpenVideo
    simp only [hmiss, ho, hd, hm]
  · intro f parsedFile moov hmiss ho hd hm hno
    have hv := scanTraks_videoTrack_none moov.Traks
      ⟨path, f, parsedFile, 0, 0, none, none, "", 0, 0⟩ hno
    unfold OpenVideo
    simp only [hmiss, ho, hd, hm, hv]
  · intro paths p vf h
    exact openAll_inv fs paths emptyCache (fun p vf hp => by cases hp) p vf h

/-- Witness of C14: a file system that holds one file with one `vide` track; the
first `OpenVideo` parses it and caches the entry. -/
theorem open_video_cache_witness :
    (OpenVideo ⟨fun _ => some [], fun _ => some ⟨some ⟨[⟨none, some ⟨some ⟨"vide"⟩, none, none⟩⟩]⟩⟩⟩
        emptyCache "a.mp4").parsed = true ∧
      ∃ vf, (OpenVideo ⟨fun _ => some [],
          fun _ => some ⟨some ⟨[⟨none, some ⟨some ⟨"vide"⟩, none, none⟩⟩]⟩⟩⟩
        emptyCache "a.mp4").result = Except.ok vf ∧ vf.VideoTrack ≠ none :=
  ⟨rfl, _, rfl,
    ((open_video_cache ⟨fun _ => some [],
        fun _ => some ⟨some ⟨[⟨none, some ⟨some ⟨"vide"⟩, none, none⟩⟩]⟩⟩⟩
      emptyCache "a.mp4").2.1 rfl _ rfl).2.1⟩

/-! ## Claims about the errors of `GenerateMediaSegment` -/

/-- C15 fails on the code: for a file whose `moov` holds a complete video track
followed by a `vide` track that has `mdia` and `hdlr` but no `minf` (so no `stbl`),
the loop of `OpenVideo` takes the last `vide` track as the video track and caches the
source (timescale, duration, width and height stay those of the first track,
`extractVideoCodec` steps over the missing `minf` and answers its default), and
`GenerateMediaSegment` evaluates `vf.VideoTrack.Mdia.Minf.Stbl` with `Minf` nil: the
call panics instead of returning the error for the missing table. -/
theorem media_segment_panics_without_minf :
    (OpenVideo ⟨fun _ => some [10, 11, 12, 13, 14, 15, 16, 17], fun _ => some twoTrakFile⟩
      emptyCache "a.mp4").result =
      Except.ok ⟨"a.mp4", [10, 11, 12, 13, 14, 15, 16, 17], twoTrakFile, 1000, 3000,
        some trakWithoutMinf, none, "avc1.640028", 640, 360⟩ ∧
    extractVideoCodec trakWithoutMinf = "avc1.640028" ∧
    GenerateMediaSegment ⟨Except.ok [], fun _ => 0, fun _ => Except.ok [], fun _ => Except.ok []⟩ 4
      ⟨"a.mp4", [10, 11, 12, 13, 14, 15, 16, 17], twoTrakFile, 1000, 3000,
        some trakWithoutMinf, none, "avc1.640028", 640, 360⟩ 0 0 =
      Run.panicked :=
  ⟨by rfl, by rfl, by rfl⟩

/-! ## Claims about the closed form of the sample range -/

/-- C17 fails as stated: `sampleNum` is a `uint32`.  For the table of `2^32 - 1`
samples of 0 ticks and the window `[0, 1)` no sample has an end time of at least 1,
the walk exhausts the table and `sampleNum` wraps to 0: the range is `(1, 0)`, while
`N + 1 = 2^32`. -/
theorem sample_range_wraps :
    (∀ n, endTime ⟨[⟨4294967295, 0⟩]⟩ n < 1) ∧
      getSampleRange ⟨some ⟨[⟨4294967295, 0⟩]⟩⟩ 0 1 = Except.ok (1, 0) ∧
      totalSamples ⟨[⟨4294967295, 0⟩]⟩ + 1 = 4294967296 := by
  refine ⟨?_, ?_, by decide⟩
  · intro n
    simp only [endTime, sampleDeltas, deltasOf, List.append_nil, List.take_replicate,
      List.sum_replicate, smul_eq_mul, Nat.mul_zero]
    exact Nat.one_pos
  · have h := getSampleRange_zero_deltas 4294967295 1 (by decide)
    have hw : (1 + 4294967295) % u32 = 0 := by decide
    rw [hw] at h
    exact h

/-- C17, amended: for an `stts` table of `N` samples with `N + 1 < 2^32` and `uint32`
deltas, `getSampleRange` equals the closed form of the walk.  If `m` is the least
sample with `end_time(m) ≥ end`, the range is `(first, m + 1)` with `first = 1` when
`start = 0` and `first = f` when `f ≤ m` is the least sample with
`decode_time(f) ≥ start`.  If no sample has `end_time ≥ end`, the range is
`(first, N + 1)` with `first = 1` when `start = 0` or when no sample has
`decode_time ≥ start`, and `first = f` for the least sample `f` with
`decode_time(f) ≥ start`. -/
theorem sample_range_closed (stbl : StblBox) (stts : SttsBox) (s e : Nat)
    (h : stbl.Stts = some stts) (hN : totalSamples stts + 1 < u32)
    (hd : ∀ en ∈ stts.Entries, en.SampleTimeDelta < u32) :
    (∀ m, 1 ≤ m → m ≤ totalSamples stts → e ≤ endTime stts m →
      (∀ k, 1 ≤ k → k < m → endTime stts k < e) →
      ∃ first, getSampleRange stbl s e = Except.ok (first, m + 1) ∧
        (s = 0 → first = 1) ∧
        ∀ f, 1 ≤ f → f ≤ m → s ≤ decodeTime stts f →
          (∀ k, 1 ≤ k → k < f → decodeTime stts k < s) → first = f) ∧
    ((∀ k, 1 ≤ k → k ≤ totalSamples stts → endTime stts k < e) →
      ∃ first, getSampleRange stbl s e = Except.ok (first, totalSamples stts + 1) ∧
        (s = 0 → first = 1) ∧
        ((∀ k, 1 ≤ k → k ≤ totalSamples stts → decodeTime stts k < s) → first = 1) ∧
        ∀ f, 1 ≤ f → f ≤ totalSamples stts → s ≤ decodeTime stts f →
          (∀ k, 1 ≤ k → k < f → decodeTime stts k < s) → first = f) := by
  have hlen := sampleDeltas_length stts
  have hsum := sampleDeltas_sum_lt stts hN hd
  have hone : ∀ f, 1 ≤ f → s = 0 → (∀ k, 1 ≤ k → k < f → decodeTime stts k < s) → f = 1 := by
    intro f hf hs hmin
    by_contra hne
    have := hmin 1 (Nat.le_refl 1) (by omega)
    omega
  have hcount : ∀ f, 1 ≤ f → f ≤ totalSamples stts → s ≤ decodeTime stts f →
      (∀ k, 1 ≤ k → k < f → decodeTime stts k < s) →
      countBelow s 0 (sampleDeltas stts) = f - 1 := by
    intro f h1 h2 h3 h4
    exact countBelow_least s _ f h1 (by omega) h3 h4
  rw [getSampleRange_eq_scan stbl stts h]
  constructor
  · intro m hm1 hm2 hend hleast
    have hscan := scan_early s e (sampleDeltas stts) ⟨1, 0, if s = 0 then 1 else 0⟩ (m - 1)
      (by simp only []; omega) (by simp only []; omega) (by simp only []; omega) (by omega)
      (by
        simp only [Nat.zero_add]
        rw [Nat.sub_add_cancel hm1]
        exact hend)
      (fun j hj => by
        simp only [Nat.zero_add]
        exact hleast (j + 1) (by omega) (by omega))
    rw [hscan, Nat.sub_add_cancel hm1]
    refine ⟨_, by simp only [scanFinish]; congr 2; omega, ?_, ?_⟩
    · intro hs
      simp [startAfter, hs]
    · intro f hf1 hf2 hf3 hf4
      by_cases hs : s = 0
      · rw [hone f hf1 hs hf4]
        simp [startAfter, hs]
      · have hc := hcount f hf1 (by omega) hf3 hf4
        simp only [startAfter, hs, if_false, ne_eq, not_true_eq_false, hc, scanFinish]
        rw [if_pos (show f - 1 < m by omega)]
        omega
  · intro hall
    have hscan := scan_exhaust s e (sampleDeltas stts) ⟨1, 0, if s = 0 then 1 else 0⟩
      (by simp only []; omega) (by simp only []; omega) (by simp only []; omega)
      (fun j hj => by
        simp only [Nat.zero_add]
        exact hall (j + 1) (by omega) (by omega))
    rw [hscan, hlen]
    refine ⟨_, by simp only [scanFinish]; congr 2; omega, ?_, ?_, ?_⟩
    · intro hs
      simp [startAfter, hs]
    · intro hnone
      by_cases hs : s = 0
      · simp [startAfter, hs]
      · have hc : countBelow s 0 (sampleDeltas stts) = (sampleDeltas stts).length := by
          apply countBelow_eq_length
          intro j hj
          simpa [decodeTime] using hnone (j + 1) (by omega) (by omega)
        simp [startAfter, hs, hc, hlen]
    · intro f hf1 hf2 hf3 hf4
      by_cases hs : s = 0
      · rw [hone f hf1 hs hf4]
        simp [startAfter, hs]
      · have hc := hcount f hf1 hf2 hf3 hf4
        have hsa : startAfter s ⟨1, 0, if s = 0 then 1 else 0⟩ (sampleDeltas stts)
            (totalSamples stts) = f := by
          simp only [startAfter, hs, if_false, ne_eq, not_true_eq_false, hc]
          rw [if_pos (show f - 1 < totalSamples stts by omega)]
          omega
        simp only [scanFinish, hsa]
        rw [if_neg (show ¬ f = 0 by omega)]

/-- Witness of C17: ten samples of 1000 ticks and the window `[4000, 8000)`; sample 8
is the least whose end time reaches 8000, so the range ends at 9. -/
theorem sample_range_closed_witness :
    ∃ first, getSampleRange ⟨some ⟨[⟨10, 1000⟩]⟩⟩ 4000 8000 = Except.ok (first, 8 + 1) ∧
      (4000 = 0 → first = 1) ∧
      ∀ f, 1 ≤ f → f ≤ 8 → 4000 ≤ decodeTime ⟨[⟨10, 1000⟩]⟩ f →
        (∀ k, 1 ≤ k → k < f → decodeTime ⟨[⟨10, 1000⟩]⟩ k < 4000) → first = f :=
  (sample_range_closed ⟨some ⟨[⟨10, 1000⟩]⟩⟩ ⟨[⟨10, 1000⟩]⟩ 4000 8000 rfl (by decide)
    (by decide)).1 8 (by decide) (by decide) (by decide)
    (fun k h1 h2 => by interval_cases k <;> decide)

/-! ## Claims about sample offsets and the track run -/

/-- C18 fails as stated: the sum is a `uint64` sum.  With the one chunk at
`co64[0] = 2^64 - 1`, every sample of size 1 and `stsc` placing sample 2 in chunk 1
with first sample 1, `getSampleOffset(2)` is 0, while
`chunk_offset(1) + size(1) = 2^64`. -/
theorem sample_offset_wraps :
    getSampleOffset ⟨none, none, some ⟨fun _ => 1⟩, none, none,
        some ⟨fun _ => Except.ok (1, 1)⟩, none, some ⟨[18446744073709551615]⟩⟩ 2 =
      Run.returned (Except.ok 0) ∧
    (18446744073709551615 : Nat) +
      ((List.range ((2 : Int) - 1).toNat).map (fun _ : Nat => 1)).sum ≠ 0 :=
  ⟨by rfl, by decide⟩

/-- C18, amended: `getSampleOffset(n)` returns the error for a missing `stsc`, then
the error for missing `stco` and `co64`, then the error of `stsc` when it cannot
place `n`.  When `stsc` places `n` in chunk `c` (a positive `int`) with first sample
`s`, the result is the error "chunk offset not found" if `c - 1` is an index of
neither available table, and otherwise, with `stsz` present, it is
`(chunk_offset(c) + the sum of size(k) for k in [s, n)) mod 2^64`, where
`chunk_offset(c)` is `stco[c-1]` when `stco` is present and has that index and
`co64[c-1]` otherwise. -/
theorem sample_offset_closed (stbl : Stbl) (n : Nat) :
    (stbl.Stsc = none → getSampleOffset stbl n = Run.returned (Except.error MediaError.noStscBox)) ∧
    (∀ stsc, stbl.Stsc = some stsc → stbl.Stco = none → stbl.Co64 = none →
      getSampleOffset stbl n = Run.returned (Except.error MediaError.noStcoOrCo64Box)) ∧
    (∀ stsc err, stbl.Stsc = some stsc → ¬ (stbl.Stco = none ∧ stbl.Co64 = none) →
      stsc.ChunkNrFromSampleNr (n : Int) = Except.error err →
      getSampleOffset stbl n = Run.returned (Except.error (MediaError.failedToFindChunk n err))) ∧
    (∀ stsc c s, stbl.Stsc = some stsc → ¬ (stbl.Stco = none ∧ stbl.Co64 = none) →
      stsc.ChunkNrFromSampleNr (n : Int) = Except.ok (c, s) → 1 ≤ c → c < 2 ^ 63 →
      (∀ stco, stbl.Stco = some stco → (stco.ChunkOffset.length : Int) ≤ c - 1) →
      (∀ co64, stbl.Co64 = some co64 → (co64.ChunkOffset.length : Int) ≤ c - 1) →
      getSampleOffset stbl n = Run.returned (Except.error (MediaError.chunkOffsetNotFound c))) ∧
    (∀ stsc stsz c s stco, stbl.Stsc = some stsc → stbl.Stsz = some stsz →
      stsc.ChunkNrFromSampleNr (n : Int) = Except.ok (c, s) → 1 ≤ c → c < 2 ^ 63 →
      stbl.Stco = some stco → c - 1 < (stco.ChunkOffset.length : Int) →
      getSampleOffset stbl n = Run.returned (Except.ok
        ((stco.ChunkOffset.getD (c - 1).toNat 0 +
          ((List.range ((n : Int) - s).toNat).map
            (fun j : Nat => stsz.GetSampleSize (s + (j : Int)))).sum) % u64))) ∧
    (∀ stsc stsz c s co64, stbl.Stsc = some stsc → stbl.Stsz = some stsz →
      stsc.ChunkNrFromSampleNr (n : Int) = Except.ok (c, s) → 1 ≤ c → c < 2 ^ 63 →
      (∀ stco, stbl.Stco = some stco → (stco.ChunkOffset.length : Int) ≤ c - 1) →
      stbl.Co64 = some co64 → c - 1 < (co64.ChunkOffset.length : Int) →
      getSampleOffset stbl n = Run.returned (Except.ok
        ((co64.ChunkOffset.getD (c - 1).toNat 0 +
          ((List.range ((n : Int) - s).toNat).map
            (fun j : Nat => stsz.GetSampleSize (s + (j : Int)))).sum) % u64))) := by
  refine ⟨?_, ?_, ?_, ?_, ?_, ?_⟩
  · intro h
    unfold getSampleOffset
    rw [h]
  · intro stsc h1 h2 h3
    unfold getSampleOffset
    rw [h1]
    simp [h2, h3]
  · intro stsc err h1 h2 h3
    have hb : ¬ (stbl.Stco.isNone = true ∧ stbl.Co64.isNone = true) := by
      simpa [Option.isNone_iff_eq_none] using h2
    unfold getSampleOffset
    rw [h1]
    simp only []
    rw [if_neg hb]
    simp only [h3]
  · intro stsc c s h1 h2 h3 hc1 hc2 hs hc
    have hb : ¬ (stbl.Stco.isNone = true ∧ stbl.Co64.isNone = true) := by
      simpa [Option.isNone_iff_eq_none] using h2
    unfold getSampleOffset
    rw [h1]
    simp only []
    rw [if_neg hb]
    simp only [h3, chunk_index c hc1 hc2]
    cases hso : stbl.Stco with
    | none =>
      cases hco : stbl.Co64 with
      | none => rfl
      | some co64 =>
        simp only []
        rw [if_neg (show ¬ (c - 1 < (co64.ChunkOffset.length : Int)) by
          have := hc co64 hco
          omega)]
    | some stco =>
      simp only []
      rw [if_neg (show ¬ (c - 1 < (stco.ChunkOffset.length : Int)) by
        have := hs stco hso
        omega)]
      cases hco : stbl.Co64 with
      | none => rfl
      | some co64 =>
        simp only []
        rw [if_neg (show ¬ (c - 1 < (co64.ChunkOffset.length : Int)) by
          have := hc co64 hco
          omega)]
  · intro stsc stsz c s stco h1 hz h3 hc1 hc2 hso hlt
    have hb : ¬ (stbl.Stco.isNone = true ∧ stbl.Co64.isNone = true) := by
      simp [hso]
    unfold getSampleOffset
    rw [h1]
    simp only []
    rw [if_neg hb]
    simp only [h3, chunk_index c hc1 hc2, hso, if_pos hlt,
      chunkAt_of_lt stco.ChunkOffset (c - 1) (by omega) hlt, offsetFrom_eq stbl stsz hz]
  · intro stsc stsz c s co64 h1 hz h3 hc1 hc2 hs hco hlt
    have hb : ¬ (stbl.Stco.isNone = true ∧ stbl.Co64.isNone = true) := by
      simp [hco]
    unfold getSampleOffset
    rw [h1]
    simp only []
    rw [if_neg hb]
    simp only [h3, chunk_index c hc1 hc2, hco, if_pos hlt,
      chunkAt_of_lt co64.ChunkOffset (c - 1) (by omega) hlt, offsetFrom_eq stbl stsz hz]
    cases hso : stbl.Stco with
    | none => rfl
    | some stco =>
      simp only []
      rw [if_neg (show ¬ (c - 1 < (stco.ChunkOffset.length : Int)) by
        have := hs stco hso
        omega)]

/-- Witness of C18: a source that carries only `co64`, chunk 2 at offset 5000000000,
samples of 100 bytes, sample 7 placed in chunk 2 whose first sample is 5: the offset
is `5000000000 + 200`. -/
theorem sample_offset_closed_witness :
    getSampleOffset ⟨none, none, some ⟨fun _ => 100⟩, none, none,
        some ⟨fun _ => Except.ok (2, 5)⟩, none, some ⟨[48, 5000000000]⟩⟩ 7 =
      Run.returned (Except.ok 5000000200) :=
  (sample_offset_closed ⟨none, none, some ⟨fun _ => 100⟩, none, none,
      some ⟨fun _ => Except.ok (2, 5)⟩, none, some ⟨[48, 5000000000]⟩⟩ 7).2.2.2.2.2
    ⟨fun _ => Except.ok (2, 5)⟩ ⟨fun _ => 100⟩ 2 5 ⟨[48, 5000000000]⟩ rfl rfl rfl
    (by decide) (by decide) (fun _ h => by cases h) rfl (by decide)

/-- C19: when `createTraf` succeeds for the sample range `[first, last)`, the `trun`
has `last - first` entries, entry `j` is that of sample `first + j`, and its flags
are `0x02000000` if the source has no `stss` box or the sample number is a member
of `stss.SampleNumber`, and `0x01010000` otherwise; its composition time offset is
0 for a source with no `ctts` and the answer of `ctts` otherwise. -/
theorem trun_flags (vf : Source) (cursor : Nat) (stbl : Stbl)
    (trackID first last baseTime : Nat) (traf : TrafBox) (mdatData : List Byte)
    (hlast : last < u32)
    (h : createTraf vf cursor stbl trackID first last baseTime =
      Run.returned (Except.ok (traf, mdatData))) :
    ∃ trun, traf.Trun = some trun ∧ trun.Samples.length = last - first ∧
      ∀ j, j < last - first → ∃ sample, trun.Samples.get? j = some sample ∧
        (stbl.Stss = none → sample.Flags = 0x2000000) ∧
        (∀ stss, stbl.Stss = some stss →
          sample.Flags = if first + j ∈ stss.SampleNumber then 0x2000000 else 0x1010000) ∧
        (stbl.Ctts = none → sample.CompositionTimeOffset = 0) ∧
        (∀ ctts, stbl.Ctts = some ctts →
          sample.CompositionTimeOffset = ctts.GetCompositionTimeOffset (first + j)) := by
  obtain ⟨stsz, stts, _, _, htraf, _, _⟩ :=
    createTraf_ok vf cursor stbl trackID first last baseTime traf mdatData hlast h
  refine ⟨_, by rw [htraf], by simp, ?_⟩
  intro j hj
  refine ⟨newSample stsz (expandSampleDurations stts last)
    (stbl.Stss.map StssBox.SampleNumber) stbl.Ctts (first + j), ?_, ?_, ?_, ?_, ?_⟩
  · simp [List.get?_eq_getElem?, hj]
  · intro hs
    simp [newSample, hs]
  · intro stss hs
    simp [newSample, hs]
  · intro hc
    simp [newSample, hc]
  · intro ctts hc
    simp [newSample, hc]

/-- Witness of C19: the three samples of `exampleSource`, of which sample 1 is the
only sync sample. -/
theorem trun_flags_witness :
    ∃ trun, (⟨some ⟨1, 0x020000⟩, some ⟨0⟩, some ⟨0, 0x000F01,
        [⟨0x2000000, 1000, 2, 0⟩, ⟨0x1010000, 1000, 2, 0⟩, ⟨0x1010000, 1000, 2, 0⟩], 1⟩⟩ :
          TrafBox).Trun = some trun ∧ trun.Samples.length = 4 - 1 ∧
      ∀ j, j < 4 - 1 → ∃ sample, trun.Samples.get? j = some sample ∧
        (exampleStbl.Stss = none → sample.Flags = 0x2000000) ∧
        (∀ stss, exampleStbl.Stss = some stss →
          sample.Flags = if 1 + j ∈ stss.SampleNumber then 0x2000000 else 0x1010000) ∧
        (exampleStbl.Ctts = none → sample.CompositionTimeOffset = 0) ∧
        (∀ ctts, exampleStbl.Ctts = some ctts →
          sample.CompositionTimeOffset = ctts.GetCompositionTimeOffset (1 + j)) :=
  trun_flags exampleSource 0 exampleStbl 1 1 4 0 _ [11, 12, 13, 14, 15, 16] (by decide) rfl

/-- C20: when `createTraf` succeeds for the sample range `[first, last)`, the `trun`
has exactly `last - first` entries in increasing sample order; entry `j` is that of
sample `n = first + j`, it carries `size(n)` from `stsz` and, for a sample number
`1 ≤ n ≤ N` of the table, the `stts` delta of sample `n` as its duration; the
`mdat` payload is the concatenation, in the same order, of the `size(n)` bytes of
the source file that start at `getSampleOffset(n)`; and the payload length equals
the sum of the `trun` sample sizes. -/
theorem trun_samples_and_payload (vf : Source) (cursor : Nat) (stbl : Stbl)
    (stsz : StszBox) (stts : SttsBox)
    (trackID first last baseTime : Nat) (traf : TrafBox) (mdatData : List Byte)
    (hz : stbl.Stsz = some stsz) (ht : stbl.Stts = some stts) (hlast : last < u32)
    (h : createTraf vf cursor stbl trackID first last baseTime =
      Run.returned (Except.ok (traf, mdatData))) :
    ∃ trun, traf.Trun = some trun ∧ trun.Samples.length = last - first ∧
      (∀ j, j < last - first → ∃ sample, trun.Samples.get? j = some sample ∧
        sample.Size = stsz.GetSampleSize ((first + j : Nat) : Int) ∧
        (1 ≤ first + j → first + j ≤ totalSamples stts →
          sample.Dur = (sampleDeltas stts).getD (first + j - 1) 0)) ∧
      mdatData = ((List.range (last - first)).map
        (fun j => sampleBytes vf.File stbl stsz (first + j))).flatten ∧
      (∀ j, j < last - first → ∃ offset,
        getSampleOffset stbl (first + j) = Run.returned (Except.ok offset) ∧
        sampleBytes vf.File stbl stsz (first + j) =
          bytesAt vf.File offset (stsz.GetSampleSize ((first + j : Nat) : Int)) ∧
        (bytesAt vf.File offset (stsz.GetSampleSize ((first + j : Nat) : Int))).length =
          stsz.GetSampleSize ((first + j : Nat) : Int)) ∧
      mdatData.length = (trun.Samples.map Sample.Size).sum := by
  obtain ⟨stsz1, stts1, hz1, ht1, htraf, hmdat, hoff⟩ :=
    createTraf_ok vf cursor stbl trackID first last baseTime traf mdatData hlast h
  rw [hz] at hz1
  rw [ht] at ht1
  cases hz1
  cases ht1
  have hbytes : ∀ j, j < last - first → ∃ offset,
      getSampleOffset stbl (first + j) = Run.returned (Except.ok offset) ∧
      sampleBytes vf.File stbl stsz (first + j) =
        bytesAt vf.File offset (stsz.GetSampleSize ((first + j : Nat) : Int)) ∧
      (bytesAt vf.File offset (stsz.GetSampleSize ((first + j : Nat) : Int))).length =
        stsz.GetSampleSize ((first + j : Nat) : Int) := by
    intro j hj
    obtain ⟨offset, ho1, ho2⟩ := hoff j hj
    have he : sampleBytes vf.File stbl stsz (first + j) =
        bytesAt vf.File offset (stsz.GetSampleSize ((first + j : Nat) : Int)) := by
      unfold sampleBytes
      rw [ho1]
    exact ⟨offset, ho1, he, by rw [← he]; exact ho2⟩
  refine ⟨_, by rw [htraf], by simp, ?_, hmdat, hbytes, ?_⟩
  · intro j hj
    refine ⟨newSample stsz (expandSampleDurations stts last)
      (stbl.Stss.map StssBox.SampleNumber) stbl.Ctts (first + j), ?_, ?_, ?_⟩
    · simp [List.get?_eq_getElem?, hj]
    · simp [newSample]
    · intro h1 h2
      exact newSample_dur stsz stts _ _ (first + j) last h1 (by omega) hlast h2
  · rw [hmdat, List.length_flatten, List.map_map, List.map_map]
    congr 1
    apply List.map_congr_left
    intro j hj
    obtain ⟨offset, _, ho2⟩ := hoff j (List.mem_range.mp hj)
    simp only [Function.comp, ho2, newSample]

/-- Witness of C20: the three samples of `exampleSource`; the payload is the six
bytes of the file from offset 1 on. -/
theorem trun_samples_and_payload_witness :
    ∃ trun, (⟨some ⟨1, 0x020000⟩, some ⟨0⟩, some ⟨0, 0x000F01,
        [⟨0x2000000, 1000, 2, 0⟩, ⟨0x1010000, 1000, 2, 0⟩, ⟨0x1010000, 1000, 2, 0⟩], 1⟩⟩ :
          TrafBox).Trun = some trun ∧ trun.Samples.length = 4 - 1 ∧
      (∀ j, j < 4 - 1 → ∃ sample, trun.Samples.get? j = some sample ∧
        sample.Size = (⟨fun _ => 2⟩ : StszBox).GetSampleSize ((1 + j : Nat) : Int) ∧
        (1 ≤ 1 + j → 1 + j ≤ totalSamples ⟨[⟨3, 1000⟩]⟩ →
          sample.Dur = (sampleDeltas ⟨[⟨3, 1000⟩]⟩).getD (1 + j - 1) 0)) ∧
      ([11, 12, 13, 14, 15, 16] : List Byte) = ((List.range (4 - 1)).map
        (fun j => sampleBytes exampleSource.File exampleStbl ⟨fun _ => 2⟩ (1 + j))).flatten ∧
      (∀ j, j < 4 - 1 → ∃ offset,
        getSampleOffset exampleStbl (1 + j) = Run.returned (Except.ok offset) ∧
        sampleBytes exampleSource.File exampleStbl ⟨fun _ => 2⟩ (1 + j) =
          bytesAt exampleSource.File offset
            ((⟨fun _ => 2⟩ : StszBox).GetSampleSize ((1 + j : Nat) : Int)) ∧
        (bytesAt exampleSource.File offset
          ((⟨fun _ => 2⟩ : StszBox).GetSampleSize ((1 + j : Nat) : Int))).length =
            (⟨fun _ => 2⟩ : StszBox).GetSampleSize ((1 + j : Nat) : Int)) ∧
      ([11, 12, 13, 14, 15, 16] : List Byte).length = (trun.Samples.map Sample.Size).sum :=
  trun_samples_and_payload exampleSource 0 exampleStbl ⟨fun _ => 2⟩ ⟨[⟨3, 1000⟩]⟩ 1 1 4 0 _
    [11, 12, 13, 14, 15, 16] rfl rfl (by decide) rfl

/-! ## Claims about the duration string -/

/-- C11 fails as stated: the seconds are computed in `float64`.  For a track of `2^60`
ticks at timescale 1 the handler passes `durationSec = 2^60`; then `H =
320255973501901`, `M = 56` and `S = 2^60 - 3600*H - 60*M = 16`, printed `16.000`,
but `float64(3600*H + 60*M)` rounds to `2^60` and the string written is
`320255973501901H56M0.000S`. -/
theorem duration_seconds_rounded :
    GetDurationSec ⟨1, 1152921504606846976, none⟩ = ⟨4503599627370496, 8⟩ ∧
      F64.floor ⟨4503599627370496, 8⟩ = 1152921504606846976 ∧
      1152921504606846976 / 3600 = 320255973501901 ∧
      1152921504606846976 % 3600 / 60 = 56 ∧
      fmt3Exact (1152921504606846976 - (3600 * 320255973501901 + 60 * 56)) 1 = "16.000" ∧
      durationStr ⟨4503599627370496, 8⟩ = some "320255973501901H56M0.000S" := by
  refine ⟨by decide, by decide, by decide, by decide, by decide, by decide⟩

/-- C11, amended: for every `float64` value `durationSec` with `0 ≤ durationSec <
2^53`, given as `num / den`, with `H = floor(durationSec) / 3600`,
`M = (floor(durationSec) mod 3600) / 60` and `S = durationSec - 3600*H - 60*M`
(which is `(num - (3600*H + 60*M) * den) / den`), the string `durationStr` that
`GenerateDASHMPD` writes after `PT` is `{H}H{M}M{S.3f}S` when `H > 0`, `{M}M{S.3f}S`
when `H = 0` and `M > 0`, and `{S.3f}S` otherwise, with `M < 60` and `0 ≤ S < 60`;
3661.5 gives `1H1M1.500S` and 10 gives `10.000S`. -/
theorem duration_string (x : F64) (hm : x.m < 2 ^ 53) (hx : x.floor < 2 ^ 53) :
    durationStr x = some
        (if 0 < x.floor / 3600 then
          toString (x.floor / 3600) ++ "H" ++ toString (x.floor % 3600 / 60) ++ "M" ++
            fmt3Exact (x.num - (x.floor / 3600 * 3600 + x.floor % 3600 / 60 * 60) * x.den) x.den ++
            "S"
        else if 0 < x.floor % 3600 / 60 then
          toString (x.floor % 3600 / 60) ++ "M" ++
            fmt3Exact (x.num - (x.floor / 3600 * 3600 + x.floor % 3600 / 60 * 60) * x.den) x.den ++
            "S"
        else
          fmt3Exact (x.num - (x.floor / 3600 * 3600 + x.floor % 3600 / 60 * 60) * x.den) x.den ++
            "S") ∧
      x.floor % 3600 / 60 < 60 ∧
      (x.floor / 3600 * 3600 + x.floor % 3600 / 60 * 60) * x.den ≤ x.num ∧
      x.num - (x.floor / 3600 * 3600 + x.floor % 3600 / 60 * 60) * x.den < 60 * x.den ∧
      durationStr (GetDurationSec ⟨1000, 3661500, none⟩) = some "1H1M1.500S" ∧
      durationStr (F64.ofNat 10) = some "10.000S" := by
  have hden := F64.den_pos x
  have hk : x.floor / 3600 * 3600 + x.floor % 3600 / 60 * 60 ≤ x.floor := by omega
  have hk2 : x.floor + 1 ≤ x.floor / 3600 * 3600 + x.floor % 3600 / 60 * 60 + 60 := by omega
  have hfl : x.floor * x.den ≤ x.num := Nat.div_mul_le_self _ _
  have hfl2 : x.num < (x.floor + 1) * x.den := by
    have := Nat.lt_mul_div_succ x.num hden
    simp only [F64.floor]
    calc x.num < x.den * (x.num / x.den + 1) := this
      _ = (x.num / x.den + 1) * x.den := Nat.mul_comm _ _
  have hle : (x.floor / 3600 * 3600 + x.floor % 3600 / 60 * 60) * x.den ≤ x.num :=
    le_trans (Nat.mul_le_mul_right _ hk) hfl
  have hlt : x.num - (x.floor / 3600 * 3600 + x.floor % 3600 / 60 * 60) * x.den < 60 * x.den := by
    have h1 : (x.floor + 1) * x.den ≤
        (x.floor / 3600 * 3600 + x.floor % 3600 / 60 * 60 + 60) * x.den :=
      Nat.mul_le_mul_right _ hk2
    have h2 : (x.floor / 3600 * 3600 + x.floor % 3600 / 60 * 60 + 60) * x.den =
        (x.floor / 3600 * 3600 + x.floor % 3600 / 60 * 60) * x.den + 60 * x.den :=
      Nat.add_mul _ _ _
    omega
  have hnum : x.num < 2 ^ 53 := by
    by_cases he : 0 ≤ x.e
    · have hd1 : x.den = 1 := by
        have : (-x.e).toNat = 0 := by omega
        simp [F64.den, this]
      have : x.floor = x.num := by simp [F64.floor, hd1]
      omega
    · have : x.e.toNat = 0 := by omega
      simpa [F64.num, this] using hm
  have hsub := sub_ofNat x (x.floor / 3600 * 3600 + x.floor % 3600 / 60 * 60) (by omega) hle
    (by omega)
  refine ⟨?_, by omega, hle, hlt, by decide, by decide⟩
  unfold durationStr F64.toInt
  rw [if_pos (by omega)]
  simp only [gt_iff_lt, hsub]
  split_ifs <;> rfl

/-- Witness of C11 (amended): 3661.5 seconds, given as `7323 / 2`. -/
theorem duration_string_witness : durationStr ⟨7323, -1⟩ = some "1H1M1.500S" :=
  (duration_string ⟨7323, -1⟩ (by decide) (by decide)).1

/-! ## Claims about the empty-segment check -/

/-- C21: for an `stts` table of `N` samples with `N < 2^32 - 1`: if `N ≥ 1`, then for
every start and end `getSampleRange` returns a range with `first < last ≤ N + 1`;
consequently the check `startSample >= endSample` of `GenerateMediaSegment` (the error
"no samples in segment") fires only for a table of zero samples, for which the range
is `(1, 1)`. -/
theorem sample_range_nonempty (stbl : StblBox) (stts : SttsBox) (h : stbl.Stts = some stts)
    (hN : totalSamples stts + 1 < u32) :
    (1 ≤ totalSamples stts → ∀ s e, ∃ first last,
        getSampleRange stbl s e = Except.ok (first, last) ∧ first < last ∧
          last ≤ totalSamples stts + 1) ∧
      (∀ (segmentDuration : Nat) (vf : VideoFile) (segmentIndex j : Int),
        vf.VideoTrack = some ⟨some stbl⟩ →
        GenerateMediaSegmentRange segmentDuration vf segmentIndex =
          Except.error (SegError.noSamplesInSegment j) →
        totalSamples stts = 0) ∧
      (∀ (lib : Mp4Lib) (segmentDuration : Nat) (vf : Source) (cursor : Nat)
          (segmentIndex j : Int) (trak : Trak) (mdia : Mdia) (minf : Minf) (table : Stbl)
          (bytes : Option (List Byte)),
        vf.VideoTrack = some trak → trak.Mdia = some mdia → mdia.Minf = some minf →
        minf.Stbl = some table → table.Stts = some stts →
        GenerateMediaSegment lib segmentDuration vf cursor segmentIndex =
          Run.returned (bytes, some (MediaError.noSamplesInSegment j)) →
        totalSamples stts = 0) ∧
      (totalSamples stts = 0 → ∀ s e, getSampleRange stbl s e = Except.ok (1, 1)) := by
  refine ⟨?_, ?_, ?_, ?_⟩
  · intro h1 s e
    exact getSampleRange_nonempty stbl stts s e h h1 hN
  · intro segmentDuration vf segmentIndex j hvt herr
    by_contra hne
    obtain ⟨first, last, hr, hlt, _⟩ := getSampleRange_nonempty stbl stts
      (segmentWindow segmentDuration vf segmentIndex).1
      (segmentWindow segmentDuration vf segmentIndex).2 h (by omega) hN
    unfold GenerateMediaSegmentRange at herr
    rw [hvt] at herr
    simp only [hr] at herr
    rw [if_neg (by omega)] at herr
    cases herr
  · intro lib segmentDuration vf cursor segmentIndex j trak mdia minf table bytes h1 h2 h3 h4 h5 hg
    exact GenerateMediaSegment_check lib segmentDuration vf cursor segmentIndex j trak mdia minf
      table stts bytes h1 h2 h3 h4 h5 hN hg
  · intro h0 s e
    exact getSampleRange_empty stbl stts s e h h0

/-- Witness of C21: three samples of 3000 ticks and the window `[8000, 9000)`, whose
range is `(0, 4)`. -/
theorem sample_range_nonempty_witness :
    ∃ first last, getSampleRange ⟨some ⟨[⟨3, 3000⟩]⟩⟩ 8000 9000 = Except.ok (first, last) ∧
      first < last ∧ last ≤ totalSamples ⟨[⟨3, 3000⟩]⟩ + 1 :=
  (sample_range_nonempty ⟨some ⟨[⟨3, 3000⟩]⟩⟩ ⟨[⟨3, 3000⟩]⟩ rfl (by decide)).1 (by decide)
    8000 9000

/-! ## Claims about the base decode time of a fragment -/

/-- C22 fails as stated: `createTraf` writes the start of the segment window into
`tfdt`, not the decode time of a sample.  For three samples of 3000 ticks, duration
9000, timescale 1000 and `D = 4` there are 3 segments; segment 1 emits the range
`[3, 4)` with base time 4000, while sample 3 is decoded at 6000; and segment 0 emits
`[1, 3)` with base time 0 and durations `3000 + 3000`, which end at 6000, not at the
base time 4000 of segment 1. -/
theorem tfdt_is_window_start :
    GetSegmentCount 4 ⟨1000, 9000, some ⟨some ⟨some ⟨[⟨3, 3000⟩]⟩⟩⟩⟩ = some 3 ∧
      GenerateMediaSegmentRange 4 ⟨1000, 9000, some ⟨some ⟨some ⟨[⟨3, 3000⟩]⟩⟩⟩⟩ 1 =
        Except.ok ⟨3, 4, 4000⟩ ∧
      decodeTime ⟨[⟨3, 3000⟩]⟩ 3 = 6000 ∧
      createTraf
          ⟨"a.mp4", [10, 11, 12, 13, 14, 15, 16, 17], ⟨none⟩, 1000, 9000,
            some ⟨none, some ⟨some ⟨"vide"⟩, some ⟨1000, 9000⟩, some ⟨some
              ⟨none, some ⟨[⟨3, 3000⟩]⟩, some ⟨fun _ => 2⟩, none, none,
                some ⟨fun _ => Except.ok (1, 1)⟩, some ⟨[1]⟩, none⟩⟩⟩⟩, none, "", 0, 0⟩ 0
          ⟨none, some ⟨[⟨3, 3000⟩]⟩, some ⟨fun _ => 2⟩, none, none,
            some ⟨fun _ => Except.ok (1, 1)⟩, some ⟨[1]⟩, none⟩ 1 3 4 4000 =
        Run.returned (Except.ok
          (⟨some ⟨1, 0x020000⟩, some ⟨4000⟩, some ⟨0, 0x000F01, [⟨0x2000000, 3000, 2, 0⟩], 1⟩⟩,
            [15, 16])) ∧
      GenerateMediaSegmentRange 4 ⟨1000, 9000, some ⟨some ⟨some ⟨[⟨3, 3000⟩]⟩⟩⟩⟩ 0 =
        Except.ok ⟨1, 3, 0⟩ ∧
      0 + ((sampleDeltas ⟨[⟨3, 3000⟩]⟩).getD 0 0 + (sampleDeltas ⟨[⟨3, 3000⟩]⟩).getD 1 0) ≠ 4000 :=
  ⟨by decide, by rfl, by decide, by rfl, by rfl, by decide⟩

/-- C22, amended: for a source with timescale > 0, `D > 0`,
`duration + D * timescale ≤ 2^63` and an `stts` table of `N` samples (`N + 1 < 2^32`,
`uint32` deltas), and a segment index `i < GetSegmentCount` such that some sample is
decoded exactly at `i * D * timescale`: the segment emits a range `[first, last)` with
`1 ≤ first < last ≤ N + 1`, the base time handed to `createTraf` and written into
`tfdt` is `i * D * timescale`, and it equals the decode time of sample `first`.  If
moreover some sample ends exactly at `(i + 1) * D * timescale ≤ duration`, then
`last` is decoded at `(i + 1) * D * timescale` and the base time plus the sum of the
`trun` durations equals `(i + 1) * D * timescale`, the base time of segment `i + 1`. -/
theorem tfdt_at_sample_boundary (D : Nat) (vf : VideoFile) (stbl : StblBox) (stts : SttsBox)
    (c : Int) (i : Nat)
    (hvt : vf.VideoTrack = some ⟨some stbl⟩) (hst : stbl.Stts = some stts)
    (hts : 0 < vf.Timescale) (hD : 0 < D) (hov : vf.Duration + D * vf.Timescale ≤ 2 ^ 63)
    (hN : totalSamples stts + 1 < u32) (hd : ∀ en ∈ stts.Entries, en.SampleTimeDelta < u32)
    (hc : GetSegmentCount D vf = some c) (hi : (i : Int) < c)
    (hf : ∃ f, 1 ≤ f ∧ f ≤ totalSamples stts ∧ decodeTime stts f = i * (D * vf.Timescale)) :
    ∃ first last,
      GenerateMediaSegmentRange D vf (i : Int) =
        Except.ok ⟨first, last, i * (D * vf.Timescale)⟩ ∧
      1 ≤ first ∧ first < last ∧ last ≤ totalSamples stts + 1 ∧
      decodeTime stts first = i * (D * vf.Timescale) ∧
      ((∃ m, 1 ≤ m ∧ m ≤ totalSamples stts ∧ endTime stts m = (i + 1) * (D * vf.Timescale) ∧
          (i + 1) * (D * vf.Timescale) ≤ vf.Duration) →
        decodeTime stts last = (i + 1) * (D * vf.Timescale)) ∧
      ∀ (src : Source) (cursor : Nat) (table : Stbl) (traf : TrafBox) (mdatData : List Byte),
        table.Stts = some stts →
        createTraf src cursor table 1 first last (i * (D * vf.Timescale)) =
          Run.returned (Except.ok (traf, mdatData)) →
        traf.Tfdt = some ⟨i * (D * vf.Timescale)⟩ ∧
        ∃ trun, traf.Trun = some trun ∧
          ((∃ m, 1 ≤ m ∧ m ≤ totalSamples stts ∧
              endTime stts m = (i + 1) * (D * vf.Timescale) ∧
              (i + 1) * (D * vf.Timescale) ≤ vf.Duration) →
            i * (D * vf.Timescale) + (trun.Samples.map Sample.Dur).sum =
              (i + 1) * (D * vf.Timescale)) := by
  have hw0 : 0 < D * vf.Timescale := Nat.mul_pos hD hts
  have hlen := sampleDeltas_length stts
  have hstart := segment_start_lt D vf c i hts hD hov hc hi
  have hnext : i * (D * vf.Timescale) < (i + 1) * (D * vf.Timescale) := by
    rw [Nat.add_mul]
    omega
  obtain ⟨f, hf1, hf2, hf3⟩ := hf
  have hA : ∃ k, 1 ≤ k ∧ k ≤ totalSamples stts ∧ i * (D * vf.Timescale) ≤ decodeTime stts k ∧
      decodeTime stts k < min ((i + 1) * (D * vf.Timescale)) vf.Duration :=
    ⟨f, hf1, hf2, by omega, by rw [hf3]; exact lt_min hnext hstart⟩
  have hplan := GenerateMediaSegmentRange_window D vf stbl stts i hvt hst hts hD
    (by rw [u64_eq]; omega) hN hd hA
  have hwin := countBelow_window stts _ _ hA
  have hle := countBelow_le_length (min ((i + 1) * (D * vf.Timescale)) vf.Duration) 0
    (sampleDeltas stts)
  have hfirst : decodeTime stts (countBelow (i * (D * vf.Timescale)) 0 (sampleDeltas stts) + 1) =
      i * (D * vf.Timescale) := by
    simp only [decodeTime, Nat.add_sub_cancel]
    exact (countBelow_exact _ (sampleDeltas stts) (f - 1) (by omega)
      (by simpa [decodeTime] using hf3)).2
  have hlast : (∃ m, 1 ≤ m ∧ m ≤ totalSamples stts ∧
      endTime stts m = (i + 1) * (D * vf.Timescale) ∧
      (i + 1) * (D * vf.Timescale) ≤ vf.Duration) →
      decodeTime stts
        (countBelow (min ((i + 1) * (D * vf.Timescale)) vf.Duration) 0 (sampleDeltas stts) + 1) =
        (i + 1) * (D * vf.Timescale) := by
    rintro ⟨m, hm1, hm2, hm3, hm4⟩
    rw [Nat.min_eq_left hm4]
    simp only [decodeTime, Nat.add_sub_cancel]
    exact (countBelow_exact _ (sampleDeltas stts) m (by omega)
      (by simpa [endTime] using hm3)).2
  refine ⟨_, _, hplan, by omega, by omega, by omega, hfirst, hlast, ?_⟩
  intro src cursor table traf mdatData ht hcreate
  obtain ⟨h1, trun, h2, h3⟩ := trun_durations_sum src cursor table stts 1 _ _ _ traf mdatData ht
    (by omega) (by omega) (by omega) (by omega) hcreate
  refine ⟨h1, trun, h2, ?_⟩
  intro hm
  rw [hfirst, hlast hm] at h3
  omega

/-- Witness of C22 (amended): eight samples of 1000 ticks, duration 8000, `D = 4`;
segment 1 of 2 starts at 4000, the decode time of sample 5. -/
theorem tfdt_at_sample_boundary_witness :
    ∃ first last,
      GenerateMediaSegmentRange 4 ⟨1000, 8000, some ⟨some ⟨some ⟨[⟨8, 1000⟩]⟩⟩⟩⟩ ((1 : Nat) : Int) =
        Except.ok ⟨first, last, 1 * (4 * 1000)⟩ ∧
      decodeTime ⟨[⟨8, 1000⟩]⟩ first = 1 * (4 * 1000) := by
  obtain ⟨first, last, h1, _, _, _, h5, _⟩ :=
    tfdt_at_sample_boundary 4 ⟨1000, 8000, some ⟨some ⟨some ⟨[⟨8, 1000⟩]⟩⟩⟩⟩ ⟨some ⟨[⟨8, 1000⟩]⟩⟩
      ⟨[⟨8, 1000⟩]⟩ 2 1 rfl rfl (by decide) (by decide) (by decide) (by decide) (by decide)
      (by decide) (by decide) ⟨5, by decide, by decide, by decide⟩
  exact ⟨first, last, h1, h5⟩

end JitStreamer
